import Mathlib

/- Shallow embedding of src/mem_pool.c: a fixed-capacity memory-pool allocator built
   from a block-descriptor table ("node heap"), an address-ordered doubly linked
   partition threaded through the descriptors, and a size-indexed table of free
   blocks (the "gap index").

   Modelling conventions, kept uniform through the file:
   * Pointers to descriptors are slot indices into the node heap; `Option Nat`
     with `none` standing for NULL.
   * `alloc_record.mem` holds the offset of a block inside the pool buffer
     (`none` standing for NULL).  C compares such pointers with `<` and `==`;
     `ptrVal` maps NULL strictly below every buffer address, which matches a flat
     address space whose buffer base is positive.
   * C unsigned counters become `Nat`.  Every subtraction reached in the verified
     scenarios satisfies `b ≤ a`, where C modular subtraction and Nat truncated
     subtraction agree.
   * The gap index array is modelled by its live prefix `gap_ix[0 .. num_gaps)`.
     The C code keeps every slot at and beyond `num_gaps` zeroed, writes a new
     entry exactly at position `num_gaps` (modelled by appending) and deletes by
     shifting the tail one slot left and zeroing the vacated slot (modelled by
     `List.eraseIdx`); while `num_gaps` does not exceed the capacity counter these
     are the exact live-prefix effects of the C loops.
   * The float tests `(float) a / b > 0.75` are modelled exactly by `4 * a > 3 * b`;
     for the magnitudes involved the float quotient is exact enough for the
     comparison, and the rule also reproduces the division-by-zero cases
     (IEEE +inf > 0.75 when a > 0 and b = 0, NaN compares false when both are 0).
-/

namespace MemPool

inductive AllocStatus where
  | ALLOC_OK
  | ALLOC_FAIL
  | ALLOC_NOT_FREED
  | ALLOC_CALLED_AGAIN
  deriving DecidableEq, Repr

inductive AllocPolicy where
  | FIRST_FIT
  | BEST_FIT
  deriving DecidableEq, Repr

/-- alloc_t: a buffer extent, an offset (`mem`, none = NULL) plus a size. -/
structure AllocRecord where
  mem : Option Nat
  size : Nat
  deriving DecidableEq, Repr

/-- node_t: one block descriptor of the node heap (mem_pool.c lines 32-37). -/
structure Node where
  alloc_record : AllocRecord
  used : Nat
  allocated : Nat
  next : Option Nat
  prev : Option Nat
  deriving DecidableEq, Repr

/-- gap_t: one gap-index entry (mem_pool.c lines 39-42). -/
structure Gap where
  size : Nat
  node : Option Nat
  deriving DecidableEq, Repr

/-- pool_t: the public pool record; `mem` records whether the backing buffer
    pointer is non-NULL. -/
structure Pool where
  mem : Bool
  policy : AllocPolicy
  total_size : Nat
  alloc_size : Nat
  num_allocs : Nat
  num_gaps : Nat
  deriving DecidableEq, Repr

/-- pool_mgr_t (mem_pool.c lines 44-51). -/
structure PoolMgr where
  pool : Pool
  node_heap : List Node
  total_nodes : Nat
  used_nodes : Nat
  gap_ix : List Gap
  gap_ix_capacity : Nat
  deriving DecidableEq, Repr

/-- A zeroed descriptor slot: what calloc produces at pool open, and what the
    deallocator leaves behind when it retires a merged descriptor. -/
def freshNode : Node :=
  { alloc_record := { mem := none, size := 0 }, used := 0, allocated := 0,
    next := none, prev := none }

def zeroGap : Gap := { size := 0, node := none }

def nodeAt (H : List Node) (i : Nat) : Node := H.getD i freshNode

/-- Read through a gap entry's node pointer, as the C scans do.  Dereferencing a
    NULL entry is undefined behaviour in C; live entries never hold NULL. -/
def gapNode (H : List Node) (g : Gap) : Node :=
  match g.node with
  | some i => nodeAt H i
  | none => freshNode

/-- Write one descriptor slot through its index ("pointer"). -/
def updNode (s : PoolMgr) (i : Nat) (f : Node → Node) : PoolMgr :=
  { s with node_heap := s.node_heap.set i (f (nodeAt s.node_heap i)) }

/-- Value of a buffer pointer in a flat address space: NULL = 0, buffer base
    positive, so an offset `o` lives at address `o + 1`. -/
def ptrVal : Option Nat → Nat
  | none => 0
  | some o => o + 1

/-- Pointer arithmetic `mem + size` on a buffer pointer. -/
def ptrAdd (m : Option Nat) (d : Nat) : Option Nat := m.map (· + d)

def MEM_NODE_HEAP_INIT_CAPACITY : Nat := 40
def MEM_GAP_IX_INIT_CAPACITY : Nat := 40

/-- mem_pool_open (mem_pool.c lines 123-204): seed one active free descriptor
    spanning the buffer and one matching gap-index entry.  The registry append
    (lines 192-202) is process-global bookkeeping and not part of the per-pool
    state modelled here. -/
def mem_pool_open (size : Nat) (policy : AllocPolicy) : PoolMgr :=
  { pool := { mem := true, policy := policy, total_size := size,
              alloc_size := 0, num_allocs := 0, num_gaps := 1 }
    node_heap :=
      { alloc_record := { mem := some 0, size := size }, used := 1, allocated := 0,
        next := none, prev := none } ::
      List.replicate (MEM_NODE_HEAP_INIT_CAPACITY - 1) freshNode
    total_nodes := MEM_NODE_HEAP_INIT_CAPACITY
    used_nodes := 1
    gap_ix := [{ size := size, node := some 0 }]
    gap_ix_capacity := MEM_GAP_IX_INIT_CAPACITY }

/-- mem_pool_close (mem_pool.c lines 206-239): refuse unless the buffer is
    allocated, there is at most one gap and no outstanding allocation; on success
    release the buffer, node heap and gap index. -/
def mem_pool_close (s : PoolMgr) : PoolMgr × AllocStatus :=
  if s.pool.mem = false ∨ 1 < s.pool.num_gaps ∨ 0 < s.pool.num_allocs then
    (s, AllocStatus.ALLOC_NOT_FREED)
  else
    ({ s with pool := { s.pool with mem := false }, node_heap := [], gap_ix := [] },
     AllocStatus.ALLOC_OK)

/-- _mem_resize_pool_store (mem_pool.c lines 519-528), reduced to its counters:
    double the registry capacity when size/capacity > 0.75.  The C realloc byte
    count (`MEM_EXPAND_FACTOR * sizeof(pool_store)` = 16 bytes) does not match the
    doubled capacity, and the reallocated tail is never zeroed. -/
def mem_resize_pool_store (size capacity : Nat) : Nat :=
  if 4 * size > 3 * capacity then capacity * 2 else capacity

/-- _mem_resize_node_heap (mem_pool.c lines 529-548).  The trigger compares the
    FIRST descriptor's `used` flag against that descriptor's block size
    (`node_heap->used / node_heap->alloc_record.size`), not the table occupancy
    against the table capacity; and the zero-initialisation loop
    `for (i = total_nodes; i < total_nodes; ++i)` runs zero times, so only the
    capacity counter changes.  (The function is never called by the allocation
    path: its call sites at lines 251-256 are commented out.) -/
def mem_resize_node_heap (s : PoolMgr) : PoolMgr :=
  let n0 := nodeAt s.node_heap 0
  if 4 * n0.used > 3 * n0.alloc_record.size then
    { s with total_nodes := s.total_nodes * 2 }
  else s

/-- _mem_resize_gap_ix (mem_pool.c lines 551-566): double the capacity counter
    when num_gaps/capacity > 0.75; the zero loop only touches slots at and beyond
    `num_gaps`, which are outside the live prefix.  (The C realloc byte count is
    16 bytes here as well.) -/
def mem_resize_gap_ix (s : PoolMgr) : PoolMgr :=
  if 4 * s.pool.num_gaps > 3 * s.gap_ix_capacity then
    { s with gap_ix_capacity := s.gap_ix_capacity * 2 }
  else s

/-- One compare-and-swap of _mem_sort_gap_ix at positions (i-1, i)
    (mem_pool.c lines 623-629).  The source swaps when the current node's block
    size is strictly smaller than the previous node's, OR when its buffer address
    is strictly smaller — there is no equal-size tie-break. -/
def sortStep (H : List Node) (G : List Gap) (i : Nat) : List Gap :=
  let cur := G.getD i zeroGap
  let prv := G.getD (i - 1) zeroGap
  if (gapNode H cur).alloc_record.size < (gapNode H prv).alloc_record.size ∨
     ptrVal (gapNode H cur).alloc_record.mem < ptrVal (gapNode H prv).alloc_record.mem then
    (G.set (i - 1) cur).set i prv
  else G

/-- The descending loop of _mem_sort_gap_ix: indices fuel, fuel-1, ..., 1. -/
def sortLoop (H : List Node) (G : List Gap) : Nat → List Gap
  | 0 => G
  | k + 1 => sortLoop H (sortStep H G (k + 1)) k

/-- _mem_sort_gap_ix (mem_pool.c lines 617-632). -/
def mem_sort_gap_ix (s : PoolMgr) : PoolMgr :=
  { s with gap_ix := sortLoop s.node_heap s.gap_ix (s.pool.num_gaps - 1) }

/-- _mem_add_to_gap_ix (mem_pool.c lines 568-587): maybe resize, write the new
    entry at position num_gaps, bump num_gaps, then bubble the entry up.  The
    status check at lines 581-586 always yields ALLOC_OK. -/
def mem_add_to_gap_ix (s : PoolMgr) (size : Nat) (node : Option Nat) :
    PoolMgr × AllocStatus :=
  let s := mem_resize_gap_ix s
  let s := { s with
              gap_ix := s.gap_ix ++ [{ size := size, node := node }]
              pool := { s.pool with num_gaps := s.pool.num_gaps + 1 } }
  let s := mem_sort_gap_ix s
  (s, AllocStatus.ALLOC_OK)

/-- _mem_remove_from_gap_ix (mem_pool.c lines 589-615): linear search for the
    node pointer (the `size` argument is ignored, exactly as in the source;
    `index` stays 0 when nothing matches), shift the tail one slot left, zero the
    vacated slot, and decrement BOTH num_gaps and the capacity counter (line 609). -/
def mem_remove_from_gap_ix (s : PoolMgr) (_size : Nat) (node : Option Nat) :
    PoolMgr × AllocStatus :=
  let index := (s.gap_ix.findIdx? (fun g => g.node == node)).getD 0
  ({ s with
      gap_ix := s.gap_ix.eraseIdx index
      pool := { s.pool with num_gaps := s.pool.num_gaps - 1 }
      gap_ix_capacity := s.gap_ix_capacity - 1 },
   AllocStatus.ALLOC_OK)

/-- The FIRST_FIT scan (mem_pool.c lines 269-276): walk the descriptor table in
    raw slot order and take the first descriptor with `allocated == 0` whose size
    is at least the request. -/
def firstFitScan (H : List Node) (size : Nat) : Option Nat :=
  H.findIdx? (fun nd => nd.allocated == 0 && size ≤ nd.alloc_record.size)

/-- The BEST_FIT scan (mem_pool.c lines 277-285): walk the live gap-index entries
    in index order and take the node of the first entry whose node is unallocated
    with size at least the request. -/
def bestFitScan (H : List Node) (G : List Gap) (size : Nat) : Option Nat :=
  match G.findIdx? (fun g => (gapNode H g).allocated == 0 &&
                               size ≤ (gapNode H g).alloc_record.size) with
  | some i => (G.getD i zeroGap).node
  | none => none

/-- Candidate selection of mem_new_alloc (lines 268-285): FIRST_FIT walks the
    descriptor table, BEST_FIT walks the live gap-index entries. -/
def allocSelect (s : PoolMgr) (size : Nat) : Option Nat :=
  match s.pool.policy with
  | AllocPolicy.FIRST_FIT => firstFitScan s.node_heap size
  | AllocPolicy.BEST_FIT => bestFitScan s.node_heap (s.gap_ix.take s.pool.num_gaps) size

/-- The committed part of mem_new_alloc (lines 291-352), entered once the scan
    has selected descriptor `k`. -/
def mem_new_alloc_commit (s : PoolMgr) (size : Nat) (k : Nat) : PoolMgr × Option Nat :=
      -- lines 293-294
      let s := { s with pool := { s.pool with
                  num_allocs := s.pool.num_allocs + 1
                  alloc_size := s.pool.alloc_size + size } }
      -- line 296
      let remaining_gap := (nodeAt s.node_heap k).alloc_record.size - size
      -- line 298
      let s := (mem_remove_from_gap_ix s size (some k)).1
      -- lines 300-302 (the selected node keeps its offset; `used` is untouched)
      let s := updNode s k (fun nd =>
                 { nd with allocated := 1
                           alloc_record := { nd.alloc_record with size := size } })
      if remaining_gap ≠ 0 then
        -- lines 310-315: first unused descriptor slot in raw slot order
        match s.node_heap.findIdx? (fun nd => nd.used == 0) with
        | none => (s, none)  -- line 316: unused_node NULL check
        | some u =>
          -- lines 320-324
          let s := updNode s u (fun nd =>
                     { nd with allocated := 0
                               used := 1
                               alloc_record :=
                                 { mem := ptrAdd (nodeAt s.node_heap k).alloc_record.mem size
                                   size := remaining_gap } })
          let s := { s with used_nodes := s.used_nodes + 1 }
          -- line 329
          let s := updNode s u (fun nd => { nd with prev := some k })
          -- lines 331-340: splice the remainder right after the allocated node
          let s :=
            match (nodeAt s.node_heap k).next with
            | none =>
                let s := updNode s k (fun nd => { nd with next := some u })
                updNode s u (fun nd => { nd with next := none })
            | some nn =>
                let s := updNode s u (fun nd => { nd with next := some nn })
                let s := updNode s nn (fun nd => { nd with prev := some u })
                updNode s k (fun nd => { nd with next := some u })
          -- line 346
          let s := (mem_add_to_gap_ix s remaining_gap (some u)).1
          (s, some k)
      else (s, some k)

/-- mem_new_alloc (mem_pool.c lines 241-353). -/
def mem_new_alloc (s : PoolMgr) (size : Nat) : PoolMgr × Option Nat :=
  -- line 247: no gaps at all
  if s.pool.num_gaps = 0 then (s, none)
  -- line 260: conservative descriptor-slot check (even an exact fit is refused
  -- when the table is full; the resize call above it is commented out)
  else if s.total_nodes ≤ s.used_nodes then (s, none)
  else
    match allocSelect s size with
    | none => (s, none)  -- line 288
    | some k => mem_new_alloc_commit s size k

/-- The forward-merge block of mem_del_alloc (lines 383-417), with
    node_to_delete in slot `d`. -/
def del_fwd_merge (s : PoolMgr) (d : Nat) : PoolMgr :=
    match (nodeAt s.node_heap d).next with
      | none => s
      | some nx =>
        if (nodeAt s.node_heap nx).allocated = 0 then
          -- line 385: the condition's `node_to_delete->next->used = 1` is an
          -- assignment, so it both stores 1 and evaluates to true
          let s := updNode s nx (fun nd => { nd with used := 1 })
          -- line 388
          let s := (mem_remove_from_gap_ix s (nodeAt s.node_heap nx).alloc_record.size (some nx)).1
          -- line 389
          let s := updNode s d (fun nd => { nd with alloc_record :=
                     { nd.alloc_record with
                       size := nd.alloc_record.size + (nodeAt s.node_heap nx).alloc_record.size } })
          -- lines 390-394: retire the successor's slot
          let s := updNode s nx (fun nd =>
                     { nd with used := 0
                               alloc_record := { mem := none, size := 0 } })
          -- line 396
          let s := { s with used_nodes := s.used_nodes - 1 }
          -- lines 408-414: unlink the successor
          let s :=
            match (nodeAt s.node_heap nx).next with
            | some nn =>
                let s := updNode s nn (fun nd => { nd with prev := some d })
                updNode s d (fun nd => { nd with next := some nn })
            | none => updNode s d (fun nd => { nd with next := none })
          -- lines 415-416
          updNode s nx (fun nd => { nd with next := none, prev := none })
        else s

/-- The backward-merge block of mem_del_alloc (lines 427-473), with
    node_to_delete in slot `d`. -/
def del_bwd_merge (s : PoolMgr) (d : Nat) : PoolMgr :=
    match (nodeAt s.node_heap d).prev with
      | none => s
      | some p =>
        if (nodeAt s.node_heap p).allocated = 0 then
          -- line 429: assignment `node_to_delete->prev->used = 1` in the condition
          let s := updNode s p (fun nd => { nd with used := 1 })
          -- lines 431-436: both removals return ALLOC_OK, the FAIL branches are dead
          let s := (mem_remove_from_gap_ix s (nodeAt s.node_heap p).alloc_record.size (some p)).1
          let s := (mem_remove_from_gap_ix s (nodeAt s.node_heap d).alloc_record.size (some d)).1
          -- line 437: prev.size := node_to_delete.size + prev.size
          let s := updNode s p (fun nd => { nd with alloc_record :=
                     { nd.alloc_record with
                       size := (nodeAt s.node_heap d).alloc_record.size + nd.alloc_record.size } })
          -- lines 438-440: retire node_to_delete's slot
          let s := updNode s d (fun nd =>
                     { nd with used := 0
                               alloc_record := { mem := none, size := 0 } })
          -- line 442
          let s := { s with used_nodes := s.used_nodes - 1 }
          -- lines 457-463: unlink node_to_delete
          let s :=
            match (nodeAt s.node_heap d).next with
            | some nn =>
                let s := updNode s p (fun nd => { nd with next := some nn })
                updNode s nn (fun nd => { nd with prev := some p })
            | none => updNode s p (fun nd => { nd with next := none })
          -- lines 464-465
          let s := updNode s d (fun nd => { nd with next := none, prev := none })
          -- line 472
          (mem_add_to_gap_ix s (nodeAt s.node_heap p).alloc_record.size (some p)).1
        else s

/-- The committed part of mem_del_alloc (lines 374-474), with node_to_delete in
    slot `d`. -/
def mem_del_alloc_commit (s : PoolMgr) (d : Nat) : PoolMgr × AllocStatus :=
    -- line 374
    let s := updNode s d (fun nd => { nd with allocated := 0 })
    -- lines 376-377
    let s := { s with pool := { s.pool with
                num_allocs := s.pool.num_allocs - 1
                alloc_size := s.pool.alloc_size - (nodeAt s.node_heap d).alloc_record.size } }
    -- lines 383-417: forward merge with a free successor
    let s := del_fwd_merge s d
    -- line 418: add the (possibly forward-merged) node to the gap index
    let s := (mem_add_to_gap_ix s (nodeAt s.node_heap d).alloc_record.size (some d)).1
    -- lines 427-473: backward merge into a free predecessor
    let s := del_bwd_merge s d
    (s, AllocStatus.ALLOC_OK)

/-- mem_del_alloc (mem_pool.c lines 356-475).  The argument is the alloc record
    the caller's handle points at (the C casts the handle back to a node pointer
    and reads its `alloc_record.mem`). -/
def mem_del_alloc (s : PoolMgr) (alloc : AllocRecord) : PoolMgr × AllocStatus :=
  -- lines 363-369: scan the whole table for a matching buffer address; neither
  -- `used` nor `allocated` is consulted.  When nothing matches, the C variable
  -- node_to_delete is never assigned and line 371 intends the NULL check below.
  match s.node_heap.findIdx? (fun nd => nd.alloc_record.mem == alloc.mem) with
  | none => (s, AllocStatus.ALLOC_NOT_FREED)  -- lines 371-372
  | some d => mem_del_alloc_commit s d

/-- The alloc record a client handle for node `k` designates at call time (the C
    handle is the node's address; mem_del_alloc reads the record through it). -/
def handleRec (s : PoolMgr) (k : Nat) : AllocRecord := (nodeAt s.node_heap k).alloc_record

/-! Concrete operation sequences used to separate the implemented placement
    policies from the specified ones.  Every state below is produced exclusively
    by `mem_pool_open`, `mem_new_alloc` and `mem_del_alloc` on handles returned
    by earlier calls, so each is a state an ordinary client can reach. -/

/-- FIRST_FIT scenario: after splits and merges have recycled descriptor slots,
    slot order and address order disagree.  Blocks: A(0,100) B(100,100) C(200,100)
    D(300,100) E(400,100); free B, free C (merge), refill with F(200); free D,
    free E (merge), G(50) splits into slot 2; free F, H(100) splits into slot 4.
    Final free blocks: slot 2 at offset 350 (size 150), slot 4 at offset 200
    (size 100). -/
def ffSlotState : PoolMgr :=
  let s := mem_pool_open 500 AllocPolicy.FIRST_FIT
  let s := (mem_new_alloc s 100).1
  let s := (mem_new_alloc s 100).1
  let s := (mem_new_alloc s 100).1
  let s := (mem_new_alloc s 100).1
  let s := (mem_new_alloc s 100).1
  let s := (mem_del_alloc s (handleRec s 1)).1
  let s := (mem_del_alloc s (handleRec s 2)).1
  let s := (mem_new_alloc s 200).1
  let s := (mem_del_alloc s (handleRec s 3)).1
  let s := (mem_del_alloc s (handleRec s 4)).1
  let s := (mem_new_alloc s 50).1
  let s := (mem_del_alloc s (handleRec s 1)).1
  (mem_new_alloc s 100).1

/-- BEST_FIT scenario: freeing the 50-byte block D and then the 100-byte block B
    leaves the gap index as [(100, node 1), (50, node 3)] — the sort's
    address-comparison disjunct moved the larger block first. -/
def bfUnsortedState : PoolMgr :=
  let s := mem_pool_open 450 AllocPolicy.BEST_FIT
  let s := (mem_new_alloc s 100).1
  let s := (mem_new_alloc s 100).1
  let s := (mem_new_alloc s 100).1
  let s := (mem_new_alloc s 50).1
  let s := (mem_new_alloc s 100).1
  let s := (mem_del_alloc s (handleRec s 3)).1
  (mem_del_alloc s (handleRec s 1)).1

/-- Double-free scenario: allocate A(0,10) and B(10,20), free A, then pass A's
    handle to mem_del_alloc a second time. -/
def doubleFreeState : PoolMgr :=
  let s := mem_pool_open 200 AllocPolicy.FIRST_FIT
  let s := (mem_new_alloc s 10).1
  let s := (mem_new_alloc s 20).1
  (mem_del_alloc s (handleRec s 0)).1

/-- An open pool whose counters show zero gaps and zero allocations, fed to
    mem_pool_close. -/
def noGapPoolState : PoolMgr :=
  { mem_pool_open 100 AllocPolicy.FIRST_FIT with
      pool := { (mem_pool_open 100 AllocPolicy.FIRST_FIT).pool with num_gaps := 0 } }

/-- An open pool whose descriptor table holds 31 of 40 descriptors
    (occupancy 0.775, above the 0.75 fill threshold). -/
def crowdedHeapState : PoolMgr :=
  { mem_pool_open 100 AllocPolicy.FIRST_FIT with used_nodes := 31 }

/-! ## C5: when mem_pool_close succeeds -/

/-- C5 counterexample: on an open pool whose counters read `num_gaps = 0` and
    `num_allocs = 0`, mem_pool_close returns ALLOC_OK, while the claim demands
    NotFreed for every state other than `num_allocs = 0 ∧ num_gaps = 1` —
    explicitly including `num_gaps = 0`.  The source's guard (line 210) only
    rejects `num_gaps > 1`. -/
theorem mem_pool_close_zero_gaps_ok :
    noGapPoolState.pool.mem = true ∧ noGapPoolState.pool.num_allocs = 0 ∧
    noGapPoolState.pool.num_gaps = 0 ∧
    (mem_pool_close noGapPoolState).2 = AllocStatus.ALLOC_OK := by
  decide

/-- C5 amended: for every open pool, mem_pool_close returns Ok exactly when
    `num_allocs = 0` and `num_gaps ≤ 1` (not `= 1`), and whenever it returns
    NotFreed it releases nothing: the state is exactly as before the call. -/
theorem mem_pool_close_spec (s : PoolMgr) (hopen : s.pool.mem = true) :
    ((mem_pool_close s).2 = AllocStatus.ALLOC_OK ↔
      s.pool.num_allocs = 0 ∧ s.pool.num_gaps ≤ 1) ∧
    ((mem_pool_close s).2 = AllocStatus.ALLOC_NOT_FREED → (mem_pool_close s).1 = s) := by
  unfold mem_pool_close
  split
  case isTrue h =>
    refine ⟨?_, fun _ => rfl⟩
    simp only [hopen] at h
    constructor
    · intro hc; exact absurd hc (by simp)
    · intro ⟨ha, hg⟩
      rcases h with h | h | h
      · exact absurd h (by simp)
      · omega
      · omega
  case isFalse h =>
    push_neg at h
    refine ⟨?_, ?_⟩
    · simp only [true_iff]
      exact ⟨by omega, by omega⟩
    · intro hc; exact absurd hc (by simp)

theorem mem_pool_close_spec_witness :
    (mem_pool_open 5 AllocPolicy.FIRST_FIT).pool.mem = true ∧
    (((mem_pool_close (mem_pool_open 5 AllocPolicy.FIRST_FIT)).2 = AllocStatus.ALLOC_OK ↔
        (mem_pool_open 5 AllocPolicy.FIRST_FIT).pool.num_allocs = 0 ∧
        (mem_pool_open 5 AllocPolicy.FIRST_FIT).pool.num_gaps ≤ 1) ∧
      ((mem_pool_close (mem_pool_open 5 AllocPolicy.FIRST_FIT)).2 = AllocStatus.ALLOC_NOT_FREED →
        (mem_pool_close (mem_pool_open 5 AllocPolicy.FIRST_FIT)).1 =
          mem_pool_open 5 AllocPolicy.FIRST_FIT)) :=
  ⟨rfl, mem_pool_close_spec (mem_pool_open 5 AllocPolicy.FIRST_FIT) rfl⟩

/-! ## C7: the growable-table contract -/

/-- C7: the code violates the growable-table contract on both counts the claim
    makes.  First, removing a gap-index entry — here the removal performed by the
    very first allocation from a fresh pool — decrements the recorded capacity
    from 40 to 39, though the contract says capacity never decreases.  Second,
    with descriptor-table occupancy 31/40 > 0.75 the node-heap resize leaves the
    capacity at 40 instead of doubling it: its trigger compares descriptor 0's
    `used` flag against that descriptor's block size instead of occupancy against
    capacity. -/
theorem resize_contract_violated :
    ((mem_pool_open 100 AllocPolicy.FIRST_FIT).gap_ix_capacity = 40 ∧
     (mem_new_alloc (mem_pool_open 100 AllocPolicy.FIRST_FIT) 10).1.gap_ix_capacity = 39) ∧
    (4 * crowdedHeapState.used_nodes > 3 * crowdedHeapState.total_nodes ∧
     (mem_resize_node_heap crowdedHeapState).total_nodes = 40) := by
  decide

/-! ## C3: what FIRST_FIT actually selects -/

/-- C3 counterexample: from the reachable state `ffSlotState` (policy FIRST_FIT),
    a request of 100 selects descriptor slot 2, whose block sits at offset 350,
    even though the active free block at offset 200 (slot 4) also has size ≥ 100.
    The scan walks descriptor slots, not addresses. -/
theorem firstFit_not_address_order :
    ffSlotState.pool.policy = AllocPolicy.FIRST_FIT ∧
    (mem_new_alloc ffSlotState 100).2 = some 2 ∧
    (nodeAt ffSlotState.node_heap 2).alloc_record.mem = some 350 ∧
    (nodeAt ffSlotState.node_heap 4).used = 1 ∧
    (nodeAt ffSlotState.node_heap 4).allocated = 0 ∧
    (nodeAt ffSlotState.node_heap 4).alloc_record.mem = some 200 ∧
    100 ≤ (nodeAt ffSlotState.node_heap 4).alloc_record.size := by
  decide

/-- C3 amended: the FIRST_FIT scan selects the fitting free descriptor with the
    lowest SLOT index; whenever the fitting free descriptors happen to sit in
    slots whose order agrees with their buffer-address order, that block is also
    the lowest-address fitting free block. -/
theorem firstFit_lowest_slot (H : List Node) (R k : Nat)
    (hmono : ∀ j < H.length, ∀ i < j,
      ((nodeAt H i).allocated = 0 ∧ R ≤ (nodeAt H i).alloc_record.size) →
      ((nodeAt H j).allocated = 0 ∧ R ≤ (nodeAt H j).alloc_record.size) →
      ptrVal (nodeAt H i).alloc_record.mem < ptrVal (nodeAt H j).alloc_record.mem)
    (h : firstFitScan H R = some k) :
    k < H.length ∧
    (nodeAt H k).allocated = 0 ∧ R ≤ (nodeAt H k).alloc_record.size ∧
    (∀ i < k, ¬((nodeAt H i).allocated = 0 ∧ R ≤ (nodeAt H i).alloc_record.size)) ∧
    (∀ j < H.length, (nodeAt H j).allocated = 0 → R ≤ (nodeAt H j).alloc_record.size →
      ptrVal (nodeAt H k).alloc_record.mem ≤ ptrVal (nodeAt H j).alloc_record.mem) := by
  unfold firstFitScan at h
  rw [List.findIdx?_eq_some_iff_findIdx_eq] at h
  obtain ⟨hk, hfi⟩ := h
  have hpk : ((nodeAt H k).allocated == 0 && decide (R ≤ (nodeAt H k).alloc_record.size)) = true := by
    have := @List.findIdx_getElem _ (fun nd => nd.allocated == 0 && decide (R ≤ nd.alloc_record.size)) H (hfi ▸ hk)
    simpa [hfi, nodeAt, List.getD_eq_getElem?_getD, List.getElem?_eq_getElem hk] using this
  have hmin : ∀ i < k, ¬((nodeAt H i).allocated = 0 ∧ R ≤ (nodeAt H i).alloc_record.size) := by
    intro i hik
    have hi : i < H.length := lt_trans hik hk
    have hpf := @List.not_of_lt_findIdx _ (fun nd => nd.allocated == 0 && decide (R ≤ nd.alloc_record.size)) H i (hfi ▸ hik)
    rintro ⟨h1, h2⟩
    simp only [nodeAt, List.getD_eq_getElem?_getD, List.getElem?_eq_getElem hi,
      Option.getD_some] at h1 h2
    simp [h1, h2] at hpf
  simp only [Bool.and_eq_true, beq_iff_eq, decide_eq_true_eq] at hpk
  refine ⟨hk, hpk.1, hpk.2, hmin, ?_⟩
  intro j hj hfree hsize
  rcases lt_trichotomy j k with hlt | heq | hgt
  · exact absurd ⟨hfree, hsize⟩ (hmin j hlt)
  · subst heq; exact le_refl _
  · exact le_of_lt (hmono j hj k hgt ⟨hpk.1, hpk.2⟩ ⟨hfree, hsize⟩)

theorem firstFit_lowest_slot_witness :
    firstFitScan (mem_pool_open 9 AllocPolicy.FIRST_FIT).node_heap 4 = some 0 ∧
    (nodeAt (mem_pool_open 9 AllocPolicy.FIRST_FIT).node_heap 0).allocated = 0 ∧
    4 ≤ (nodeAt (mem_pool_open 9 AllocPolicy.FIRST_FIT).node_heap 0).alloc_record.size :=
  ⟨by decide,
   (firstFit_lowest_slot (mem_pool_open 9 AllocPolicy.FIRST_FIT).node_heap 4 0
     (by decide) (by decide)).2.1,
   (firstFit_lowest_slot (mem_pool_open 9 AllocPolicy.FIRST_FIT).node_heap 4 0
     (by decide) (by decide)).2.2.1⟩

/-! ## C4: what BEST_FIT actually selects -/

/-- C4 counterexample: from the reachable state `bfUnsortedState` (policy
    BEST_FIT), the gap index reads [(100, slot 1), (50, slot 3)] — NOT sorted
    ascending by size, because the insertion sort's condition also swaps on a
    strictly smaller address — and a request of 50 then selects the size-100
    block in slot 1 even though the free size-50 block in slot 3 fits. -/
theorem bestFit_not_smallest_fit :
    bfUnsortedState.pool.policy = AllocPolicy.BEST_FIT ∧
    bfUnsortedState.gap_ix =
      [{ size := 100, node := some 1 }, { size := 50, node := some 3 }] ∧
    (mem_new_alloc bfUnsortedState 50).2 = some 1 ∧
    (nodeAt bfUnsortedState.node_heap 1).alloc_record.size = 100 ∧
    (nodeAt bfUnsortedState.node_heap 3).used = 1 ∧
    (nodeAt bfUnsortedState.node_heap 3).allocated = 0 ∧
    (nodeAt bfUnsortedState.node_heap 3).alloc_record.size = 50 := by
  decide

/-- C4 amended: the BEST_FIT scan returns the node of the first fitting entry in
    gap-index order.  Only when the gap index happens to be sorted ascending by
    the nodes' block sizes is that a smallest fitting free block; the insertion
    sort does not guarantee this order, since it bubbles an entry left when its
    size is strictly smaller OR its address is strictly smaller, with no
    equal-size tie-break. -/
theorem bestFit_smallest_when_sorted (H : List Node) (G : List Gap) (R k : Nat)
    (hsorted : G.Pairwise (fun a b =>
      (gapNode H a).alloc_record.size ≤ (gapNode H b).alloc_record.size))
    (h : bestFitScan H G R = some k) :
    (∃ g ∈ G, g.node = some k) ∧
    (nodeAt H k).allocated = 0 ∧ R ≤ (nodeAt H k).alloc_record.size ∧
    ∀ g ∈ G, (gapNode H g).allocated = 0 → R ≤ (gapNode H g).alloc_record.size →
      (nodeAt H k).alloc_record.size ≤ (gapNode H g).alloc_record.size := by
  unfold bestFitScan at h
  set p : Gap → Bool := fun g => (gapNode H g).allocated == 0 &&
    decide (R ≤ (gapNode H g).alloc_record.size) with hp
  cases hfind : G.findIdx? p with
  | none => rw [hfind] at h; exact absurd h (by simp)
  | some i =>
    rw [hfind] at h
    have hnd : (G.getD i zeroGap).node = some k := h
    rw [List.findIdx?_eq_some_iff_findIdx_eq] at hfind
    obtain ⟨hi, hfi⟩ := hfind
    have hgi : G.getD i zeroGap = G[i] := by
      simp [List.getD_eq_getElem?_getD, List.getElem?_eq_getElem hi]
    rw [hgi] at hnd
    have hpi : p G[i] = true := by
      have := @List.findIdx_getElem _ p G (hfi ▸ hi)
      simpa [hfi] using this
    have hnode : gapNode H G[i] = nodeAt H k := by
      unfold gapNode; rw [hnd]
    rw [hp] at hpi
    simp only [hnode, Bool.and_eq_true, beq_iff_eq, decide_eq_true_eq] at hpi
    have hmem : G[i] ∈ G := by
      exact List.getElem_mem hi
    refine ⟨⟨G[i], hmem, hnd⟩, hpi.1, hpi.2, ?_⟩
    intro g hg hfree hsize
    obtain ⟨j, hj, rfl⟩ := List.getElem_of_mem hg
    rcases lt_trichotomy j i with hlt | heq | hgt
    · have hpf := @List.not_of_lt_findIdx _ p G j (hfi ▸ hlt)
      simp only [hp, Bool.and_eq_true, beq_iff_eq, decide_eq_true_eq] at hpf
      simp [hfree, hsize] at hpf
    · subst heq
      rw [hnode]
    · have := (List.pairwise_iff_getElem.mp hsorted) i j hi hj hgt
      rw [hnode] at this; exact this

theorem bestFit_smallest_when_sorted_witness :
    bestFitScan (mem_pool_open 9 AllocPolicy.BEST_FIT).node_heap
      (mem_pool_open 9 AllocPolicy.BEST_FIT).gap_ix 4 = some 0 ∧
    (nodeAt (mem_pool_open 9 AllocPolicy.BEST_FIT).node_heap 0).allocated = 0 ∧
    4 ≤ (nodeAt (mem_pool_open 9 AllocPolicy.BEST_FIT).node_heap 0).alloc_record.size :=
  ⟨by decide,
   (bestFit_smallest_when_sorted (mem_pool_open 9 AllocPolicy.BEST_FIT).node_heap
     (mem_pool_open 9 AllocPolicy.BEST_FIT).gap_ix 4 0
     (by simp [mem_pool_open]) (by decide)).2.1,
   (bestFit_smallest_when_sorted (mem_pool_open 9 AllocPolicy.BEST_FIT).node_heap
     (mem_pool_open 9 AllocPolicy.BEST_FIT).gap_ix 4 0
     (by simp [mem_pool_open]) (by decide)).2.2.1⟩

/-! ## C9: freeing a handle that matches no live allocation -/

/-- C9 counterexample: in `doubleFreeState` the handle of the already-freed block
    A designates extent (offset 0, size 10), which matches NO live allocated
    descriptor (slot 0 is an active gap).  The claim demands NotFreed with no
    modification, but mem_del_alloc matches slot 0 by address alone, returns
    ALLOC_OK, and mutates the pool: `num_allocs` drops from 1 to 0 and a second
    gap-index entry for slot 0 appears. -/
theorem del_alloc_matches_dead_descriptor :
    (doubleFreeState.node_heap.all fun nd =>
      !(nd.used == 1 && nd.allocated == 1 &&
        nd.alloc_record.mem == (handleRec doubleFreeState 0).mem)) = true ∧
    (mem_del_alloc doubleFreeState (handleRec doubleFreeState 0)).2 = AllocStatus.ALLOC_OK ∧
    doubleFreeState.pool.num_allocs = 1 ∧
    (mem_del_alloc doubleFreeState (handleRec doubleFreeState 0)).1.pool.num_allocs = 0 := by
  decide

/-- C9 amended: mem_del_alloc fails with NotFreed and leaves the pool untouched
    exactly when NO descriptor slot (live or not) has a matching buffer address;
    the search compares addresses only, so a handle whose address matches a free
    or retired descriptor is processed rather than rejected. -/
theorem del_alloc_no_match_not_freed (s : PoolMgr) (a : AllocRecord)
    (h : ∀ nd ∈ s.node_heap, nd.alloc_record.mem ≠ a.mem) :
    mem_del_alloc s a = (s, AllocStatus.ALLOC_NOT_FREED) := by
  unfold mem_del_alloc
  have : s.node_heap.findIdx? (fun nd => nd.alloc_record.mem == a.mem) = none := by
    rw [List.findIdx?_eq_none_iff]
    intro nd hnd
    simpa using h nd hnd
  rw [this]

theorem del_alloc_no_match_not_freed_witness :
    (∀ nd ∈ (mem_pool_open 10 AllocPolicy.FIRST_FIT).node_heap,
      nd.alloc_record.mem ≠ (AllocRecord.mk (some 999) 5).mem) ∧
    mem_del_alloc (mem_pool_open 10 AllocPolicy.FIRST_FIT) (AllocRecord.mk (some 999) 5) =
      (mem_pool_open 10 AllocPolicy.FIRST_FIT, AllocStatus.ALLOC_NOT_FREED) :=
  ⟨by decide, del_alloc_no_match_not_freed _ _ (by decide)⟩

/-! ## C8: the open/alloc/free round trip -/

/-- The pool-manager state right after allocating `R` from a freshly opened pool
    of size `N`, when the request consumes the whole seed gap (R = N). -/
def postAllocExact (N R : Nat) (pol : AllocPolicy) : PoolMgr :=
  { pool := { mem := true, policy := pol, total_size := N, alloc_size := R,
              num_allocs := 1, num_gaps := 0 }
    node_heap :=
      { alloc_record := { mem := some 0, size := R }, used := 1, allocated := 1,
        next := none, prev := none } :: List.replicate 39 freshNode
    total_nodes := 40
    used_nodes := 1
    gap_ix := []
    gap_ix_capacity := 39 }

/-- The pool-manager state right after allocating `R < N` from a freshly opened
    pool of size `N`: the seed gap is split, the remainder living in slot 1. -/
def postAllocSplit (N R : Nat) (pol : AllocPolicy) : PoolMgr :=
  { pool := { mem := true, policy := pol, total_size := N, alloc_size := R,
              num_allocs := 1, num_gaps := 1 }
    node_heap :=
      { alloc_record := { mem := some 0, size := R }, used := 1, allocated := 1,
        next := some 1, prev := none } ::
      { alloc_record := { mem := some R, size := N - R }, used := 1, allocated := 0,
        next := none, prev := some 0 } :: List.replicate 38 freshNode
    total_nodes := 40
    used_nodes := 2
    gap_ix := [{ size := N - R, node := some 1 }]
    gap_ix_capacity := 39 }

/-- A fully-free single-gap pool of size `N` with the given gap-index capacity. -/
def pristinePool (N : Nat) (pol : AllocPolicy) (cap : Nat) (tail : List Node) : PoolMgr :=
  { pool := { mem := true, policy := pol, total_size := N, alloc_size := 0,
              num_allocs := 0, num_gaps := 1 }
    node_heap :=
      { alloc_record := { mem := some 0, size := N }, used := 1, allocated := 0,
        next := none, prev := none } :: tail
    total_nodes := 40
    used_nodes := 1
    gap_ix := [{ size := N, node := some 0 }]
    gap_ix_capacity := cap }

theorem alloc_on_fresh_exact (N R : Nat) (pol : AllocPolicy) (hex : R = N) :
    mem_new_alloc (mem_pool_open N pol) R = (postAllocExact N R pol, some 0) := by
  subst hex
  unfold postAllocExact
  cases pol <;>
    simp [mem_new_alloc, mem_new_alloc_commit, allocSelect, mem_pool_open, firstFitScan, bestFitScan, gapNode, nodeAt,
      updNode, mem_remove_from_gap_ix, mem_add_to_gap_ix, mem_resize_gap_ix,
      mem_sort_gap_ix, sortLoop, sortStep, List.findIdx?_cons,
      MEM_NODE_HEAP_INIT_CAPACITY, MEM_GAP_IX_INIT_CAPACITY]

theorem alloc_on_fresh_split (N R : Nat) (pol : AllocPolicy) (hlt : R < N) :
    mem_new_alloc (mem_pool_open N pol) R = (postAllocSplit N R pol, some 0) := by
  have h : R ≤ N := le_of_lt hlt
  have h39 : List.replicate 39 freshNode = freshNode :: List.replicate 38 freshNode := rfl
  have hne : N - R ≠ 0 := by omega
  unfold postAllocSplit
  cases pol <;>
    simp [mem_new_alloc, mem_new_alloc_commit, allocSelect, mem_pool_open, firstFitScan, bestFitScan, gapNode, nodeAt,
      updNode, mem_remove_from_gap_ix, mem_add_to_gap_ix, mem_resize_gap_ix,
      mem_sort_gap_ix, sortLoop, sortStep, List.findIdx?_cons, h39, h, hne, ptrAdd,
      freshNode, MEM_NODE_HEAP_INIT_CAPACITY, MEM_GAP_IX_INIT_CAPACITY]

theorem del_after_exact (N R : Nat) (pol : AllocPolicy) (hex : R = N) :
    mem_del_alloc (postAllocExact N R pol) { mem := some 0, size := R } =
      (pristinePool N pol 39 (List.replicate 39 freshNode), AllocStatus.ALLOC_OK) := by
  subst hex
  unfold postAllocExact pristinePool
  simp [mem_del_alloc, mem_del_alloc_commit, del_fwd_merge, del_bwd_merge, nodeAt, updNode, mem_remove_from_gap_ix, mem_add_to_gap_ix,
    mem_resize_gap_ix, mem_sort_gap_ix, sortLoop, sortStep, List.findIdx?_cons]

theorem del_after_split (N R : Nat) (pol : AllocPolicy) (hlt : R < N) :
    mem_del_alloc (postAllocSplit N R pol) { mem := some 0, size := R } =
      (pristinePool N pol 38 (freshNode :: List.replicate 38 freshNode),
       AllocStatus.ALLOC_OK) := by
  have hsum : R + (N - R) = N := by omega
  unfold postAllocSplit pristinePool
  simp [mem_del_alloc, mem_del_alloc_commit, del_fwd_merge, del_bwd_merge, nodeAt, updNode, mem_remove_from_gap_ix, mem_add_to_gap_ix,
    mem_resize_gap_ix, mem_sort_gap_ix, sortLoop, sortStep, List.findIdx?_cons,
    freshNode, hsum]

/-- C8: open a pool of size N, allocate R ≤ N, free that same block through the
    handle returned (slot 0): the result has exactly one gap of size N,
    num_allocs = 0 and alloc_size = 0, like a freshly opened pool of size N. -/
theorem open_alloc_free_roundtrip (N R : Nat) (pol : AllocPolicy) (h : R ≤ N) :
    (mem_new_alloc (mem_pool_open N pol) R).2 = some 0 ∧
    ((mem_del_alloc (mem_new_alloc (mem_pool_open N pol) R).1
        (handleRec (mem_new_alloc (mem_pool_open N pol) R).1 0)).2 =
      AllocStatus.ALLOC_OK) ∧
    ((mem_del_alloc (mem_new_alloc (mem_pool_open N pol) R).1
        (handleRec (mem_new_alloc (mem_pool_open N pol) R).1 0)).1.pool.num_allocs = 0) ∧
    ((mem_del_alloc (mem_new_alloc (mem_pool_open N pol) R).1
        (handleRec (mem_new_alloc (mem_pool_open N pol) R).1 0)).1.pool.alloc_size = 0) ∧
    ((mem_del_alloc (mem_new_alloc (mem_pool_open N pol) R).1
        (handleRec (mem_new_alloc (mem_pool_open N pol) R).1 0)).1.pool.num_gaps = 1) ∧
    ((mem_del_alloc (mem_new_alloc (mem_pool_open N pol) R).1
        (handleRec (mem_new_alloc (mem_pool_open N pol) R).1 0)).1.gap_ix =
      [{ size := N, node := some 0 }]) ∧
    ((nodeAt (mem_del_alloc (mem_new_alloc (mem_pool_open N pol) R).1
        (handleRec (mem_new_alloc (mem_pool_open N pol) R).1 0)).1.node_heap 0).allocated
      = 0) ∧
    ((nodeAt (mem_del_alloc (mem_new_alloc (mem_pool_open N pol) R).1
        (handleRec (mem_new_alloc (mem_pool_open N pol) R).1 0)).1.node_heap 0).alloc_record
      = { mem := some 0, size := N }) := by
  rcases eq_or_lt_of_le h with hex | hlt
  · have ha := alloc_on_fresh_exact N R pol hex
    have hrec : handleRec (postAllocExact N R pol) 0 = { mem := some 0, size := R } := rfl
    have hd := del_after_exact N R pol hex
    rw [ha]
    simp [hrec, hd, pristinePool, nodeAt]
  · have ha := alloc_on_fresh_split N R pol hlt
    have hrec : handleRec (postAllocSplit N R pol) 0 = { mem := some 0, size := R } := rfl
    have hd := del_after_split N R pol hlt
    rw [ha]
    simp [hrec, hd, pristinePool, nodeAt]

theorem open_alloc_free_roundtrip_witness :
    3 ≤ 10 ∧
    (mem_new_alloc (mem_pool_open 10 AllocPolicy.FIRST_FIT) 3).2 = some 0 ∧
    ((mem_del_alloc (mem_new_alloc (mem_pool_open 10 AllocPolicy.FIRST_FIT) 3).1
        (handleRec (mem_new_alloc (mem_pool_open 10 AllocPolicy.FIRST_FIT) 3).1 0)).1.pool.num_gaps = 1) :=
  ⟨by decide, (open_alloc_free_roundtrip 10 3 AllocPolicy.FIRST_FIT (by decide)).1,
   (open_alloc_free_roundtrip 10 3 AllocPolicy.FIRST_FIT (by decide)).2.2.2.2.1⟩

/-! ## C10: the exact-fit frame -/

/-- The commit phase reports either failure or the selected slot. -/
theorem mem_new_alloc_commit_snd (s : PoolMgr) (R j : Nat) :
    (mem_new_alloc_commit s R j).2 = none ∨ (mem_new_alloc_commit s R j).2 = some j := by
  unfold mem_new_alloc_commit
  simp only
  split
  · split
    · left; rfl
    · right; rfl
  · right; rfl

/-- C10: when a successful allocation's selected free block has exactly the
    requested size, no split happens: used_nodes is unchanged, the descriptor
    table changes only at the selected slot, which keeps its extent and becomes
    allocated, and the gap index changes exactly by removing that block's entry,
    all other entries surviving in order. -/
theorem exact_fit_frame (s : PoolMgr) (R k : Nat)
    (hres : (mem_new_alloc s R).2 = some k)
    (hex : (nodeAt s.node_heap k).alloc_record.size = R)
    (hmem : ∃ g ∈ s.gap_ix, g.node = some k) :
    (mem_new_alloc s R).1.used_nodes = s.used_nodes ∧
    (mem_new_alloc s R).1.node_heap =
      s.node_heap.set k { nodeAt s.node_heap k with allocated := 1 } ∧
    (∃ i, s.gap_ix.findIdx? (fun g => g.node == some k) = some i ∧
      (s.gap_ix.getD i zeroGap).node = some k ∧
      (mem_new_alloc s R).1.gap_ix = s.gap_ix.eraseIdx i) := by
  have h0 : ¬ s.pool.num_gaps = 0 := by
    intro h; rw [mem_new_alloc, if_pos h] at hres; exact absurd hres (by simp)
  have h1 : ¬ s.total_nodes ≤ s.used_nodes := by
    intro h; rw [mem_new_alloc, if_neg h0, if_pos h] at hres; exact absurd hres (by simp)
  have hsel : allocSelect s R = some k := by
    cases hs : allocSelect s R with
    | none => rw [mem_new_alloc, if_neg h0, if_neg h1, hs] at hres; simp at hres
    | some j =>
      rw [mem_new_alloc, if_neg h0, if_neg h1, hs] at hres
      have hjk : j = k := by
        rcases mem_new_alloc_commit_snd s R j with h | h
        · rw [h] at hres; exact absurd hres (by simp)
        · rw [h] at hres; exact Option.some_inj.mp hres
      rw [hjk]
  obtain ⟨g, hg, hgk⟩ := hmem
  have hpg : (fun g => g.node == some k) g = true := by simp [hgk]
  have hfind : s.gap_ix.findIdx? (fun g => g.node == some k) =
      some (s.gap_ix.findIdx (fun g => g.node == some k)) :=
    List.findIdx?_eq_some_of_exists ⟨g, hg, hpg⟩
  have hilen : s.gap_ix.findIdx (fun g => g.node == some k) < s.gap_ix.length :=
    List.findIdx_lt_length_of_exists ⟨g, hg, hpg⟩
  have hentry : (s.gap_ix.getD (s.gap_ix.findIdx (fun g => g.node == some k)) zeroGap).node
      = some k := by
    have hpe := @List.findIdx_getElem _ (fun g => g.node == some k) s.gap_ix hilen
    simp only [List.getD_eq_getElem?_getD, List.getElem?_eq_getElem hilen, Option.getD_some]
    simpa using hpe
  have hrec : { (nodeAt s.node_heap k).alloc_record with size := R }
      = (nodeAt s.node_heap k).alloc_record := by
    rw [← hex]
  rw [mem_new_alloc, if_neg h0, if_neg h1, hsel]
  unfold mem_new_alloc_commit
  simp only []
  rw [if_neg (by simp [hex])]
  refine ⟨?_, ?_, ⟨s.gap_ix.findIdx (fun g => g.node == some k), hfind, hentry, ?_⟩⟩
  · simp [updNode, mem_remove_from_gap_ix]
  · simp [updNode, mem_remove_from_gap_ix, hrec]
  · simp [updNode, mem_remove_from_gap_ix, hfind]

theorem exact_fit_frame_witness :
    ((mem_new_alloc (mem_pool_open 7 AllocPolicy.FIRST_FIT) 7).2 = some 0) ∧
    ((nodeAt (mem_pool_open 7 AllocPolicy.FIRST_FIT).node_heap 0).alloc_record.size = 7) ∧
    ((mem_new_alloc (mem_pool_open 7 AllocPolicy.FIRST_FIT) 7).1.used_nodes =
      (mem_pool_open 7 AllocPolicy.FIRST_FIT).used_nodes) :=
  ⟨by decide, by decide,
   (exact_fit_frame (mem_pool_open 7 AllocPolicy.FIRST_FIT) 7 0 (by decide) (by decide)
     ⟨{ size := 7, node := some 0 }, by decide, rfl⟩).1⟩

/-! ## Well-formedness of the pool-manager state and its preservation -/

/-! ## Basic node-heap access lemmas -/

theorem nodeAt_set_self {H : List Node} {i : Nat} {v : Node} (h : i < H.length) :
    nodeAt (H.set i v) i = v := by
  simp [nodeAt, List.getD_eq_getElem?_getD, List.getElem?_set_self', h,
    List.getElem?_eq_getElem h]

theorem nodeAt_set_ne {H : List Node} {i j : Nat} {v : Node} (h : i ≠ j) :
    nodeAt (H.set i v) j = nodeAt H j := by
  simp [nodeAt, List.getD_eq_getElem?_getD, List.getElem?_set_ne h]

theorem set_nodeAt_self {H : List Node} {i : Nat} {v : Node} (h : nodeAt H i = v) :
    H.set i v = H := by
  by_cases hi : i < H.length
  · apply List.ext_getElem?
    intro j
    by_cases hj : i = j
    · subst hj
      rw [List.getElem?_set_self', List.getElem?_eq_getElem hi]
      subst h
      simp [nodeAt, List.getD_eq_getElem?_getD, List.getElem?_eq_getElem hi]
    · rw [List.getElem?_set_ne hj]
  · exact List.set_eq_of_length_le (le_of_not_lt hi)

/-- The fields of a descriptor that the linked partition depends on: everything
    except the `allocated` flag. -/
def linkEq (a b : Node) : Prop :=
  a.used = b.used ∧ a.alloc_record = b.alloc_record ∧ a.next = b.next ∧ a.prev = b.prev

theorem linkEq_refl (a : Node) : linkEq a a := ⟨rfl, rfl, rfl, rfl⟩

theorem linkEq_of_eq {a b : Node} (h : a = b) : linkEq a b := h ▸ linkEq_refl a

/-! ## The linked partition as a predicate on index chains

`chainOK H ch off pr` says: the indices `ch` form a consecutive doubly linked
run of active descriptors in `H`, the first sitting at buffer offset `off` with
back pointer `pr`, each following node starting where the previous one ends, and
the last node's next pointer NULL. -/

def chainOK (H : List Node) : List Nat → Nat → Option Nat → Prop
  | [], _, _ => False
  | [i], off, pr =>
      i < H.length ∧ (nodeAt H i).used = 1 ∧
      (nodeAt H i).alloc_record.mem = some off ∧
      (nodeAt H i).prev = pr ∧ (nodeAt H i).next = none
  | i :: j :: rest, off, pr =>
      i < H.length ∧ (nodeAt H i).used = 1 ∧
      (nodeAt H i).alloc_record.mem = some off ∧
      (nodeAt H i).prev = pr ∧ (nodeAt H i).next = some j ∧
      chainOK H (j :: rest) (off + (nodeAt H i).alloc_record.size) (some i)

theorem chainOK_congr {H H' : List Node} (hlen : H.length = H'.length) :
    ∀ {ch : List Nat} {off : Nat} {pr : Option Nat},
      (∀ i ∈ ch, linkEq (nodeAt H' i) (nodeAt H i)) →
      chainOK H ch off pr → chainOK H' ch off pr
  | [], _, _, _, hc => hc.elim
  | [i], off, pr, hsame, hc => by
      obtain ⟨h1, h2, h3, h4, h5⟩ := hc
      obtain ⟨e1, e2, e3, e4⟩ := hsame i (by simp)
      exact ⟨hlen ▸ h1, e1 ▸ h2, by rw [e2]; exact h3, e4 ▸ h4, e3 ▸ h5⟩
  | i :: j :: rest, off, pr, hsame, hc => by
      obtain ⟨h1, h2, h3, h4, h5, h6⟩ := hc
      obtain ⟨e1, e2, e3, e4⟩ := hsame i (by simp)
      refine ⟨hlen ▸ h1, e1 ▸ h2, by rw [e2]; exact h3, e4 ▸ h4, e3 ▸ h5, ?_⟩
      rw [e2]
      exact chainOK_congr hlen (fun m hm => hsame m (by simp [hm])) h6

/-- Replace the incoming back pointer of a chain: the head's `prev` may change
    (to the new predecessor), everything else staying link-equal. -/
theorem chainOK_replace_prev {H H' : List Node} (hlen : H.length = H'.length) :
    ∀ {ch : List Nat} {off : Nat} {pr pr' : Option Nat},
      (∀ h ∈ ch.head?, (nodeAt H' h).used = (nodeAt H h).used ∧
        (nodeAt H' h).alloc_record = (nodeAt H h).alloc_record ∧
        (nodeAt H' h).next = (nodeAt H h).next ∧ (nodeAt H' h).prev = pr') →
      (∀ i ∈ ch.tail, linkEq (nodeAt H' i) (nodeAt H i)) →
      chainOK H ch off pr → chainOK H' ch off pr'
  | [], _, _, _, _, _, hc => hc.elim
  | [i], off, pr, pr', hhead, _, hc => by
      obtain ⟨h1, h2, h3, h4, h5⟩ := hc
      obtain ⟨e1, e2, e3, e4⟩ := hhead i (by simp)
      exact ⟨hlen ▸ h1, e1 ▸ h2, by rw [e2]; exact h3, e4, e3 ▸ h5⟩
  | i :: j :: rest, off, pr, pr', hhead, htail, hc => by
      obtain ⟨h1, h2, h3, h4, h5, h6⟩ := hc
      obtain ⟨e1, e2, e3, e4⟩ := hhead i (by simp)
      refine ⟨hlen ▸ h1, e1 ▸ h2, by rw [e2]; exact h3, e4, e3 ▸ h5, ?_⟩
      rw [e2]
      exact chainOK_congr hlen htail h6

/-- Every chain member is an in-range active descriptor. -/
theorem chainOK_mem {H : List Node} :
    ∀ {ch : List Nat} {off : Nat} {pr : Option Nat}, chainOK H ch off pr →
      ∀ i ∈ ch, i < H.length ∧ (nodeAt H i).used = 1
  | [], _, _, hc => hc.elim
  | [i], _, _, hc => by
      rintro m hm
      simp at hm
      subst hm
      exact ⟨hc.1, hc.2.1⟩
  | i :: j :: rest, _, _, hc => by
      rintro m hm
      rcases List.mem_cons.mp hm with h | h
      · subst h; exact ⟨hc.1, hc.2.1⟩
      · exact chainOK_mem hc.2.2.2.2.2 m h


/-- Buffer offset of a chain member: the start offset plus the sizes of the
    members before it. -/
theorem chainOK_offset {H : List Node} :
    ∀ {l₁ : List Nat} {i : Nat} {l₂ : List Nat} {off : Nat} {pr : Option Nat},
      chainOK H (l₁ ++ i :: l₂) off pr →
      (nodeAt H i).alloc_record.mem =
        some (off + (l₁.map (fun m => (nodeAt H m).alloc_record.size)).sum)
  | [], i, l₂, off, pr, hc => by
      cases l₂ with
      | nil => simpa using hc.2.2.1
      | cons y rest => simpa using hc.2.2.1
  | x :: l₁', i, l₂, off, pr, hc => by
      rcases hl : l₁' ++ i :: l₂ with _ | ⟨y, rest⟩
      · exact absurd hl (by simp)
      · rw [List.cons_append, hl] at hc
        have hrec := @chainOK_offset H l₁' i l₂
          (off + (nodeAt H x).alloc_record.size) (some x) (hl ▸ hc.2.2.2.2.2)
        rw [hrec]
        simp [Nat.add_assoc]

/-- Along a chain all members sit at or after the start offset. -/
theorem chainOK_mem_ge {H : List Node} :
    ∀ {ch : List Nat} {off : Nat} {pr : Option Nat}, chainOK H ch off pr →
      ∀ i ∈ ch, ∃ o, (nodeAt H i).alloc_record.mem = some o ∧ off ≤ o
  | [], _, _, hc => hc.elim
  | [a], off, pr, hc => by
      rintro i hi
      simp at hi
      subst hi
      exact ⟨off, hc.2.2.1, le_refl off⟩
  | a :: b :: rest, off, pr, hc => by
      rintro i hi
      rcases List.mem_cons.mp hi with h | h
      · subst h; exact ⟨off, hc.2.2.1, le_refl off⟩
      · obtain ⟨o, ho, hle⟩ := chainOK_mem_ge hc.2.2.2.2.2 i h
        exact ⟨o, ho, le_trans (Nat.le_add_right _ _) hle⟩

/-- With positive block sizes, buffer addresses identify chain members. -/
theorem chainOK_mem_inj {H : List Node} :
    ∀ {ch : List Nat} {off : Nat} {pr : Option Nat}, chainOK H ch off pr →
      (∀ m ∈ ch, 1 ≤ (nodeAt H m).alloc_record.size) →
      ∀ i ∈ ch, ∀ j ∈ ch,
        (nodeAt H i).alloc_record.mem = (nodeAt H j).alloc_record.mem → i = j
  | [], _, _, hc => hc.elim
  | [a], off, pr, hc => by
      rintro _ i hi j hj _
      simp at hi hj
      omega
  | a :: b :: rest, off, pr, hc => by
      rintro hsz i hi j hj hmem
      have hrest := hc.2.2.2.2.2
      have hge := chainOK_mem_ge hrest
      have hsza : 1 ≤ (nodeAt H a).alloc_record.size := hsz a (by simp)
      have key : ∀ m ∈ b :: rest, m ≠ a → True := fun _ _ _ => trivial
      have hanotin : ∀ m ∈ b :: rest, (nodeAt H m).alloc_record.mem ≠ (nodeAt H a).alloc_record.mem := by
        intro m hm
        obtain ⟨o, ho, hle⟩ := hge m hm
        rw [ho, hc.2.2.1]
        intro hcontra
        have : o = off := by simpa using hcontra
        omega
      rcases List.mem_cons.mp hi with h | h <;> rcases List.mem_cons.mp hj with h' | h'
      · omega
      · subst h; exact absurd hmem.symm (hanotin j h')
      · subst h'; exact absurd hmem (hanotin i h)
      · exact chainOK_mem_inj hrest (fun m hm => hsz m (by simp [hm])) i h j h' hmem

/-- The link structure around one chain member: its next pointer is the head of
    what follows, its prev pointer the last of what precedes (or the incoming
    back pointer). -/
theorem chainOK_links {H : List Node} :
    ∀ {l₁ : List Nat} {i : Nat} {l₂ : List Nat} {off : Nat} {pr : Option Nat},
      chainOK H (l₁ ++ i :: l₂) off pr →
      (nodeAt H i).next = l₂.head? ∧
      (nodeAt H i).prev = (l₁.getLast?).elim pr some
  | [], i, l₂, off, pr, hc => by
      cases l₂ with
      | nil => exact ⟨by simpa using hc.2.2.2.2, by simpa using hc.2.2.2.1⟩
      | cons y rest => exact ⟨by simpa using hc.2.2.2.2.1, by simpa using hc.2.2.2.1⟩
  | x :: l₁', i, l₂, off, pr, hc => by
      rcases hl : l₁' ++ i :: l₂ with _ | ⟨y, rest⟩
      · exact absurd hl (by simp)
      · rw [List.cons_append, hl] at hc
        have hrec := @chainOK_links H l₁' i l₂
          (off + (nodeAt H x).alloc_record.size) (some x) (hl ▸ hc.2.2.2.2.2)
        refine ⟨hrec.1, ?_⟩
        rw [hrec.2]
        cases hc' : l₁'.getLast? with
        | none =>
            have : l₁' = [] := List.getLast?_eq_none_iff.mp hc'
            subst this
            simp
        | some z =>
            have hne : l₁' ≠ [] := by
              intro h; subst h; simp at hc'
            simp [List.getLast?_cons, hc']


/-- The coalescing invariant on a chain: no two consecutive members are both
    free. -/
def noAdj (H : List Node) : List Nat → Prop
  | [] => True
  | [_] => True
  | a :: b :: rest =>
      ((nodeAt H a).allocated = 1 ∨ (nodeAt H b).allocated = 1) ∧ noAdj H (b :: rest)

theorem noAdj_congr {H H' : List Node} :
    ∀ {ch : List Nat},
      (∀ i ∈ ch, (nodeAt H' i).allocated = (nodeAt H i).allocated) →
      noAdj H ch → noAdj H' ch
  | [], _, _ => trivial
  | [_], _, _ => trivial
  | a :: b :: rest, hsame, h => by
      refine ⟨?_, noAdj_congr (fun i hi => hsame i (by simp [List.mem_cons.mp hi])) h.2⟩
      rw [hsame a (by simp), hsame b (by simp)]
      exact h.1

theorem noAdj_cons_of {H : List Node} {a : Nat} {ch : List Nat}
    (h : noAdj H ch) (hpair : ∀ m ∈ ch.head?, (nodeAt H a).allocated = 1 ∨ (nodeAt H m).allocated = 1) :
    noAdj H (a :: ch) := by
  cases ch with
  | nil => trivial
  | cons b rest => exact ⟨hpair b rfl, h⟩

theorem noAdj_of_cons {H : List Node} {a : Nat} {ch : List Nat}
    (h : noAdj H (a :: ch)) : noAdj H ch := by
  cases ch with
  | nil => trivial
  | cons b rest => exact h.2

theorem noAdj_append_build {H : List Node} :
    ∀ {L M : List Nat}, noAdj H L → noAdj H M →
      (∀ x ∈ L.getLast?, ∀ y ∈ M.head?,
        (nodeAt H x).allocated = 1 ∨ (nodeAt H y).allocated = 1) →
      noAdj H (L ++ M)
  | [], M, _, hM, _ => hM
  | [a], M, _, hM, hpair => by
      simpa using noAdj_cons_of hM (fun m hm => hpair a rfl m hm)
  | a :: b :: L', M, hL, hM, hpair => by
      have hrec := noAdj_append_build (L := b :: L') hL.2 hM
        (fun x hx y hy => hpair x (by simpa using hx) y hy)
      exact ⟨hL.1, hrec⟩

theorem noAdj_append_left {H : List Node} :
    ∀ {L M : List Nat}, noAdj H (L ++ M) → noAdj H L
  | [], _, _ => trivial
  | [_], _, _ => trivial
  | a :: b :: L', M, h => by
      rw [List.cons_append, List.cons_append] at h
      exact ⟨h.1, noAdj_append_left (L := b :: L') (by simpa using h.2)⟩

theorem noAdj_append_right {H : List Node} :
    ∀ {L M : List Nat}, noAdj H (L ++ M) → noAdj H M
  | [], _, h => h
  | [a], M, h => by
      simp only [List.singleton_append] at h
      exact noAdj_of_cons h
  | a :: b :: L', M, h => by
      rw [List.cons_append, List.cons_append] at h
      exact noAdj_append_right (L := b :: L') (by simpa using h.2)

/-- The pair spanning an append split. -/
theorem noAdj_pair {H : List Node} :
    ∀ {L M : List Nat}, noAdj H (L ++ M) →
      ∀ x ∈ L.getLast?, ∀ y ∈ M.head?,
        (nodeAt H x).allocated = 1 ∨ (nodeAt H y).allocated = 1
  | [], _, _ => by intro x hx; simp at hx
  | [a], M, h => by
      intro x hx y hy
      simp at hx
      subst hx
      cases M with
      | nil => simp at hy
      | cons m M' =>
          simp at hy
          subst hy
          simpa using (show noAdj H (a :: m :: M') from h).1
  | a :: b :: L', M, h => by
      rw [List.cons_append, List.cons_append] at h
      intro x hx y hy
      exact noAdj_pair (L := b :: L') (by simpa using h.2) x (by simpa using hx) y hy

/-- findIdx? at the first index satisfying the predicate. -/
theorem findIdx?_first {α : Type} {p : α → Bool} :
    ∀ {l : List α} {k : Nat} (hk : k < l.length), p l[k] = true →
      (∀ j (_hj : j < k), p (l.getD j l[k]) = false) → l.findIdx? p = some k
  | [], k, hk, _, _ => absurd hk (by simp)
  | a :: t, 0, hk, hpk, _ => by
      rw [List.findIdx?_cons]
      simpa using hpk
  | a :: t, k + 1, hk, hpk, hmin => by
      rw [List.findIdx?_cons]
      have ha : p a = false := by simpa using hmin 0 (Nat.succ_pos k)
      rw [ha]
      simp only [Bool.false_eq_true, if_false]
      have hrec := findIdx?_first (l := t) (k := k) (by simpa using hk)
        (by simpa using hpk)
        (fun j _hj => by simpa using hmin (j + 1) (by omega))
      rw [List.findIdx?_succ, hrec]
      simp


theorem chainOK_cons₂ {H : List Node} {i j : Nat} {rest : List Nat} {off : Nat}
    {pr : Option Nat} (h1 : i < H.length) (h2 : (nodeAt H i).used = 1)
    (h3 : (nodeAt H i).alloc_record.mem = some off) (h4 : (nodeAt H i).prev = pr)
    (h5 : (nodeAt H i).next = some j)
    (h6 : chainOK H (j :: rest) (off + (nodeAt H i).alloc_record.size) (some i)) :
    chainOK H (i :: j :: rest) off pr :=
  ⟨h1, h2, h3, h4, h5, h6⟩

/-- Chain surgery for the split step of mem_new_alloc: descriptor `a` shrinks to
    size `R` and a fresh descriptor `u` carrying the remainder is spliced in
    right after it. -/
theorem chainOK_splice {H H' : List Node} {a u R : Nat}
    (hlen : H.length = H'.length) (hu_lt : u < H.length)
    (hR : R ≤ (nodeAt H a).alloc_record.size)
    (ha : (nodeAt H' a).used = (nodeAt H a).used ∧
      (nodeAt H' a).alloc_record.mem = (nodeAt H a).alloc_record.mem ∧
      (nodeAt H' a).alloc_record.size = R ∧
      (nodeAt H' a).prev = (nodeAt H a).prev ∧
      (nodeAt H' a).next = some u)
    (hu : (nodeAt H' u).used = 1 ∧
      (nodeAt H' u).alloc_record.mem = ptrAdd (nodeAt H a).alloc_record.mem R ∧
      (nodeAt H' u).alloc_record.size = (nodeAt H a).alloc_record.size - R ∧
      (nodeAt H' u).prev = some a) :
    ∀ {L M : List Nat} {off : Nat} {pr : Option Nat},
      (nodeAt H' u).next = M.head? →
      (∀ i ∈ L, linkEq (nodeAt H' i) (nodeAt H i)) →
      (∀ m ∈ M.head?, (nodeAt H' m).used = (nodeAt H m).used ∧
        (nodeAt H' m).alloc_record = (nodeAt H m).alloc_record ∧
        (nodeAt H' m).next = (nodeAt H m).next ∧ (nodeAt H' m).prev = some u) →
      (∀ i ∈ M.tail, linkEq (nodeAt H' i) (nodeAt H i)) →
      chainOK H (L ++ a :: M) off pr → chainOK H' (L ++ a :: u :: M) off pr
  | [], M, off, pr, hunext, _, hMhead, hMtail, hchain => by
      cases M with
      | nil =>
          obtain ⟨h1, h2, h3, h4, h5⟩ := hchain
          refine chainOK_cons₂ (hlen ▸ h1) (ha.1 ▸ h2) (ha.2.1 ▸ h3) (ha.2.2.2.1 ▸ h4)
            ha.2.2.2.2 ?_
          rw [ha.2.2.1]
          refine ⟨hlen ▸ hu_lt, hu.1, ?_, hu.2.2.2, by simpa using hunext⟩
          rw [hu.2.1, h3]
          simp [ptrAdd]
      | cons m M' =>
          obtain ⟨h1, h2, h3, h4, h5, h6⟩ := hchain
          refine chainOK_cons₂ (hlen ▸ h1) (ha.1 ▸ h2) (ha.2.1 ▸ h3) (ha.2.2.2.1 ▸ h4)
            ha.2.2.2.2 ?_
          rw [ha.2.2.1]
          refine chainOK_cons₂ (hlen ▸ hu_lt) hu.1 ?_ hu.2.2.2 (by simpa using hunext) ?_
          · rw [hu.2.1, h3]
            simp [ptrAdd]
          · rw [hu.2.2.1]
            have harith : off + R + ((nodeAt H a).alloc_record.size - R) =
                off + (nodeAt H a).alloc_record.size := by omega
            rw [harith]
            exact chainOK_replace_prev hlen
              (fun h hh => hMhead h hh) hMtail h6
  | x :: L', M, off, pr, hunext, hL, hMhead, hMtail, hchain => by
      obtain ⟨e1, e2, e3, e4⟩ := hL x (by simp)
      cases L' with
      | nil =>
          simp only [List.nil_append, List.cons_append] at hchain ⊢
          obtain ⟨h1, h2, h3, h4, h5, h6⟩ := hchain
          refine chainOK_cons₂ (hlen ▸ h1) (e1 ▸ h2) (by rw [e2]; exact h3) (e4 ▸ h4)
            (by rw [e3]; exact h5) ?_
          rw [e2]
          exact chainOK_splice hlen hu_lt hR ha hu (L := [])
            hunext (by simp) hMhead hMtail h6
      | cons z L'' =>
          simp only [List.cons_append] at hchain ⊢
          obtain ⟨h1, h2, h3, h4, h5, h6⟩ := hchain
          refine chainOK_cons₂ (hlen ▸ h1) (e1 ▸ h2) (by rw [e2]; exact h3) (e4 ▸ h4)
            (by rw [e3]; exact h5) ?_
          rw [e2]
          exact chainOK_splice hlen hu_lt hR ha hu (L := z :: L'')
            hunext (fun i hi => hL i (by simp [hi])) hMhead hMtail h6

/-- Chain surgery for a coalescing step of mem_del_alloc: descriptor `a` absorbs
    its successor `b`, which leaves the chain. -/
theorem chainOK_merge {H H' : List Node} {a b : Nat}
    (hlen : H.length = H'.length)
    (ha : (nodeAt H' a).used = (nodeAt H a).used ∧
      (nodeAt H' a).alloc_record.mem = (nodeAt H a).alloc_record.mem ∧
      (nodeAt H' a).alloc_record.size =
        (nodeAt H a).alloc_record.size + (nodeAt H b).alloc_record.size ∧
      (nodeAt H' a).prev = (nodeAt H a).prev) :
    ∀ {L M : List Nat} {off : Nat} {pr : Option Nat},
      (nodeAt H' a).next = M.head? →
      (∀ i ∈ L, linkEq (nodeAt H' i) (nodeAt H i)) →
      (∀ m ∈ M.head?, (nodeAt H' m).used = (nodeAt H m).used ∧
        (nodeAt H' m).alloc_record = (nodeAt H m).alloc_record ∧
        (nodeAt H' m).next = (nodeAt H m).next ∧ (nodeAt H' m).prev = some a) →
      (∀ i ∈ M.tail, linkEq (nodeAt H' i) (nodeAt H i)) →
      chainOK H (L ++ a :: b :: M) off pr → chainOK H' (L ++ a :: M) off pr
  | [], M, off, pr, hanext, _, hMhead, hMtail, hchain => by
      obtain ⟨h1, h2, h3, h4, h5, h6⟩ := hchain
      cases M with
      | nil =>
          exact ⟨hlen ▸ h1, ha.1 ▸ h2, ha.2.1 ▸ h3, ha.2.2.2 ▸ h4, by simpa using hanext⟩
      | cons m M' =>
          obtain ⟨g1, g2, g3, g4, g5, g6⟩ := h6
          refine chainOK_cons₂ (hlen ▸ h1) (ha.1 ▸ h2) (ha.2.1 ▸ h3) (ha.2.2.2 ▸ h4)
            (by simpa using hanext) ?_
          rw [ha.2.2.1]
          have harith : off + ((nodeAt H a).alloc_record.size + (nodeAt H b).alloc_record.size) =
              off + (nodeAt H a).alloc_record.size + (nodeAt H b).alloc_record.size := by omega
          rw [harith]
          exact chainOK_replace_prev hlen (fun h hh => hMhead h hh) hMtail g6
  | x :: L', M, off, pr, hanext, hL, hMhead, hMtail, hchain => by
      obtain ⟨e1, e2, e3, e4⟩ := hL x (by simp)
      cases L' with
      | nil =>
          simp only [List.nil_append, List.cons_append] at hchain ⊢
          obtain ⟨h1, h2, h3, h4, h5, h6⟩ := hchain
          refine chainOK_cons₂ (hlen ▸ h1) (e1 ▸ h2) (by rw [e2]; exact h3) (e4 ▸ h4)
            (by rw [e3]; exact h5) ?_
          rw [e2]
          exact chainOK_merge hlen ha (L := []) hanext (by simp) hMhead hMtail h6
      | cons z L'' =>
          simp only [List.cons_append] at hchain ⊢
          obtain ⟨h1, h2, h3, h4, h5, h6⟩ := hchain
          refine chainOK_cons₂ (hlen ▸ h1) (e1 ▸ h2) (by rw [e2]; exact h3) (e4 ▸ h4)
            (by rw [e3]; exact h5) ?_
          rw [e2]
          exact chainOK_merge hlen ha (L := z :: L'')
            hanext (fun i hi => hL i (by simp [hi])) hMhead hMtail h6


theorem set_set_perm {α : Type} (d : α) :
    ∀ (l : List α) (i : Nat), i + 1 < l.length →
      List.Perm ((l.set i (l.getD (i + 1) d)).set (i + 1) (l.getD i d)) l
  | [], i, h => by simp at h
  | [a], i, h => by simp at h
  | a :: b :: t, 0, _ => by
      simp only [List.getD_cons_succ, List.getD_cons_zero, List.set_cons_zero,
        List.set_cons_succ]
      exact List.Perm.swap a b t
  | a :: b :: t, i + 1, h => by
      simp only [List.getD_cons_succ, List.set_cons_succ]
      exact List.Perm.cons a (set_set_perm d (b :: t) i (by simpa using h))

theorem sortStep_perm (H : List Node) (G : List Gap) (i : Nat)
    (h1 : 1 ≤ i) (h2 : i < G.length) : List.Perm (sortStep H G i) G := by
  unfold sortStep
  dsimp only
  split
  · have hi : i - 1 + 1 = i := by omega
    have := set_set_perm zeroGap G (i - 1) (by omega)
    rw [hi] at this
    exact this
  · exact List.Perm.refl G

theorem sortStep_length (H : List Node) (G : List Gap) (i : Nat) :
    (sortStep H G i).length = G.length := by
  unfold sortStep
  dsimp only
  split <;> simp

theorem sortLoop_perm (H : List Node) :
    ∀ (n : Nat) (G : List Gap), n < G.length → List.Perm (sortLoop H G n) G
  | 0, G, _ => List.Perm.refl G
  | n + 1, G, h => by
      have hstep := sortStep_perm H G (n + 1) (by omega) h
      have hlen := sortStep_length H G (n + 1)
      exact (sortLoop_perm H n (sortStep H G (n + 1)) (by omega)).trans hstep

/-- Effect of _mem_add_to_gap_ix on the live entries: one entry appended, the
    whole live prefix permuted by the insertion sort; every counter except
    num_gaps and the capacity untouched. -/
theorem mem_add_to_gap_ix_spec (s : PoolMgr) (sz : Nat) (nd : Option Nat)
    (hng : s.pool.num_gaps = s.gap_ix.length) :
    (mem_add_to_gap_ix s sz nd).1.node_heap = s.node_heap ∧
    (mem_add_to_gap_ix s sz nd).1.total_nodes = s.total_nodes ∧
    (mem_add_to_gap_ix s sz nd).1.used_nodes = s.used_nodes ∧
    (mem_add_to_gap_ix s sz nd).1.pool.mem = s.pool.mem ∧
    (mem_add_to_gap_ix s sz nd).1.pool.policy = s.pool.policy ∧
    (mem_add_to_gap_ix s sz nd).1.pool.total_size = s.pool.total_size ∧
    (mem_add_to_gap_ix s sz nd).1.pool.alloc_size = s.pool.alloc_size ∧
    (mem_add_to_gap_ix s sz nd).1.pool.num_allocs = s.pool.num_allocs ∧
    (mem_add_to_gap_ix s sz nd).1.pool.num_gaps = s.pool.num_gaps + 1 ∧
    List.Perm (mem_add_to_gap_ix s sz nd).1.gap_ix ({ size := sz, node := nd } :: s.gap_ix) := by
  unfold mem_add_to_gap_ix mem_resize_gap_ix mem_sort_gap_ix
  have hperm : ∀ (c : Nat),
      List.Perm (sortLoop s.node_heap (s.gap_ix ++ [{ size := sz, node := nd }])
        (s.pool.num_gaps + 1 - 1)) ({ size := sz, node := nd } :: s.gap_ix) := by
    intro c
    refine (sortLoop_perm s.node_heap _ _ ?_).trans (List.perm_append_singleton _ _)
    simp [hng]
  split <;>
    exact ⟨rfl, rfl, rfl, rfl, rfl, rfl, rfl, rfl, rfl, hperm 0⟩

/-- Effect of _mem_remove_from_gap_ix when an entry for the node is present: the
    first such entry disappears, the rest survive in order. -/
theorem mem_remove_from_gap_ix_spec (s : PoolMgr) (sz : Nat) (nd : Option Nat)
    (hmem : ∃ g ∈ s.gap_ix, g.node = nd) :
    (mem_remove_from_gap_ix s sz nd).1.node_heap = s.node_heap ∧
    (mem_remove_from_gap_ix s sz nd).1.total_nodes = s.total_nodes ∧
    (mem_remove_from_gap_ix s sz nd).1.used_nodes = s.used_nodes ∧
    (mem_remove_from_gap_ix s sz nd).1.pool.mem = s.pool.mem ∧
    (mem_remove_from_gap_ix s sz nd).1.pool.policy = s.pool.policy ∧
    (mem_remove_from_gap_ix s sz nd).1.pool.total_size = s.pool.total_size ∧
    (mem_remove_from_gap_ix s sz nd).1.pool.alloc_size = s.pool.alloc_size ∧
    (mem_remove_from_gap_ix s sz nd).1.pool.num_allocs = s.pool.num_allocs ∧
    (mem_remove_from_gap_ix s sz nd).1.pool.num_gaps = s.pool.num_gaps - 1 ∧
    ∃ g, g ∈ s.gap_ix ∧ g.node = nd ∧
      List.Perm s.gap_ix (g :: (mem_remove_from_gap_ix s sz nd).1.gap_ix) := by
  obtain ⟨g0, hg0, hg0n⟩ := hmem
  have hpg : (fun g => g.node == nd) g0 = true := by simp [hg0n]
  have hfind : s.gap_ix.findIdx? (fun g => g.node == nd) =
      some (s.gap_ix.findIdx (fun g => g.node == nd)) :=
    List.findIdx?_eq_some_of_exists ⟨g0, hg0, hpg⟩
  have hlt : s.gap_ix.findIdx (fun g => g.node == nd) < s.gap_ix.length :=
    List.findIdx_lt_length_of_exists ⟨g0, hg0, hpg⟩
  have hpe := @List.findIdx_getElem _ (fun g => g.node == nd) s.gap_ix hlt
  unfold mem_remove_from_gap_ix
  rw [hfind]
  refine ⟨rfl, rfl, rfl, rfl, rfl, rfl, rfl, rfl, rfl, ?_⟩
  refine ⟨s.gap_ix[s.gap_ix.findIdx (fun g => g.node == nd)],
    List.getElem_mem hlt, by simpa using hpe, ?_⟩
  simp only [Option.getD_some]
  rw [List.eraseIdx_eq_take_drop_succ]
  conv_lhs => rw [← List.take_append_drop (s.gap_ix.findIdx (fun g => g.node == nd)) s.gap_ix]
  rw [List.drop_eq_getElem_cons hlt]
  exact List.perm_middle


/-- Well-formedness of a pool manager: `ch` lists the descriptor slots of the
    linked partition in address order.  These are exactly the cross-structure
    invariants of spec section 3 that the preservation proofs maintain. -/
structure WF (s : PoolMgr) (ch : List Nat) : Prop where
  hlen : s.node_heap.length = s.total_nodes
  chain : chainOK s.node_heap ch 0 none
  cover : ∀ i, i < s.node_heap.length → i ∉ ch → nodeAt s.node_heap i = freshNode
  nodup : ch.Nodup
  bits : ∀ i ∈ ch, (nodeAt s.node_heap i).allocated = 0 ∨ (nodeAt s.node_heap i).allocated = 1
  sizes : ∀ i ∈ ch, 1 ≤ (nodeAt s.node_heap i).alloc_record.size ∨ s.pool.total_size = 0
  szalloc : ∀ i ∈ ch, (nodeAt s.node_heap i).allocated = 1 →
    1 ≤ (nodeAt s.node_heap i).alloc_record.size
  total : (ch.map (fun i => (nodeAt s.node_heap i).alloc_record.size)).sum = s.pool.total_size
  hadj : noAdj s.node_heap ch
  gaps : ∀ g ∈ s.gap_ix, ∃ i, g.node = some i ∧ i ∈ ch ∧
    (nodeAt s.node_heap i).allocated = 0 ∧ g.size = (nodeAt s.node_heap i).alloc_record.size
  gperm : List.Perm (s.gap_ix.map (fun g => g.node))
    ((ch.filter (fun i => (nodeAt s.node_heap i).allocated == 0)).map some)
  ngaps : s.pool.num_gaps = s.gap_ix.length
  nallocs : s.pool.num_allocs =
    (ch.filter (fun i => (nodeAt s.node_heap i).allocated == 1)).length
  asize : s.pool.alloc_size =
    ((ch.filter (fun i => (nodeAt s.node_heap i).allocated == 1)).map
      (fun i => (nodeAt s.node_heap i).alloc_record.size)).sum
  unodes : s.used_nodes = ch.length

theorem nodeAt_cons_succ (x : Node) (t : List Node) (i : Nat) :
    nodeAt (x :: t) (i + 1) = nodeAt t i := by
  simp [nodeAt]

theorem nodeAt_replicate_fresh (n i : Nat) :
    nodeAt (List.replicate n freshNode) i = freshNode := by
  rw [nodeAt, List.getD_eq_getElem?_getD, List.getElem?_replicate]
  split <;> simp

/-- A freshly opened pool is well formed, its partition the single slot 0. -/
theorem wf_open (N : Nat) (pol : AllocPolicy) : WF (mem_pool_open N pol) [0] := by
  refine ⟨?_, ?_, ?_, ?_, ?_, ?_, ?_, ?_, ?_, ?_, ?_, ?_, ?_, ?_, ?_⟩
  · simp [mem_pool_open, MEM_NODE_HEAP_INIT_CAPACITY]
  · exact ⟨by simp [mem_pool_open], rfl, rfl, rfl, rfl⟩
  · intro i hi hne
    match i, hne with
    | 0, hne => exact absurd (by simp) hne
    | i + 1, _ =>
        show nodeAt (_ :: List.replicate (MEM_NODE_HEAP_INIT_CAPACITY - 1) freshNode) (i + 1) = freshNode
        rw [nodeAt_cons_succ, nodeAt_replicate_fresh]
  · simp
  · intro i hi; simp at hi; subst hi; left; rfl
  · intro i hi; simp at hi; subst hi
    show 1 ≤ N ∨ N = 0
    omega
  · intro i hi hcontra
    simp at hi; subst hi
    exact absurd hcontra (by simp [mem_pool_open, nodeAt])
  · simp [mem_pool_open, nodeAt]
  · trivial
  · intro g hg
    simp [mem_pool_open] at hg
    exact ⟨0, by simp [hg], by simp, by simp [mem_pool_open, nodeAt], by simp [hg, mem_pool_open, nodeAt]⟩
  · simp [mem_pool_open, nodeAt]
  · simp [mem_pool_open]
  · simp [mem_pool_open, nodeAt]
  · simp [mem_pool_open, nodeAt]
  · simp [mem_pool_open]

/-- Sum of the sizes of the active free blocks, read off the descriptor table. -/
def freeSizeSum (s : PoolMgr) : Nat :=
  ((s.node_heap.filter (fun nd => nd.used == 1 && nd.allocated == 0)).map
    (fun nd => nd.alloc_record.size)).sum

theorem sum_filter_map_eq_range (p : Node → Bool) (f : Node → Nat) :
    ∀ (H : List Node),
      ((H.filter p).map f).sum =
        ∑ i ∈ Finset.range H.length, if p (nodeAt H i) then f (nodeAt H i) else 0
  | [] => by simp
  | a :: t => by
      rw [List.length_cons, Finset.sum_range_succ']
      have ht := sum_filter_map_eq_range p f t
      simp only [nodeAt_cons_succ]
      rw [← ht]
      show ((List.filter p (a :: t)).map f).sum = _
      rw [List.filter_cons]
      have h0 : nodeAt (a :: t) 0 = a := rfl
      rw [h0]
      split
      · simp [Nat.add_comm]
      · simp

/-- A nodup index list summed through a function equals the indicator sum over
    the range. -/
theorem sum_over_indices_eq_range (ch : List Nat) (q : Nat → Bool) (g : Nat → Nat)
    (n : Nat) (hnd : ch.Nodup) (hlt : ∀ i ∈ ch, i < n) :
    ((ch.filter q).map g).sum = ∑ i ∈ Finset.range n, if i ∈ ch ∧ q i = true then g i else 0 := by
  classical
  have hnd' : (ch.filter q).Nodup := hnd.filter q
  have h1 : ((ch.filter q).map g).sum = ∑ i ∈ (ch.filter q).toFinset, g i := by
    rw [List.sum_toFinset _ hnd']
  rw [h1]
  have h2 : (ch.filter q).toFinset = (Finset.range n).filter (fun i => i ∈ ch ∧ q i = true) := by
    ext i
    simp only [List.mem_toFinset, List.mem_filter, Finset.mem_filter, Finset.mem_range]
    constructor
    · rintro ⟨h3, h4⟩
      exact ⟨hlt i h3, h3, h4⟩
    · rintro ⟨_, h3, h4⟩
      exact ⟨h3, h4⟩
  rw [h2, Finset.sum_filter]

/-- Splitting a sum over a 0/1 flag. -/
theorem sum_split_flag (g : Nat → Nat) (b : Nat → Nat) :
    ∀ (l : List Nat), (∀ i ∈ l, b i = 0 ∨ b i = 1) →
      ((l.map g).sum =
        ((l.filter (fun i => b i == 0)).map g).sum +
        ((l.filter (fun i => b i == 1)).map g).sum)
  | [], _ => by simp
  | x :: l, hb => by
      have hrec := sum_split_flag g b l (fun i hi => hb i (by simp [hi]))
      rcases hb x (by simp) with h | h <;>
        simp [List.filter_cons, h, hrec] <;> omega

/-- From well-formedness: the sizes of the active free blocks and the allocated
    byte count partition the pool. -/
theorem wf_freeSizeSum {s : PoolMgr} {ch : List Nat} (hwf : WF s ch) :
    freeSizeSum s + s.pool.alloc_size = s.pool.total_size := by
  classical
  have hlt : ∀ i ∈ ch, i < s.node_heap.length := fun i hi => (chainOK_mem hwf.chain i hi).1
  have hused : ∀ i ∈ ch, (nodeAt s.node_heap i).used = 1 :=
    fun i hi => (chainOK_mem hwf.chain i hi).2
  have h1 : freeSizeSum s =
      ∑ i ∈ Finset.range s.node_heap.length,
        if (nodeAt s.node_heap i).used == 1 && (nodeAt s.node_heap i).allocated == 0 then
          (nodeAt s.node_heap i).alloc_record.size else 0 :=
    sum_filter_map_eq_range _ _ s.node_heap
  have h2 : ((ch.filter (fun i => (nodeAt s.node_heap i).allocated == 0)).map
      (fun i => (nodeAt s.node_heap i).alloc_record.size)).sum =
      ∑ i ∈ Finset.range s.node_heap.length,
        if i ∈ ch ∧ ((nodeAt s.node_heap i).allocated == 0) = true then
          (nodeAt s.node_heap i).alloc_record.size else 0 :=
    sum_over_indices_eq_range ch _ _ _ hwf.nodup hlt
  have h3 : freeSizeSum s = ((ch.filter (fun i => (nodeAt s.node_heap i).allocated == 0)).map
      (fun i => (nodeAt s.node_heap i).alloc_record.size)).sum := by
    rw [h1, h2]
    apply Finset.sum_congr rfl
    intro i hi
    rw [Finset.mem_range] at hi
    by_cases hch : i ∈ ch
    · have hu := hused i hch
      simp [hu, hch]
    · have hfresh := hwf.cover i hi hch
      rw [hfresh]
      simp [freshNode, hch]
  have h4 := sum_split_flag (fun i => (nodeAt s.node_heap i).alloc_record.size)
    (fun i => (nodeAt s.node_heap i).allocated) ch hwf.bits
  rw [h3, ← hwf.total, hwf.asize]
  simp only at h4
  omega


/-- What both placement scans guarantee about a successful selection: the chosen
    descriptor is an active free block large enough for the request. -/
theorem allocSelect_spec {s : PoolMgr} {ch : List Nat} {R k : Nat}
    (hwf : WF s ch) (hR : 1 ≤ R) (hsel : allocSelect s R = some k) :
    k ∈ ch ∧ (nodeAt s.node_heap k).allocated = 0 ∧
      R ≤ (nodeAt s.node_heap k).alloc_record.size := by
  unfold allocSelect at hsel
  cases hpol : s.pool.policy with
  | FIRST_FIT =>
      rw [hpol] at hsel
      simp only [firstFitScan] at hsel
      rw [List.findIdx?_eq_some_iff_findIdx_eq] at hsel
      obtain ⟨hk, hfi⟩ := hsel
      have hpk := @List.findIdx_getElem _
        (fun nd => nd.allocated == 0 && decide (R ≤ nd.alloc_record.size)) s.node_heap
        (hfi ▸ hk)
      simp only [hfi] at hpk
      have hnode : nodeAt s.node_heap k = s.node_heap[k] := by
        simp [nodeAt, List.getD_eq_getElem?_getD, List.getElem?_eq_getElem hk]
      simp only [Bool.and_eq_true, beq_iff_eq, decide_eq_true_eq] at hpk
      have hfree : (nodeAt s.node_heap k).allocated = 0 := by rw [hnode]; exact hpk.1
      have hfit : R ≤ (nodeAt s.node_heap k).alloc_record.size := by rw [hnode]; exact hpk.2
      refine ⟨?_, hfree, hfit⟩
      by_contra hnotin
      have := hwf.cover k hk hnotin
      rw [this] at hfit
      simp [freshNode] at hfit
      omega
  | BEST_FIT =>
      rw [hpol] at hsel
      rw [hwf.ngaps, List.take_length] at hsel
      simp only [bestFitScan] at hsel
      cases hfind : s.gap_ix.findIdx? (fun g => (gapNode s.node_heap g).allocated == 0 &&
          decide (R ≤ (gapNode s.node_heap g).alloc_record.size)) with
      | none => rw [hfind] at hsel; exact absurd hsel (by simp)
      | some i =>
          rw [hfind] at hsel
          have hnd : (s.gap_ix.getD i zeroGap).node = some k := hsel
          rw [List.findIdx?_eq_some_iff_findIdx_eq] at hfind
          obtain ⟨hi, hfi⟩ := hfind
          have hgi : s.gap_ix.getD i zeroGap = s.gap_ix[i] := by
            simp [List.getD_eq_getElem?_getD, List.getElem?_eq_getElem hi]
          rw [hgi] at hnd
          have hpe := @List.findIdx_getElem _
            (fun g => (gapNode s.node_heap g).allocated == 0 &&
              decide (R ≤ (gapNode s.node_heap g).alloc_record.size)) s.gap_ix (hfi ▸ hi)
          simp only [hfi] at hpe
          have hnodeeq : gapNode s.node_heap s.gap_ix[i] = nodeAt s.node_heap k := by
            unfold gapNode; rw [hnd]
          rw [hnodeeq] at hpe
          simp only [Bool.and_eq_true, beq_iff_eq, decide_eq_true_eq] at hpe
          obtain ⟨j, hjn, hjch, _, _⟩ := hwf.gaps s.gap_ix[i] (List.getElem_mem hi)
          have : j = k := by rw [hjn] at hnd; exact Option.some_inj.mp hnd
          subst this
          exact ⟨hjch, hpe.1, hpe.2⟩

/-- The unused-descriptor scan succeeds whenever an unused slot exists, and the
    slot it finds is outside the partition. -/
theorem find_unused (H : List Node) (ch : List Nat)
    (hch : ∀ i ∈ ch, (nodeAt H i).used = 1)
    (hfresh : ∃ i, i < H.length ∧ (nodeAt H i).used = 0) :
    ∃ u, H.findIdx? (fun nd => nd.used == 0) = some u ∧ u < H.length ∧ u ∉ ch := by
  obtain ⟨i, hi, hiu⟩ := hfresh
  cases hfind : H.findIdx? (fun nd => nd.used == 0) with
  | none =>
      rw [List.findIdx?_eq_none_iff] at hfind
      have := hfind (nodeAt H i) (by
        rw [nodeAt, List.getD_eq_getElem?_getD, List.getElem?_eq_getElem hi]
        exact List.getElem_mem hi)
      rw [hiu] at this
      simp at this
  | some u =>
      rw [List.findIdx?_eq_some_iff_findIdx_eq] at hfind
      obtain ⟨hu, hfi⟩ := hfind
      have hpu := @List.findIdx_getElem _ (fun nd => nd.used == 0) H (hfi ▸ hu)
      simp only [hfi] at hpu
      have hnode : nodeAt H u = H[u] := by
        simp [nodeAt, List.getD_eq_getElem?_getD, List.getElem?_eq_getElem hu]
      simp only [beq_iff_eq] at hpu
      refine ⟨u, rfl, hu, ?_⟩
      intro hin
      have := hch u hin
      rw [hnode] at this
      rw [hpu] at this
      exact absurd this (by simp)

/-- In a well-formed pool below descriptor capacity some slot is unused. -/
theorem wf_exists_fresh {s : PoolMgr} {ch : List Nat} (hwf : WF s ch)
    (hlt : s.used_nodes < s.total_nodes) :
    ∃ i, i < s.node_heap.length ∧ (nodeAt s.node_heap i).used = 0 := by
  classical
  by_contra hall
  push_neg at hall
  have hsub : Finset.range s.node_heap.length ⊆ ch.toFinset := by
    intro i hi
    rw [Finset.mem_range] at hi
    rw [List.mem_toFinset]
    by_contra hnotin
    have := hwf.cover i hi hnotin
    have h0 : (nodeAt s.node_heap i).used = 0 := by rw [this]; rfl
    exact absurd h0 (by
      have := hall i hi
      omega)
  have hcard := Finset.card_le_card hsub
  rw [Finset.card_range, List.toFinset_card_of_nodup hwf.nodup] at hcard
  rw [hwf.hlen, ← hwf.unodes] at hcard
  omega


theorem noAdj_mono {H H' : List Node} :
    ∀ {ch : List Nat},
      (∀ a ∈ ch, (nodeAt H a).allocated = 1 → (nodeAt H' a).allocated = 1) →
      noAdj H ch → noAdj H' ch
  | [], _, _ => trivial
  | [_], _, _ => trivial
  | a :: b :: rest, hmono, h => by
      refine ⟨?_, noAdj_mono (fun i hi => hmono i (by simp [List.mem_cons.mp hi])) h.2⟩
      rcases h.1 with h1 | h1
      · exact Or.inl (hmono a (by simp) h1)
      · exact Or.inr (hmono b (by simp) h1)

/-- A free partition member owns a gap-index entry. -/
theorem wf_gap_entry_exists {s : PoolMgr} {ch : List Nat} {k : Nat} (hwf : WF s ch)
    (hk : k ∈ ch) (hfree : (nodeAt s.node_heap k).allocated = 0) :
    ∃ g ∈ s.gap_ix, g.node = some k := by
  have hmem : some k ∈ (ch.filter (fun i => (nodeAt s.node_heap i).allocated == 0)).map some := by
    apply List.mem_map_of_mem
    rw [List.mem_filter]
    exact ⟨hk, by simp [hfree]⟩
  have := hwf.gperm.mem_iff.mpr hmem
  obtain ⟨g, hg, hgn⟩ := List.mem_map.mp this
  exact ⟨g, hg, hgn⟩

/-- The node pointers stored in the gap index are pairwise distinct. -/
theorem wf_gap_nodes_nodup {s : PoolMgr} {ch : List Nat} (hwf : WF s ch) :
    (s.gap_ix.map (fun g => g.node)).Nodup := by
  refine hwf.gperm.nodup_iff.mpr ?_
  exact ((hwf.nodup.filter _).map (fun a b h => Option.some_inj.mp h))

theorem nodup_append_cons {l₁ l₂ : List Nat} {k : Nat}
    (h : (l₁ ++ k :: l₂).Nodup) : k ∉ l₁ ∧ k ∉ l₂ ∧ (l₁ ++ l₂).Nodup := by
  rw [List.nodup_append] at h
  obtain ⟨h1, h2, h3⟩ := h
  rw [List.nodup_cons] at h2
  refine ⟨fun hk => (h3 hk) (by simp), h2.1, ?_⟩
  rw [List.nodup_append]
  exact ⟨h1, h2.2, fun a ha hb => h3 ha (by simp [hb])⟩


/-- The well-formedness of the post-split state, abstracted over how the final
    heap was produced: the selected node k shrinks to R and gets successor u,
    the fresh node u carries the remainder, the old successor (head of l₂) only
    changes its back pointer, everything else is untouched; counters moved by
    one allocation and the gap index traded the k entry for a remainder entry. -/
theorem wf_split_common {s sF : PoolMgr} {ch l₁ l₂ : List Nat} {k u R : Nat}
    (hwf : WF s ch) (hR : 1 ≤ R)
    (hch : ch = l₁ ++ k :: l₂)
    (hkfree : (nodeAt s.node_heap k).allocated = 0)
    (hkfit : R ≤ (nodeAt s.node_heap k).alloc_record.size)
    (hrem : (nodeAt s.node_heap k).alloc_record.size - R ≠ 0)
    (hult : u < s.node_heap.length)
    (hunotch : u ∉ ch)
    (hFlen : sF.node_heap.length = s.node_heap.length)
    (hFk : (nodeAt sF.node_heap k).used = (nodeAt s.node_heap k).used ∧
           (nodeAt sF.node_heap k).allocated = 1 ∧
           (nodeAt sF.node_heap k).alloc_record.mem = (nodeAt s.node_heap k).alloc_record.mem ∧
           (nodeAt sF.node_heap k).alloc_record.size = R ∧
           (nodeAt sF.node_heap k).prev = (nodeAt s.node_heap k).prev ∧
           (nodeAt sF.node_heap k).next = some u)
    (hFu : (nodeAt sF.node_heap u).used = 1 ∧
           (nodeAt sF.node_heap u).allocated = 0 ∧
           (nodeAt sF.node_heap u).alloc_record.mem = ptrAdd (nodeAt s.node_heap k).alloc_record.mem R ∧
           (nodeAt sF.node_heap u).alloc_record.size = (nodeAt s.node_heap k).alloc_record.size - R ∧
           (nodeAt sF.node_heap u).prev = some k ∧
           (nodeAt sF.node_heap u).next = l₂.head?)
    (hFhead : ∀ m ∈ l₂.head?, (nodeAt sF.node_heap m).used = (nodeAt s.node_heap m).used ∧
           (nodeAt sF.node_heap m).alloc_record = (nodeAt s.node_heap m).alloc_record ∧
           (nodeAt sF.node_heap m).allocated = (nodeAt s.node_heap m).allocated ∧
           (nodeAt sF.node_heap m).next = (nodeAt s.node_heap m).next ∧
           (nodeAt sF.node_heap m).prev = some u)
    (hFother : ∀ i, i ≠ k → i ≠ u → (∀ m ∈ l₂.head?, i ≠ m) →
           nodeAt sF.node_heap i = nodeAt s.node_heap i)
    (hFt : sF.total_nodes = s.total_nodes)
    (hFun : sF.used_nodes = s.used_nodes + 1)
    (hFts : sF.pool.total_size = s.pool.total_size)
    (hFas : sF.pool.alloc_size = s.pool.alloc_size + R)
    (hFna : sF.pool.num_allocs = s.pool.num_allocs + 1)
    (hFng : sF.pool.num_gaps = s.pool.num_gaps)
    (hFgap : ∃ G₂ gk, gk ∈ s.gap_ix ∧ gk.node = some k ∧
       List.Perm s.gap_ix (gk :: G₂) ∧
       List.Perm sF.gap_ix
         ({ size := (nodeAt s.node_heap k).alloc_record.size - R, node := some u } :: G₂)) :
    WF sF (l₁ ++ k :: u :: l₂) := by
  obtain ⟨G₂, gk, hgkmem, hgknode, hgperm, hFperm⟩ := hFgap
  obtain ⟨hknl₁, hknl₂, hnodup12⟩ := nodup_append_cons (hch ▸ hwf.nodup)
  have hkch : k ∈ ch := by simp [hch]
  have hklt : k < s.node_heap.length := (chainOK_mem hwf.chain k hkch).1
  have hsub : ∀ i, i ∈ l₁ ∨ i ∈ l₂ → i ∈ ch := by
    intro i hi
    cases hi with
    | inl h => simp [hch, h]
    | inr h => simp [hch, h]
  have hdisj : l₁.Disjoint l₂ := List.disjoint_of_nodup_append hnodup12
  have hl₂nd : l₂.Nodup := hnodup12.of_append_right
  have hkne_u : k ≠ u := fun h => hunotch (h ▸ hkch)
  -- pointwise agreement off k and u on the observation fields
  have hsame : ∀ i, i ≠ k → i ≠ u →
      (nodeAt sF.node_heap i).allocated = (nodeAt s.node_heap i).allocated ∧
      (nodeAt sF.node_heap i).alloc_record = (nodeAt s.node_heap i).alloc_record ∧
      (nodeAt sF.node_heap i).used = (nodeAt s.node_heap i).used := by
    intro i hik hiu
    by_cases him : ∀ m ∈ l₂.head?, i ≠ m
    · rw [hFother i hik hiu him]
      exact ⟨rfl, rfl, rfl⟩
    · push_neg at him
      obtain ⟨m, hm, heq⟩ := him
      subst heq
      obtain ⟨e1, e2, e3, e4, e5⟩ := hFhead _ hm
      exact ⟨e3, e2, e1⟩
  have hne₁ : ∀ i ∈ l₁, i ≠ k ∧ i ≠ u := fun i hi =>
    ⟨fun h => hknl₁ (h ▸ hi), fun h => hunotch (h ▸ hsub i (Or.inl hi))⟩
  have hne₂ : ∀ i ∈ l₂, i ≠ k ∧ i ≠ u := fun i hi =>
    ⟨fun h => hknl₂ (h ▸ hi), fun h => hunotch (h ▸ hsub i (Or.inr hi))⟩
  -- the new chain is a permutation of u :: ch
  have hperm' : List.Perm (l₁ ++ k :: u :: l₂) (u :: ch) := by
    have h1 : l₁ ++ k :: u :: l₂ = (l₁ ++ [k]) ++ u :: l₂ := by simp
    have h2 : (l₁ ++ [k]) ++ l₂ = ch := by simp [hch]
    rw [h1]
    exact List.perm_middle.trans (by rw [h2])
  -- filter congruences
  have hc₁0 : l₁.filter (fun i => (nodeAt sF.node_heap i).allocated == 0) =
      l₁.filter (fun i => (nodeAt s.node_heap i).allocated == 0) :=
    List.filter_congr (fun i hi => by rw [(hsame i (hne₁ i hi).1 (hne₁ i hi).2).1])
  have hc₂0 : l₂.filter (fun i => (nodeAt sF.node_heap i).allocated == 0) =
      l₂.filter (fun i => (nodeAt s.node_heap i).allocated == 0) :=
    List.filter_congr (fun i hi => by rw [(hsame i (hne₂ i hi).1 (hne₂ i hi).2).1])
  have hc₁1 : l₁.filter (fun i => (nodeAt sF.node_heap i).allocated == 1) =
      l₁.filter (fun i => (nodeAt s.node_heap i).allocated == 1) :=
    List.filter_congr (fun i hi => by rw [(hsame i (hne₁ i hi).1 (hne₁ i hi).2).1])
  have hc₂1 : l₂.filter (fun i => (nodeAt sF.node_heap i).allocated == 1) =
      l₂.filter (fun i => (nodeAt s.node_heap i).allocated == 1) :=
    List.filter_congr (fun i hi => by rw [(hsame i (hne₂ i hi).1 (hne₂ i hi).2).1])
  -- old filter decompositions
  have hfree_dec : ch.filter (fun i => (nodeAt s.node_heap i).allocated == 0) =
      l₁.filter (fun i => (nodeAt s.node_heap i).allocated == 0) ++
      k :: l₂.filter (fun i => (nodeAt s.node_heap i).allocated == 0) := by
    rw [hch, List.filter_append, List.filter_cons]
    simp [hkfree]
  have halloc_dec : ch.filter (fun i => (nodeAt s.node_heap i).allocated == 1) =
      l₁.filter (fun i => (nodeAt s.node_heap i).allocated == 1) ++
      l₂.filter (fun i => (nodeAt s.node_heap i).allocated == 1) := by
    rw [hch, List.filter_append, List.filter_cons]
    simp [hkfree]
  -- new filter decompositions
  have hfree_dec' : (l₁ ++ k :: u :: l₂).filter (fun i => (nodeAt sF.node_heap i).allocated == 0) =
      l₁.filter (fun i => (nodeAt s.node_heap i).allocated == 0) ++
      u :: l₂.filter (fun i => (nodeAt s.node_heap i).allocated == 0) := by
    rw [List.filter_append, List.filter_cons, List.filter_cons, hc₁0, hc₂0]
    simp [hFk.2.1, hFu.2.1]
  have halloc_dec' : (l₁ ++ k :: u :: l₂).filter (fun i => (nodeAt sF.node_heap i).allocated == 1) =
      l₁.filter (fun i => (nodeAt s.node_heap i).allocated == 1) ++
      k :: l₂.filter (fun i => (nodeAt s.node_heap i).allocated == 1) := by
    rw [List.filter_append, List.filter_cons, List.filter_cons, hc₁1, hc₂1]
    simp [hFk.2.1, hFu.2.1]
  -- node maps of the gap indices
  have hndmap := wf_gap_nodes_nodup hwf
  have hmapold : List.Perm (s.gap_ix.map (fun g => g.node))
      (some k :: G₂.map (fun g => g.node)) := by
    have h' := hgperm.map (fun g => g.node)
    simp only [List.map_cons] at h'
    rw [hgknode] at h'
    exact h'
  have hG₂sub : ∀ g' ∈ G₂, g' ∈ s.gap_ix := fun g' hg' =>
    hgperm.mem_iff.mpr (by simp [hg'])
  have hG₂nok : ∀ g' ∈ G₂, g'.node ≠ some k := by
    intro g' hg' hcontra
    have hnd' : (some k :: G₂.map (fun g => g.node)).Nodup :=
      hmapold.nodup_iff.mp hndmap
    rw [List.nodup_cons] at hnd'
    exact hnd'.1 (by
      rw [← hcontra]
      exact List.mem_map_of_mem _ hg')
  refine ⟨?_, ?_, ?_, ?_, ?_, ?_, ?_, ?_, ?_, ?_, ?_, ?_, ?_, ?_, ?_⟩
  · -- hlen
    rw [hFlen, hwf.hlen, hFt]
  · -- chain
    refine chainOK_splice (a := k) (u := u) (R := R) hFlen.symm hult hkfit
      ⟨hFk.1, hFk.2.2.1, hFk.2.2.2.1, hFk.2.2.2.2.1, hFk.2.2.2.2.2⟩
      ⟨hFu.1, hFu.2.2.1, hFu.2.2.2.1, hFu.2.2.2.2.1⟩
      hFu.2.2.2.2.2 ?_ ?_ ?_ (hch ▸ hwf.chain)
    · intro i hi
      obtain ⟨hik, hiu⟩ := hne₁ i hi
      have him : ∀ m ∈ l₂.head?, i ≠ m := by
        intro m hm heq
        exact hdisj hi (heq ▸ List.mem_of_mem_head? hm)
      exact linkEq_of_eq (hFother i hik hiu him)
    · intro m hm
      obtain ⟨e1, e2, e3, e4, e5⟩ := hFhead m hm
      exact ⟨e1, e2, e4, e5⟩
    · intro i hi
      have hil₂ : i ∈ l₂ := List.mem_of_mem_tail hi
      obtain ⟨hik, hiu⟩ := hne₂ i hil₂
      have him : ∀ m ∈ l₂.head?, i ≠ m := by
        intro m hm heq
        subst heq
        cases l₂ with
        | nil => simp at hm
        | cons b t =>
            simp at hm
            subst hm
            rw [List.nodup_cons] at hl₂nd
            exact hl₂nd.1 (by simpa using hi)
      exact linkEq_of_eq (hFother i hik hiu him)
  · -- cover
    intro i hi hnotin
    have hik : i ≠ k := fun h => hnotin (by simp [h])
    have hiu : i ≠ u := fun h => hnotin (by simp [h])
    have hi₁ : i ∉ l₁ := fun h => hnotin (by simp [h])
    have hi₂ : i ∉ l₂ := fun h => hnotin (by simp [h])
    have him : ∀ m ∈ l₂.head?, i ≠ m := fun m hm heq =>
      hi₂ (heq ▸ List.mem_of_mem_head? hm)
    rw [hFother i hik hiu him]
    exact hwf.cover i (by rw [← hFlen]; exact hi) (by
      rw [hch]
      intro hcontra
      rcases List.mem_append.mp hcontra with h | h
      · exact hi₁ h
      · rcases List.mem_cons.mp h with h | h
        · exact hik h
        · exact hi₂ h)
  · -- nodup
    rw [hperm'.nodup_iff]
    exact List.nodup_cons.mpr ⟨hunotch, hwf.nodup⟩
  · -- bits
    intro i hi
    simp only [List.mem_append, List.mem_cons] at hi
    rcases hi with hi | hi | hi | hi
    · obtain ⟨hik, hiu⟩ := hne₁ i hi
      rw [(hsame i hik hiu).1]
      exact hwf.bits i (hsub i (Or.inl hi))
    · subst hi; right; exact hFk.2.1
    · subst hi; left; exact hFu.2.1
    · obtain ⟨hik, hiu⟩ := hne₂ i hi
      rw [(hsame i hik hiu).1]
      exact hwf.bits i (hsub i (Or.inr hi))
  · -- sizes
    intro i hi
    simp only [List.mem_append, List.mem_cons] at hi
    rcases hi with hi | hi | hi | hi
    · obtain ⟨hik, hiu⟩ := hne₁ i hi
      rw [(hsame i hik hiu).2.1, hFts]
      exact hwf.sizes i (hsub i (Or.inl hi))
    · subst hi; left; rw [hFk.2.2.2.1]; exact hR
    · subst hi; left; rw [hFu.2.2.2.1]; omega
    · obtain ⟨hik, hiu⟩ := hne₂ i hi
      rw [(hsame i hik hiu).2.1, hFts]
      exact hwf.sizes i (hsub i (Or.inr hi))
  · -- szalloc
    intro i hi
    simp only [List.mem_append, List.mem_cons] at hi
    rcases hi with hi | hi | hi | hi
    · obtain ⟨hik, hiu⟩ := hne₁ i hi
      rw [(hsame i hik hiu).1, (hsame i hik hiu).2.1]
      exact hwf.szalloc i (hsub i (Or.inl hi))
    · subst hi
      intro _
      rw [hFk.2.2.2.1]
      exact hR
    · subst hi
      intro hcontra
      rw [hFu.2.1] at hcontra
      simp at hcontra
    · obtain ⟨hik, hiu⟩ := hne₂ i hi
      rw [(hsame i hik hiu).1, (hsame i hik hiu).2.1]
      exact hwf.szalloc i (hsub i (Or.inr hi))
  · -- total
    have hm₁ : l₁.map (fun i => (nodeAt sF.node_heap i).alloc_record.size) =
        l₁.map (fun i => (nodeAt s.node_heap i).alloc_record.size) :=
      List.map_congr_left (fun i hi => by rw [(hsame i (hne₁ i hi).1 (hne₁ i hi).2).2.1])
    have hm₂ : l₂.map (fun i => (nodeAt sF.node_heap i).alloc_record.size) =
        l₂.map (fun i => (nodeAt s.node_heap i).alloc_record.size) :=
      List.map_congr_left (fun i hi => by rw [(hsame i (hne₂ i hi).1 (hne₂ i hi).2).2.1])
    have hold := hwf.total
    rw [hch] at hold
    rw [List.map_append, List.map_cons, List.sum_append, List.sum_cons] at hold
    rw [List.map_append, List.map_cons, List.map_cons, List.sum_append, List.sum_cons,
      List.sum_cons, hm₁, hm₂, hFk.2.2.2.1, hFu.2.2.2.1, hFts]
    omega
  · -- noAdj
    have hold : noAdj s.node_heap ((l₁ ++ [k]) ++ l₂) := by
      have := hch ▸ hwf.hadj
      have h2 : (l₁ ++ [k]) ++ l₂ = l₁ ++ k :: l₂ := by simp
      rw [h2]
      exact this
    have hL : noAdj sF.node_heap (l₁ ++ [k]) := by
      refine noAdj_mono ?_ (noAdj_append_left hold)
      intro a ha hal
      rcases List.mem_append.mp ha with ha | ha
      · rw [(hsame a (hne₁ a ha).1 (hne₁ a ha).2).1]; exact hal
      · have : a = k := by simpa using ha
        subst this
        exact hFk.2.1
    have hM₂ : noAdj sF.node_heap l₂ := by
      refine noAdj_mono ?_ (noAdj_append_right hold)
      intro a ha hal
      rw [(hsame a (hne₂ a ha).1 (hne₂ a ha).2).1]; exact hal
    have hpair_old := noAdj_pair hold
    have hM : noAdj sF.node_heap (u :: l₂) := by
      refine noAdj_cons_of hM₂ ?_
      intro m hm
      right
      have hmold := hpair_old k (by simp) m hm
      rcases hmold with h | h
      · rw [hkfree] at h; simp at h
      · obtain ⟨hmk, hmu⟩ := hne₂ m (List.mem_of_mem_head? hm)
        rw [(hsame m hmk hmu).1]
        exact h
    have hfin := noAdj_append_build hL hM (by
      intro x hx y hy
      have hxk : k = x := by simpa using hx
      have hyu : u = y := by simpa using hy
      rw [← hxk]
      left
      exact hFk.2.1)
    have h2 : (l₁ ++ [k]) ++ u :: l₂ = l₁ ++ k :: u :: l₂ := by simp
    rw [h2] at hfin
    exact hfin
  · -- gaps
    intro g' hg'
    have hg'mem : g' ∈ ({ size := (nodeAt s.node_heap k).alloc_record.size - R, node := some u } : Gap) :: G₂ := hFperm.mem_iff.mp hg'
    rcases List.mem_cons.mp hg'mem with hg' | hg'
    · subst hg'
      refine ⟨u, rfl, by simp, hFu.2.1, ?_⟩
      show (nodeAt s.node_heap k).alloc_record.size - R = _
      rw [hFu.2.2.2.1]
    · obtain ⟨i, hin, hich, hifree, hisz⟩ := hwf.gaps g' (hG₂sub g' hg')
      have hik : i ≠ k := by
        intro h
        exact hG₂nok g' hg' (h ▸ hin)
      have hiu : i ≠ u := fun h => hunotch (h ▸ hich)
      refine ⟨i, hin, ?_, ?_, ?_⟩
      · rw [hch] at hich
        rcases List.mem_append.mp hich with h | h
        · simp [h]
        · rcases List.mem_cons.mp h with h | h
          · exact absurd h hik
          · simp [h]
      · rw [(hsame i hik hiu).1]
        exact hifree
      · rw [(hsame i hik hiu).2.1]
        exact hisz
  · -- gperm
    have hFmap : List.Perm (sF.gap_ix.map (fun g => g.node))
        (some u :: G₂.map (fun g => g.node)) := by
      have h' := hFperm.map (fun g => g.node)
      simp only [List.map_cons] at h'
      exact h'
    have hstep1 : List.Perm (some k :: G₂.map (fun g => g.node))
        ((ch.filter (fun i => (nodeAt s.node_heap i).allocated == 0)).map some) :=
      hmapold.symm.trans hwf.gperm
    rw [hfree_dec, List.map_append, List.map_cons] at hstep1
    have hG₂free := (hstep1.trans List.perm_middle).cons_inv
    rw [hfree_dec', List.map_append, List.map_cons]
    refine hFmap.trans ?_
    refine (hG₂free.cons (some u)).trans ?_
    exact List.perm_middle.symm
  · -- ngaps
    have hlen2 : s.gap_ix.length = G₂.length + 1 := by
      have := hgperm.length_eq
      simpa using this
    have hlenF : sF.gap_ix.length = G₂.length + 1 := by
      have := hFperm.length_eq
      simpa using this
    rw [hFng, hwf.ngaps, hlen2, hlenF]
  · -- nallocs
    rw [hFna, hwf.nallocs, halloc_dec, halloc_dec']
    simp [List.length_append]
    omega
  · -- asize
    rw [hFas, hwf.asize, halloc_dec, halloc_dec']
    rw [List.map_append, List.map_append, List.map_cons]
    rw [List.sum_append, List.sum_append, List.sum_cons]
    have hmf₁ : (l₁.filter (fun i => (nodeAt s.node_heap i).allocated == 1)).map
        (fun i => (nodeAt sF.node_heap i).alloc_record.size) =
        (l₁.filter (fun i => (nodeAt s.node_heap i).allocated == 1)).map
        (fun i => (nodeAt s.node_heap i).alloc_record.size) := by
      apply List.map_congr_left
      intro i hi
      have hi' := (List.mem_filter.mp hi).1
      rw [(hsame i (hne₁ i hi').1 (hne₁ i hi').2).2.1]
    have hmf₂ : (l₂.filter (fun i => (nodeAt s.node_heap i).allocated == 1)).map
        (fun i => (nodeAt sF.node_heap i).alloc_record.size) =
        (l₂.filter (fun i => (nodeAt s.node_heap i).allocated == 1)).map
        (fun i => (nodeAt s.node_heap i).alloc_record.size) := by
      apply List.map_congr_left
      intro i hi
      have hi' := (List.mem_filter.mp hi).1
      rw [(hsame i (hne₂ i hi').1 (hne₂ i hi').2).2.1]
    rw [hmf₁, hmf₂, hFk.2.2.2.1]
    omega
  · -- unodes
    rw [hFun, hwf.unodes]
    have hthis := hperm'.length_eq
    simp only [List.length_append, List.length_cons] at hthis ⊢
    rw [hch]
    simp only [List.length_append, List.length_cons]
    omega


/-- The in-place update applied to the selected descriptor by mem_new_alloc
    (mem_pool.c lines 300-302). -/
def markAlloc (R : Nat) : Node → Node := fun nd =>
  { nd with allocated := 1, alloc_record := { nd.alloc_record with size := R } }

theorem updNode_heap (s : PoolMgr) (i : Nat) (f : Node → Node) :
    (updNode s i f).node_heap = s.node_heap.set i (f (nodeAt s.node_heap i)) := rfl

/-- Preservation of well-formedness by mem_new_alloc, with the failure frame:
    a failed allocation leaves the state untouched. -/
theorem wf_new_alloc {s : PoolMgr} {ch : List Nat} (R : Nat) (hwf : WF s ch) (hR : 1 ≤ R) :
    (∃ ch', WF (mem_new_alloc s R).1 ch') ∧
    ((mem_new_alloc s R).2 = none → (mem_new_alloc s R).1 = s) := by
  by_cases h0 : s.pool.num_gaps = 0
  · rw [show mem_new_alloc s R = (s, none) from by rw [mem_new_alloc, if_pos h0]]
    exact ⟨⟨ch, hwf⟩, fun _ => rfl⟩
  by_cases h1 : s.total_nodes ≤ s.used_nodes
  · rw [show mem_new_alloc s R = (s, none) from by rw [mem_new_alloc, if_neg h0, if_pos h1]]
    exact ⟨⟨ch, hwf⟩, fun _ => rfl⟩
  cases hsel : allocSelect s R with
  | none =>
      rw [show mem_new_alloc s R = (s, none) from by
        rw [mem_new_alloc, if_neg h0, if_neg h1, hsel]]
      exact ⟨⟨ch, hwf⟩, fun _ => rfl⟩
  | some k =>
      rw [show mem_new_alloc s R = mem_new_alloc_commit s R k from by
        rw [mem_new_alloc, if_neg h0, if_neg h1, hsel]]
      obtain ⟨hkch, hkfree, hkfit⟩ := allocSelect_spec hwf hR hsel
      obtain ⟨l₁, l₂, hch⟩ := List.append_of_mem hkch
      obtain ⟨hknl₁, hknl₂, hnodup12⟩ := nodup_append_cons (hch ▸ hwf.nodup)
      have hklt : k < s.node_heap.length := (chainOK_mem hwf.chain k hkch).1
      have hkused : (nodeAt s.node_heap k).used = 1 := (chainOK_mem hwf.chain k hkch).2
      have hkentry := wf_gap_entry_exists hwf hkch hkfree
      have hndmap := wf_gap_nodes_nodup hwf
      set sA : PoolMgr := { s with pool := { s.pool with num_allocs := s.pool.num_allocs + 1, alloc_size := s.pool.alloc_size + R } } with hsA
      obtain ⟨hrh, hrt, hru, _, _, hrts, hras, hrna, hrng, g, hgmem, hgnode, hgperm⟩ :=
        mem_remove_from_gap_ix_spec sA R (some k) hkentry
      set s₂ : PoolMgr := (mem_remove_from_gap_ix sA R (some k)).1 with hs₂
      have hrh' : s₂.node_heap = s.node_heap := hrh
      have hrt' : s₂.total_nodes = s.total_nodes := hrt
      have hru' : s₂.used_nodes = s.used_nodes := hru
      have hrts' : s₂.pool.total_size = s.pool.total_size := hrts
      have hras' : s₂.pool.alloc_size = s.pool.alloc_size + R := hras
      have hrna' : s₂.pool.num_allocs = s.pool.num_allocs + 1 := hrna
      have hrng' : s₂.pool.num_gaps = s.pool.num_gaps - 1 := hrng
      have hgperm' : List.Perm s.gap_ix (g :: s₂.gap_ix) := hgperm
      have hglen : s.gap_ix.length = s₂.gap_ix.length + 1 := by
        have := hgperm'.length_eq
        simpa using this
      have hnotin₂ : some k ∉ s₂.gap_ix.map (fun g => g.node) := by
        have hmapperm : List.Perm (s.gap_ix.map (fun g => g.node))
            (g.node :: s₂.gap_ix.map (fun g => g.node)) := by
          have := hgperm'.map (fun g => g.node)
          simpa using this
        have := hmapperm.nodup_iff.mp hndmap
        rw [List.nodup_cons] at this
        rw [← hgnode]
        exact this.1
      have hfree_dec : ch.filter (fun i => (nodeAt s.node_heap i).allocated == 0) =
          l₁.filter (fun i => (nodeAt s.node_heap i).allocated == 0) ++
          k :: l₂.filter (fun i => (nodeAt s.node_heap i).allocated == 0) := by
        rw [hch, List.filter_append, List.filter_cons]
        simp [hkfree]
      have halloc_dec : ch.filter (fun i => (nodeAt s.node_heap i).allocated == 1) =
          l₁.filter (fun i => (nodeAt s.node_heap i).allocated == 1) ++
          l₂.filter (fun i => (nodeAt s.node_heap i).allocated == 1) := by
        rw [hch, List.filter_append, List.filter_cons]
        simp [hkfree]
      by_cases hrem : (nodeAt s.node_heap k).alloc_record.size - R = 0
      -- exact fit: no split
      · have hS : (nodeAt s.node_heap k).alloc_record.size = R := by omega
        have hbody : mem_new_alloc_commit s R k = (updNode s₂ k (markAlloc R), some k) := by
          rw [hs₂, hsA]
          unfold mem_new_alloc_commit markAlloc
          dsimp only
          rw [if_neg (by simpa using hrem)]
        rw [hbody]
        refine ⟨⟨ch, ?_⟩, fun hcontra => absurd hcontra (by simp)⟩
        have hrec : { (nodeAt s.node_heap k).alloc_record with size := R }
            = (nodeAt s.node_heap k).alloc_record := by rw [← hS]
        have hH : (updNode s₂ k (markAlloc R)).node_heap =
            s.node_heap.set k { nodeAt s.node_heap k with allocated := 1 } := by
          show s₂.node_heap.set k (markAlloc R (nodeAt s₂.node_heap k)) = _
          rw [hrh']
          unfold markAlloc
          rw [hrec]
        have hpool : (updNode s₂ k (markAlloc R)).pool = s₂.pool := rfl
        have hgap : (updNode s₂ k (markAlloc R)).gap_ix = s₂.gap_ix := rfl
        have hH'k : nodeAt (s.node_heap.set k { nodeAt s.node_heap k with allocated := 1 }) k
            = { nodeAt s.node_heap k with allocated := 1 } := nodeAt_set_self hklt
        have hH'ne : ∀ i, i ≠ k →
            nodeAt (s.node_heap.set k { nodeAt s.node_heap k with allocated := 1 }) i
            = nodeAt s.node_heap i := fun i hi => nodeAt_set_ne (fun h => hi h.symm)
        have hcf₁0 : l₁.filter (fun i => (nodeAt (s.node_heap.set k { nodeAt s.node_heap k with allocated := 1 }) i).allocated == 0) = l₁.filter (fun i => (nodeAt s.node_heap i).allocated == 0) :=
          List.filter_congr (fun i hi => by rw [hH'ne i (fun h => hknl₁ (h ▸ hi))])
        have hcf₂0 : l₂.filter (fun i => (nodeAt (s.node_heap.set k { nodeAt s.node_heap k with allocated := 1 }) i).allocated == 0) = l₂.filter (fun i => (nodeAt s.node_heap i).allocated == 0) :=
          List.filter_congr (fun i hi => by rw [hH'ne i (fun h => hknl₂ (h ▸ hi))])
        have hcf₁1 : l₁.filter (fun i => (nodeAt (s.node_heap.set k { nodeAt s.node_heap k with allocated := 1 }) i).allocated == 1) = l₁.filter (fun i => (nodeAt s.node_heap i).allocated == 1) :=
          List.filter_congr (fun i hi => by rw [hH'ne i (fun h => hknl₁ (h ▸ hi))])
        have hcf₂1 : l₂.filter (fun i => (nodeAt (s.node_heap.set k { nodeAt s.node_heap k with allocated := 1 }) i).allocated == 1) = l₂.filter (fun i => (nodeAt s.node_heap i).allocated == 1) :=
          List.filter_congr (fun i hi => by rw [hH'ne i (fun h => hknl₂ (h ▸ hi))])
        constructor
        · rw [hH]
          show (s.node_heap.set k _).length = s₂.total_nodes
          rw [List.length_set, hwf.hlen, hrt']
        · rw [hH]
          refine chainOK_congr (by simp) ?_ hwf.chain
          intro i hi
          by_cases hik : i = k
          · subst hik
            rw [hH'k]
            exact ⟨rfl, rfl, rfl, rfl⟩
          · rw [hH'ne i hik]
            exact linkEq_refl _
        · rw [hH]
          intro i hi hnotin
          have hik : i ≠ k := fun h => hnotin (h ▸ hkch)
          rw [hH'ne i hik]
          exact hwf.cover i (by simpa using hi) hnotin
        · exact hwf.nodup
        · rw [hH]
          intro i hi
          by_cases hik : i = k
          · subst hik; rw [hH'k]; right; rfl
          · rw [hH'ne i hik]; exact hwf.bits i hi
        · rw [hH]
          intro i hi
          show 1 ≤ _ ∨ s₂.pool.total_size = 0
          rw [hrts']
          by_cases hik : i = k
          · rw [hik, hH'k]
            left
            show 1 ≤ (nodeAt s.node_heap k).alloc_record.size
            omega
          · rw [hH'ne i hik]
            exact hwf.sizes i hi
        · rw [hH]
          intro i hi
          by_cases hik : i = k
          · rw [hik, hH'k]
            intro _
            show 1 ≤ (nodeAt s.node_heap k).alloc_record.size
            omega
          · rw [hH'ne i hik]
            exact hwf.szalloc i hi
        · rw [hH]
          show _ = s₂.pool.total_size
          rw [hrts']
          rw [← hwf.total]
          congr 1
          apply List.map_congr_left
          intro i _
          by_cases hik : i = k
          · subst hik; rw [hH'k]
          · rw [hH'ne i hik]
        · rw [hH]
          refine noAdj_mono ?_ hwf.hadj
          intro a _ hal
          by_cases hak : a = k
          · subst hak; rw [hH'k]
          · rw [hH'ne a hak]; exact hal
        · rw [hH, hgap]
          intro g' hg'
          have hg'G : g' ∈ s.gap_ix := hgperm'.mem_iff.mpr (by simp [hg'])
          obtain ⟨i, hin, hich, hifree, hisz⟩ := hwf.gaps g' hg'G
          have hik : i ≠ k := by
            intro h
            subst h
            exact hnotin₂ (by
              rw [← hin]
              exact List.mem_map_of_mem _ hg')
          exact ⟨i, hin, hich, by rw [hH'ne i hik]; exact hifree,
            by rw [hH'ne i hik]; exact hisz⟩
        · rw [hH, hgap]
          have hmapperm : List.Perm (s.gap_ix.map (fun g => g.node))
              (some k :: s₂.gap_ix.map (fun g => g.node)) := by
            have h' := hgperm'.map (fun g => g.node)
            simp only [List.map_cons] at h'
            rw [hgnode] at h'
            exact h'
          have hstep1 : List.Perm (some k :: s₂.gap_ix.map (fun g => g.node))
              ((ch.filter (fun i => (nodeAt s.node_heap i).allocated == 0)).map some) :=
            hmapperm.symm.trans hwf.gperm
          rw [hfree_dec] at hstep1
          rw [List.map_append, List.map_cons] at hstep1
          have hstep2 := (hstep1.trans List.perm_middle).cons_inv
          have hnew_dec : ch.filter (fun i =>
              (nodeAt (s.node_heap.set k { nodeAt s.node_heap k with allocated := 1 }) i).allocated == 0) =
              l₁.filter (fun i => (nodeAt s.node_heap i).allocated == 0) ++
              l₂.filter (fun i => (nodeAt s.node_heap i).allocated == 0) := by
            rw [hch, List.filter_append, List.filter_cons]
            have hk1 : (nodeAt (s.node_heap.set k
                { nodeAt s.node_heap k with allocated := 1 }) k).allocated = 1 := by
              rw [hH'k]
            rw [hcf₁0, hcf₂0]
            simp [hk1]
          rw [hnew_dec, List.map_append]
          exact hstep2
        · show s₂.pool.num_gaps = s₂.gap_ix.length
          rw [hrng']
          rw [hwf.ngaps, hglen]
          omega
        · rw [hH, hpool, hrna']
          have hdec : ch.filter (fun i =>
              (nodeAt (s.node_heap.set k { nodeAt s.node_heap k with allocated := 1 }) i).allocated == 1) =
              l₁.filter (fun i => (nodeAt s.node_heap i).allocated == 1) ++
              k :: l₂.filter (fun i => (nodeAt s.node_heap i).allocated == 1) := by
            rw [hch, List.filter_append, List.filter_cons]
            rw [hcf₁1, hcf₂1]
            simp [hH'k]
          rw [hdec, hwf.nallocs, halloc_dec]
          simp [List.length_append]
          omega
        · rw [hH, hpool, hras']
          have hdec : ch.filter (fun i =>
              (nodeAt (s.node_heap.set k { nodeAt s.node_heap k with allocated := 1 }) i).allocated == 1) =
              l₁.filter (fun i => (nodeAt s.node_heap i).allocated == 1) ++
              k :: l₂.filter (fun i => (nodeAt s.node_heap i).allocated == 1) := by
            rw [hch, List.filter_append, List.filter_cons]
            rw [hcf₁1, hcf₂1]
            simp [hH'k]
          rw [hdec, hwf.asize, halloc_dec]
          rw [List.map_append, List.map_append, List.map_cons]
          rw [List.sum_append, List.sum_append, List.sum_cons]
          have hszk : (nodeAt (s.node_heap.set k
              { nodeAt s.node_heap k with allocated := 1 }) k).alloc_record.size = R := by
            rw [hH'k]
            exact hS
          have hml₁ : (l₁.filter (fun i => (nodeAt s.node_heap i).allocated == 1)).map
              (fun i => (nodeAt (s.node_heap.set k { nodeAt s.node_heap k with allocated := 1 }) i).alloc_record.size) =
              (l₁.filter (fun i => (nodeAt s.node_heap i).allocated == 1)).map
              (fun i => (nodeAt s.node_heap i).alloc_record.size) := by
            apply List.map_congr_left
            intro i hi
            have hi' := (List.mem_filter.mp hi).1
            rw [hH'ne i (fun h => hknl₁ (h ▸ hi'))]
          have hml₂ : (l₂.filter (fun i => (nodeAt s.node_heap i).allocated == 1)).map
              (fun i => (nodeAt (s.node_heap.set k { nodeAt s.node_heap k with allocated := 1 }) i).alloc_record.size) =
              (l₂.filter (fun i => (nodeAt s.node_heap i).allocated == 1)).map
              (fun i => (nodeAt s.node_heap i).alloc_record.size) := by
            apply List.map_congr_left
            intro i hi
            have hi' := (List.mem_filter.mp hi).1
            rw [hH'ne i (fun h => hknl₂ (h ▸ hi'))]
          rw [hml₁, hml₂, hszk]
          omega
        · show s₂.used_nodes = ch.length
          rw [hru']
          exact hwf.unodes
      · -- split path: a fresh descriptor carries the remainder
        have hchused : ∀ i ∈ ch, (nodeAt s.node_heap i).used = 1 :=
          fun i hi => (chainOK_mem hwf.chain i hi).2
        have hfresh := wf_exists_fresh hwf (by omega)
        have hset : (updNode s₂ k (fun nd => { nd with allocated := 1, alloc_record := { nd.alloc_record with size := R } })).node_heap
            = s.node_heap.set k { nodeAt s.node_heap k with allocated := 1, alloc_record := { (nodeAt s.node_heap k).alloc_record with size := R } } := by
          show s₂.node_heap.set k _ = _
          rw [hrh']
        obtain ⟨u, hfindeq, hult', hunotch⟩ :=
          find_unused (s.node_heap.set k { nodeAt s.node_heap k with allocated := 1, alloc_record := { (nodeAt s.node_heap k).alloc_record with size := R } }) ch
            (fun i hi => by
              by_cases hik : i = k
              · rw [hik, nodeAt_set_self hklt]
                exact hchused k hkch
              · rw [nodeAt_set_ne (fun h => hik h.symm)]
                exact hchused i hi)
            (by
              obtain ⟨j, hjlt, hju⟩ := hfresh
              have hjk : j ≠ k := by
                intro h
                rw [h, hkused] at hju
                simp at hju
              exact ⟨j, by simpa using hjlt, by
                rw [nodeAt_set_ne (fun h => hjk h.symm)]
                exact hju⟩)
        have hult : u < s.node_heap.length := by simpa using hult'
        have hku : k ≠ u := fun h => hunotch (h ▸ hkch)
        have hchain' : chainOK s.node_heap (l₁ ++ k :: l₂) 0 none := hch ▸ hwf.chain
        have hknext : (nodeAt s.node_heap k).next = l₂.head? := (chainOK_links hchain').1
        have hmemk : (nodeAt (s.node_heap.set k { nodeAt s.node_heap k with allocated := 1, alloc_record := { (nodeAt s.node_heap k).alloc_record with size := R } }) k).alloc_record.mem = (nodeAt s.node_heap k).alloc_record.mem := by
          rw [nodeAt_set_self hklt]
        cases l₂ with
        | nil =>
            have hknil : (nodeAt s.node_heap k).next = none := by simpa using hknext
            unfold mem_new_alloc_commit
            dsimp only
            rw [if_pos hrem]
            rw [← hsA, ← hs₂, hset, hfindeq]
            dsimp only
            rw [hmemk]
            set s₃ : PoolMgr := updNode s₂ k (fun nd => { nd with allocated := 1, alloc_record := { nd.alloc_record with size := R } }) with hs₃
            set s₄ : PoolMgr := updNode s₃ u (fun nd => { nd with allocated := 0, used := 1, alloc_record := { mem := ptrAdd (nodeAt s.node_heap k).alloc_record.mem R, size := (nodeAt s.node_heap k).alloc_record.size - R } }) with hs₄
            set s₅ : PoolMgr := { s₄ with used_nodes := s₄.used_nodes + 1 } with hs₅
            set s₆ : PoolMgr := updNode s₅ u (fun nd => { nd with prev := some k }) with hs₆
            have hlen₃ : s₃.node_heap.length = s.node_heap.length := by
              rw [hset]
              simp
            have hklt₃ : k < s₃.node_heap.length := by rw [hlen₃]; exact hklt
            have hult₃ : u < s₃.node_heap.length := by rw [hlen₃]; exact hult
            have h3k : nodeAt s₃.node_heap k = { nodeAt s.node_heap k with allocated := 1, alloc_record := { (nodeAt s.node_heap k).alloc_record with size := R } } := by
              rw [hset]
              exact nodeAt_set_self hklt
            have h3ne : ∀ i, i ≠ k → nodeAt s₃.node_heap i = nodeAt s.node_heap i := by
              intro i hik
              rw [hset]
              exact nodeAt_set_ne (fun h => hik h.symm)
            have h4ne : ∀ i, i ≠ u → nodeAt s₄.node_heap i = nodeAt s₃.node_heap i := by
              intro i hiu
              rw [hs₄, updNode_heap]
              exact nodeAt_set_ne (fun h => hiu h.symm)
            have h4u : nodeAt s₄.node_heap u = { nodeAt s₃.node_heap u with allocated := 0, used := 1, alloc_record := { mem := ptrAdd (nodeAt s.node_heap k).alloc_record.mem R, size := (nodeAt s.node_heap k).alloc_record.size - R } } := by
              rw [hs₄, updNode_heap]
              exact nodeAt_set_self hult₃
            have hlen₄ : s₄.node_heap.length = s.node_heap.length := by
              rw [hs₄, updNode_heap]
              simp [hlen₃]
            have h5heap : s₅.node_heap = s₄.node_heap := by rw [hs₅]
            have h6ne : ∀ i, i ≠ u → nodeAt s₆.node_heap i = nodeAt s₅.node_heap i := by
              intro i hiu
              rw [hs₆, updNode_heap]
              exact nodeAt_set_ne (fun h => hiu h.symm)
            have h6u : nodeAt s₆.node_heap u = { nodeAt s₅.node_heap u with prev := some k } := by
              rw [hs₆, updNode_heap]
              refine nodeAt_set_self ?_
              rw [h5heap, hlen₄]
              exact hult
            have hlen₆ : s₆.node_heap.length = s.node_heap.length := by
              rw [hs₆, updNode_heap]
              simp [h5heap, hlen₄]
            have hscr : (nodeAt s₆.node_heap k).next = none := by
              rw [h6ne k hku, h5heap, h4ne k hku, h3k]
              exact hknil
            rw [hscr]
            dsimp only
            set s₇ : PoolMgr := updNode s₆ k (fun nd => { nd with next := some u }) with hs₇
            set s₈ : PoolMgr := updNode s₇ u (fun nd => { nd with next := none }) with hs₈
            have h7ne : ∀ i, i ≠ k → nodeAt s₇.node_heap i = nodeAt s₆.node_heap i := by
              intro i hik
              rw [hs₇, updNode_heap]
              exact nodeAt_set_ne (fun h => hik h.symm)
            have h7k : nodeAt s₇.node_heap k = { nodeAt s₆.node_heap k with next := some u } := by
              rw [hs₇, updNode_heap]
              refine nodeAt_set_self ?_
              rw [hlen₆]
              exact hklt
            have hlen₇ : s₇.node_heap.length = s.node_heap.length := by
              rw [hs₇, updNode_heap]
              simp [hlen₆]
            have h8ne : ∀ i, i ≠ u → nodeAt s₈.node_heap i = nodeAt s₇.node_heap i := by
              intro i hiu
              rw [hs₈, updNode_heap]
              exact nodeAt_set_ne (fun h => hiu h.symm)
            have h8u : nodeAt s₈.node_heap u = { nodeAt s₇.node_heap u with next := none } := by
              rw [hs₈, updNode_heap]
              refine nodeAt_set_self ?_
              rw [hlen₇]
              exact hult
            have hlen₈ : s₈.node_heap.length = s.node_heap.length := by
              rw [hs₈, updNode_heap]
              simp [hlen₇]
            have hng₈ : s₈.pool.num_gaps = s₈.gap_ix.length := by
              have e1 : s₈.pool.num_gaps = s₂.pool.num_gaps := rfl
              have e2 : s₈.gap_ix = s₂.gap_ix := rfl
              rw [e1, e2, hrng', hwf.ngaps, hglen]
              omega
            obtain ⟨hah, hat, hau2, _, _, hats, haas, hana, hang, haperm⟩ :=
              mem_add_to_gap_ix_spec s₈ ((nodeAt s.node_heap k).alloc_record.size - R) (some u) hng₈
            have hk8 : nodeAt s₈.node_heap k = { { nodeAt s.node_heap k with allocated := 1, alloc_record := { (nodeAt s.node_heap k).alloc_record with size := R } } with next := some u } := by
              rw [h8ne k hku, h7k, h6ne k hku, h5heap, h4ne k hku, h3k]
            have hu8 : nodeAt s₈.node_heap u = { { { nodeAt s₃.node_heap u with allocated := 0, used := 1, alloc_record := { mem := ptrAdd (nodeAt s.node_heap k).alloc_record.mem R, size := (nodeAt s.node_heap k).alloc_record.size - R } } with prev := some k } with next := none } := by
              rw [h8u, h7ne u (fun h => hku h.symm), h6u, h5heap, h4u]
            refine ⟨⟨l₁ ++ k :: u :: [], ?_⟩, fun hcontra => absurd hcontra (by simp)⟩
            refine wf_split_common hwf hR hch hkfree hkfit hrem hult hunotch ?_ ?_ ?_ ?_ ?_ ?_ ?_ ?_ ?_ ?_ ?_ ?_
            · rw [hah, hlen₈]
            · rw [hah, hk8]
              exact ⟨rfl, rfl, rfl, rfl, rfl, rfl⟩
            · rw [hah, hu8]
              exact ⟨rfl, rfl, rfl, rfl, rfl, rfl⟩
            · intro m hm
              simp at hm
            · intro i hik hiu _
              rw [hah, h8ne i hiu, h7ne i hik, h6ne i hiu, h5heap, h4ne i hiu, h3ne i hik]
            · rw [hat]
              exact hrt'
            · rw [hau2]
              show s₂.used_nodes + 1 = _
              rw [hru']
            · rw [hats]
              exact hrts'
            · rw [haas]
              exact hras'
            · rw [hana]
              exact hrna'
            · rw [hang]
              have h8g : s₈.pool.num_gaps = s₂.pool.num_gaps := rfl
              have h1g : 1 ≤ s.pool.num_gaps := by
                rw [hwf.ngaps, hglen]
                omega
              rw [h8g, hrng']
              omega
            · exact ⟨s₂.gap_ix, g, hgmem, hgnode, hgperm', haperm⟩
        | cons nn l₂' =>
            have hksome : (nodeAt s.node_heap k).next = some nn := by simpa using hknext
            have hnnch : nn ∈ ch := by simp [hch]
            have hnnlt : nn < s.node_heap.length := (chainOK_mem hwf.chain nn hnnch).1
            have hknn : k ≠ nn := fun h => hknl₂ (by rw [h]; simp)
            have hunn : u ≠ nn := fun h => hunotch (h ▸ hnnch)
            unfold mem_new_alloc_commit
            dsimp only
            rw [if_pos hrem]
            rw [← hsA, ← hs₂, hset, hfindeq]
            dsimp only
            rw [hmemk]
            set s₃ : PoolMgr := updNode s₂ k (fun nd => { nd with allocated := 1, alloc_record := { nd.alloc_record with size := R } }) with hs₃
            set s₄ : PoolMgr := updNode s₃ u (fun nd => { nd with allocated := 0, used := 1, alloc_record := { mem := ptrAdd (nodeAt s.node_heap k).alloc_record.mem R, size := (nodeAt s.node_heap k).alloc_record.size - R } }) with hs₄
            set s₅ : PoolMgr := { s₄ with used_nodes := s₄.used_nodes + 1 } with hs₅
            set s₆ : PoolMgr := updNode s₅ u (fun nd => { nd with prev := some k }) with hs₆
            have hlen₃ : s₃.node_heap.length = s.node_heap.length := by
              rw [hset]
              simp
            have hklt₃ : k < s₃.node_heap.length := by rw [hlen₃]; exact hklt
            have hult₃ : u < s₃.node_heap.length := by rw [hlen₃]; exact hult
            have h3k : nodeAt s₃.node_heap k = { nodeAt s.node_heap k with allocated := 1, alloc_record := { (nodeAt s.node_heap k).alloc_record with size := R } } := by
              rw [hset]
              exact nodeAt_set_self hklt
            have h3ne : ∀ i, i ≠ k → nodeAt s₃.node_heap i = nodeAt s.node_heap i := by
              intro i hik
              rw [hset]
              exact nodeAt_set_ne (fun h => hik h.symm)
            have h4ne : ∀ i, i ≠ u → nodeAt s₄.node_heap i = nodeAt s₃.node_heap i := by
              intro i hiu
              rw [hs₄, updNode_heap]
              exact nodeAt_set_ne (fun h => hiu h.symm)
            have h4u : nodeAt s₄.node_heap u = { nodeAt s₃.node_heap u with allocated := 0, used := 1, alloc_record := { mem := ptrAdd (nodeAt s.node_heap k).alloc_record.mem R, size := (nodeAt s.node_heap k).alloc_record.size - R } } := by
              rw [hs₄, updNode_heap]
              exact nodeAt_set_self hult₃
            have hlen₄ : s₄.node_heap.length = s.node_heap.length := by
              rw [hs₄, updNode_heap]
              simp [hlen₃]
            have h5heap : s₅.node_heap = s₄.node_heap := by rw [hs₅]
            have h6ne : ∀ i, i ≠ u → nodeAt s₆.node_heap i = nodeAt s₅.node_heap i := by
              intro i hiu
              rw [hs₆, updNode_heap]
              exact nodeAt_set_ne (fun h => hiu h.symm)
            have h6u : nodeAt s₆.node_heap u = { nodeAt s₅.node_heap u with prev := some k } := by
              rw [hs₆, updNode_heap]
              refine nodeAt_set_self ?_
              rw [h5heap, hlen₄]
              exact hult
            have hlen₆ : s₆.node_heap.length = s.node_heap.length := by
              rw [hs₆, updNode_heap]
              simp [h5heap, hlen₄]
            have hscr : (nodeAt s₆.node_heap k).next = some nn := by
              rw [h6ne k hku, h5heap, h4ne k hku, h3k]
              exact hksome
            rw [hscr]
            dsimp only
            set s₇ : PoolMgr := updNode s₆ u (fun nd => { nd with next := some nn }) with hs₇
            set s₈ : PoolMgr := updNode s₇ nn (fun nd => { nd with prev := some u }) with hs₈
            set s₉ : PoolMgr := updNode s₈ k (fun nd => { nd with next := some u }) with hs₉
            have h7ne : ∀ i, i ≠ u → nodeAt s₇.node_heap i = nodeAt s₆.node_heap i := by
              intro i hiu
              rw [hs₇, updNode_heap]
              exact nodeAt_set_ne (fun h => hiu h.symm)
            have h7u : nodeAt s₇.node_heap u = { nodeAt s₆.node_heap u with next := some nn } := by
              rw [hs₇, updNode_heap]
              refine nodeAt_set_self ?_
              rw [hlen₆]
              exact hult
            have hlen₇ : s₇.node_heap.length = s.node_heap.length := by
              rw [hs₇, updNode_heap]
              simp [hlen₆]
            have h8ne : ∀ i, i ≠ nn → nodeAt s₈.node_heap i = nodeAt s₇.node_heap i := by
              intro i hinn
              rw [hs₈, updNode_heap]
              exact nodeAt_set_ne (fun h => hinn h.symm)
            have h8nn : nodeAt s₈.node_heap nn = { nodeAt s₇.node_heap nn with prev := some u } := by
              rw [hs₈, updNode_heap]
              refine nodeAt_set_self ?_
              rw [hlen₇]
              exact hnnlt
            have hlen₈ : s₈.node_heap.length = s.node_heap.length := by
              rw [hs₈, updNode_heap]
              simp [hlen₇]
            have h9ne : ∀ i, i ≠ k → nodeAt s₉.node_heap i = nodeAt s₈.node_heap i := by
              intro i hik
              rw [hs₉, updNode_heap]
              exact nodeAt_set_ne (fun h => hik h.symm)
            have h9k : nodeAt s₉.node_heap k = { nodeAt s₈.node_heap k with next := some u } := by
              rw [hs₉, updNode_heap]
              refine nodeAt_set_self ?_
              rw [hlen₈]
              exact hklt
            have hlen₉ : s₉.node_heap.length = s.node_heap.length := by
              rw [hs₉, updNode_heap]
              simp [hlen₈]
            have hng₉ : s₉.pool.num_gaps = s₉.gap_ix.length := by
              have e1 : s₉.pool.num_gaps = s₂.pool.num_gaps := rfl
              have e2 : s₉.gap_ix = s₂.gap_ix := rfl
              rw [e1, e2, hrng', hwf.ngaps, hglen]
              omega
            obtain ⟨hah, hat, hau2, _, _, hats, haas, hana, hang, haperm⟩ :=
              mem_add_to_gap_ix_spec s₉ ((nodeAt s.node_heap k).alloc_record.size - R) (some u) hng₉
            have hk9 : nodeAt s₉.node_heap k = { { nodeAt s.node_heap k with allocated := 1, alloc_record := { (nodeAt s.node_heap k).alloc_record with size := R } } with next := some u } := by
              rw [h9k, h8ne k hknn, h7ne k hku, h6ne k hku, h5heap, h4ne k hku, h3k]
            have hu9 : nodeAt s₉.node_heap u = { { { nodeAt s₃.node_heap u with allocated := 0, used := 1, alloc_record := { mem := ptrAdd (nodeAt s.node_heap k).alloc_record.mem R, size := (nodeAt s.node_heap k).alloc_record.size - R } } with prev := some k } with next := some nn } := by
              rw [h9ne u (fun h => hku h.symm), h8ne u hunn, h7u, h6u, h5heap, h4u]
            have hnn9 : nodeAt s₉.node_heap nn = { nodeAt s.node_heap nn with prev := some u } := by
              rw [h9ne nn (fun h => hknn h.symm), h8nn, h7ne nn (fun h => hunn h.symm), h6ne nn (fun h => hunn h.symm), h5heap, h4ne nn (fun h => hunn h.symm), h3ne nn (fun h => hknn h.symm)]
            refine ⟨⟨l₁ ++ k :: u :: nn :: l₂', ?_⟩, fun hcontra => absurd hcontra (by simp)⟩
            refine wf_split_common hwf hR hch hkfree hkfit hrem hult hunotch ?_ ?_ ?_ ?_ ?_ ?_ ?_ ?_ ?_ ?_ ?_ ?_
            · rw [hah, hlen₉]
            · rw [hah, hk9]
              exact ⟨rfl, rfl, rfl, rfl, rfl, rfl⟩
            · rw [hah, hu9]
              exact ⟨rfl, rfl, rfl, rfl, rfl, rfl⟩
            · intro m hm
              have hmnn : nn = m := by simpa using hm
              subst hmnn
              rw [hah, hnn9]
              exact ⟨rfl, rfl, rfl, rfl, rfl⟩
            · intro i hik hiu him
              have hinn : i ≠ nn := him nn (by simp)
              rw [hah, h9ne i hik, h8ne i hinn, h7ne i hiu, h6ne i hiu, h5heap, h4ne i hiu, h3ne i hik]
            · rw [hat]
              exact hrt'
            · rw [hau2]
              show s₂.used_nodes + 1 = _
              rw [hru']
            · rw [hats]
              exact hrts'
            · rw [haas]
              exact hras'
            · rw [hana]
              exact hrna'
            · rw [hang]
              have h9g : s₉.pool.num_gaps = s₂.pool.num_gaps := rfl
              have h1g : 1 ≤ s.pool.num_gaps := by
                rw [hwf.ngaps, hglen]
                omega
              rw [h9g, hrng']
              omega
            · exact ⟨s₂.gap_ix, g, hgmem, hgnode, hgperm', haperm⟩


theorem perm_append_cancel_left {α : Type} :
    ∀ (l l₁ l₂ : List α), List.Perm (l ++ l₁) (l ++ l₂) → List.Perm l₁ l₂
  | [], _, _, h => h
  | a :: t, l₁, l₂, h => by
      rw [List.cons_append, List.cons_append] at h
      exact perm_append_cancel_left t l₁ l₂ h.cons_inv

theorem filter_eq_singleton {p : Nat → Bool} :
    ∀ {l : List Nat} {k : Nat}, l.Nodup → k ∈ l → (∀ i ∈ l, p i = true ↔ i = k) →
      l.filter p = [k]
  | [], k, _, hk, _ => absurd hk (by simp)
  | a :: t, k, hnd, hk, hp => by
      rw [List.nodup_cons] at hnd
      rcases List.mem_cons.mp hk with h | h
      · subst h
        rw [List.filter_cons, if_pos (by rw [(hp k (by simp))])]
        have ht : t.filter p = [] := by
          rw [List.filter_eq_nil_iff]
          intro i hi
          intro hcontra
          have := (hp i (by simp [hi])).mp hcontra
          subst this
          exact hnd.1 hi
        rw [ht]
      · have hak : a ≠ k := by
          intro hcontra
          subst hcontra
          exact hnd.1 h
        rw [List.filter_cons, if_neg (by
          rw [(hp a (by simp))]
          simpa using hak)]
        exact filter_eq_singleton hnd.2 h (fun i hi => hp i (by simp [hi]))

/-- Dropping a prefix of a chain: the suffix is chained from the prefix's total
    extent, linked back to the prefix's last member. -/
theorem chainOK_drop {H : List Node} :
    ∀ {A B : List Nat} {off : Nat} {pr : Option Nat}, B ≠ [] →
      chainOK H (A ++ B) off pr →
      chainOK H B (off + (A.map (fun i => (nodeAt H i).alloc_record.size)).sum)
        ((A.getLast?).elim pr some)
  | [], B, off, pr, _, hc => by simpa using hc
  | a :: A', B, off, pr, hB, hc => by
      rcases hl : A' ++ B with _ | ⟨y, rest⟩
      · rcases List.append_eq_nil.mp hl with ⟨_, h2⟩
        exact absurd h2 hB
      · rw [List.cons_append, hl] at hc
        have hrec := @chainOK_drop H A' B
          (off + (nodeAt H a).alloc_record.size) (some a) hB
          (hl ▸ hc.2.2.2.2.2)
        rw [List.map_cons, List.sum_cons]
        have harith : off + ((nodeAt H a).alloc_record.size +
            (A'.map (fun i => (nodeAt H i).alloc_record.size)).sum) =
            off + (nodeAt H a).alloc_record.size +
            (A'.map (fun i => (nodeAt H i).alloc_record.size)).sum := by omega
        rw [harith]
        cases hA' : A'.getLast? with
        | none =>
            have hA0 : A' = [] := List.getLast?_eq_none_iff.mp hA'
            subst hA0
            simpa using hrec
        | some z =>
            have hne : A' ≠ [] := by intro h; subst h; simp at hA'
            have hcons : (a :: A').getLast? = some z := by
              rw [List.getLast?_cons]
              simp [hA']
            rw [hcons]
            simpa [hA'] using hrec

/-- Chain surgery for the merges of mem_del_alloc: descriptor `c` absorbs the
    consecutive run `D` right after it (their slots leave the chain), keeping
    its offset and growing by their total size. -/
theorem chainOK_absorb {H H' : List Node} {c : Nat} {D : List Nat}
    (hlen : H.length = H'.length)
    (hc : (nodeAt H' c).used = (nodeAt H c).used ∧
      (nodeAt H' c).alloc_record.mem = (nodeAt H c).alloc_record.mem ∧
      (nodeAt H' c).alloc_record.size =
        (nodeAt H c).alloc_record.size + (D.map (fun i => (nodeAt H i).alloc_record.size)).sum ∧
      (nodeAt H' c).prev = (nodeAt H c).prev) :
    ∀ {L M : List Nat} {off : Nat} {pr : Option Nat},
      (nodeAt H' c).next = M.head? →
      (∀ i ∈ L, linkEq (nodeAt H' i) (nodeAt H i)) →
      (∀ m ∈ M.head?, (nodeAt H' m).used = (nodeAt H m).used ∧
        (nodeAt H' m).alloc_record = (nodeAt H m).alloc_record ∧
        (nodeAt H' m).next = (nodeAt H m).next ∧ (nodeAt H' m).prev = some c) →
      (∀ i ∈ M.tail, linkEq (nodeAt H' i) (nodeAt H i)) →
      chainOK H (L ++ c :: (D ++ M)) off pr → chainOK H' (L ++ c :: M) off pr
  | [], M, off, pr, hnext, _, hMhead, hMtail, hchain => by
      rcases hDM : D ++ M with _ | ⟨x, restDM⟩
      · obtain ⟨hD0, hM0⟩ := List.append_eq_nil.mp hDM
        rw [List.nil_append] at hchain ⊢
        rw [hDM] at hchain
        obtain ⟨h1, h2, h3, h4, h5⟩ := hchain
        rw [hM0]
        exact ⟨hlen ▸ h1, hc.1 ▸ h2, hc.2.1 ▸ h3, hc.2.2.2 ▸ h4, by
          rw [hM0] at hnext
          simpa using hnext⟩
      · rw [List.nil_append] at hchain ⊢
        rw [hDM] at hchain
        obtain ⟨h1, h2, h3, h4, h5, h6⟩ := hchain
        rw [← hDM] at h6
        cases M with
        | nil =>
            exact ⟨hlen ▸ h1, hc.1 ▸ h2, hc.2.1 ▸ h3, hc.2.2.2 ▸ h4, by simpa using hnext⟩
        | cons m M' =>
            have hdrop := chainOK_drop (A := D) (B := m :: M') (by simp) h6
            have htrans : chainOK H' (m :: M') (off + (nodeAt H c).alloc_record.size +
                (D.map (fun i => (nodeAt H i).alloc_record.size)).sum) (some c) :=
              chainOK_replace_prev hlen
                (fun h hh => hMhead h (by simpa using hh))
                (fun i hi => hMtail i (by simpa using hi)) hdrop
            refine chainOK_cons₂ (hlen ▸ h1) (hc.1 ▸ h2) (hc.2.1 ▸ h3) (hc.2.2.2 ▸ h4)
              (by simpa using hnext) ?_
            rw [hc.2.2.1]
            have harith : off + ((nodeAt H c).alloc_record.size +
                (D.map (fun i => (nodeAt H i).alloc_record.size)).sum) =
                off + (nodeAt H c).alloc_record.size +
                (D.map (fun i => (nodeAt H i).alloc_record.size)).sum := by omega
            rw [harith]
            exact htrans
  | x :: L', M, off, pr, hnext, hL, hMhead, hMtail, hchain => by
      obtain ⟨e1, e2, e3, e4⟩ := hL x (by simp)
      cases L' with
      | nil =>
          simp only [List.nil_append, List.cons_append] at hchain ⊢
          obtain ⟨h1, h2, h3, h4, h5, h6⟩ := hchain
          refine chainOK_cons₂ (hlen ▸ h1) (e1 ▸ h2) (by rw [e2]; exact h3) (e4 ▸ h4)
            (by rw [e3]; exact h5) ?_
          rw [e2]
          exact chainOK_absorb hlen hc (L := []) hnext (by simp) hMhead hMtail h6
      | cons z L'' =>
          simp only [List.cons_append] at hchain ⊢
          obtain ⟨h1, h2, h3, h4, h5, h6⟩ := hchain
          refine chainOK_cons₂ (hlen ▸ h1) (e1 ▸ h2) (by rw [e2]; exact h3) (e4 ▸ h4)
            (by rw [e3]; exact h5) ?_
          rw [e2]
          exact chainOK_absorb hlen hc (L := z :: L'')
            hnext (fun i hi => hL i (by simp [hi])) hMhead hMtail h6

theorem mem_del_alloc_commit_snd (s : PoolMgr) (d : Nat) :
    (mem_del_alloc_commit s d).2 = AllocStatus.ALLOC_OK := rfl

/-- A free that reports NOT_FREED has not modified the pool at all. -/
theorem mem_del_alloc_not_freed_frame (s : PoolMgr) (a : AllocRecord)
    (h : (mem_del_alloc s a).2 = AllocStatus.ALLOC_NOT_FREED) :
    (mem_del_alloc s a).1 = s := by
  unfold mem_del_alloc at h ⊢
  cases hf : s.node_heap.findIdx? (fun nd => nd.alloc_record.mem == a.mem) with
  | none => rfl
  | some d =>
      rw [hf] at h
      simp [mem_del_alloc_commit_snd] at h

/-- In a well-formed pool with positive block sizes, the address scan of
    mem_del_alloc finds exactly the chain slot the handle designates. -/
theorem del_find {s : PoolMgr} {ch : List Nat} {k : Nat} (hwf : WF s ch)
    (hkch : k ∈ ch) (hsz : ∀ m ∈ ch, 1 ≤ (nodeAt s.node_heap m).alloc_record.size) :
    s.node_heap.findIdx? (fun nd => nd.alloc_record.mem == (handleRec s k).mem) = some k := by
  have hklt : k < s.node_heap.length := (chainOK_mem hwf.chain k hkch).1
  have hkH : nodeAt s.node_heap k = s.node_heap.get ⟨k, hklt⟩ := by
    simp [nodeAt, List.getD_eq_getElem?_getD, List.getElem?_eq_getElem hklt]
  obtain ⟨l₁, l₂, hch⟩ := List.append_of_mem hkch
  have hoff := chainOK_offset (hch ▸ hwf.chain)
  refine findIdx?_first hklt ?_ ?_
  · show (s.node_heap[k].alloc_record.mem == (handleRec s k).mem) = true
    rw [show s.node_heap[k] = nodeAt s.node_heap k from hkH.symm]
    simp [handleRec]
  · intro j hj
    have hjlt : j < s.node_heap.length := lt_trans hj hklt
    have hgd : s.node_heap.getD j s.node_heap[k] = nodeAt s.node_heap j := by
      simp [nodeAt, List.getD_eq_getElem?_getD, List.getElem?_eq_getElem hjlt]
    rw [hgd]
    by_cases hjch : j ∈ ch
    · have hne : j ≠ k := by omega
      have hmemne : (nodeAt s.node_heap j).alloc_record.mem ≠
          (nodeAt s.node_heap k).alloc_record.mem :=
        fun h => hne (chainOK_mem_inj hwf.chain hsz j hjch k hkch h)
      simp only [handleRec, beq_eq_false_iff_ne, ne_eq]
      exact hmemne
    · have hfresh := hwf.cover j hjlt hjch
      rw [hfresh]
      simp [handleRec, hoff, freshNode]


theorem del_fwd_merge_none {s : PoolMgr} {d : Nat}
    (h : (nodeAt s.node_heap d).next = none) : del_fwd_merge s d = s := by
  unfold del_fwd_merge
  rw [h]

theorem del_fwd_merge_alloc {s : PoolMgr} {d nx : Nat}
    (h : (nodeAt s.node_heap d).next = some nx)
    (h2 : ¬ (nodeAt s.node_heap nx).allocated = 0) : del_fwd_merge s d = s := by
  unfold del_fwd_merge
  rw [h]
  dsimp only
  rw [if_neg h2]

/-- Effect of the forward merge of mem_del_alloc when the successor is free:
    the successor's extent is absorbed into `d`, its slot retired, its gap
    entry removed and the chain relinked around it. -/
theorem del_fwd_merge_spec {s : PoolMgr} {d nx : Nat}
    (hnext : (nodeAt s.node_heap d).next = some nx)
    (hfree : (nodeAt s.node_heap nx).allocated = 0)
    (hdnx : d ≠ nx)
    (hdlt : d < s.node_heap.length) (hnxlt : nx < s.node_heap.length)
    (hgap : ∃ g ∈ s.gap_ix, g.node = some nx)
    (hnn : ∀ nn, (nodeAt s.node_heap nx).next = some nn →
      nn ≠ d ∧ nn ≠ nx ∧ nn < s.node_heap.length) :
    (del_fwd_merge s d).node_heap.length = s.node_heap.length ∧
    (nodeAt (del_fwd_merge s d).node_heap d).used = (nodeAt s.node_heap d).used ∧
    (nodeAt (del_fwd_merge s d).node_heap d).allocated = (nodeAt s.node_heap d).allocated ∧
    (nodeAt (del_fwd_merge s d).node_heap d).alloc_record.mem = (nodeAt s.node_heap d).alloc_record.mem ∧
    (nodeAt (del_fwd_merge s d).node_heap d).alloc_record.size =
      (nodeAt s.node_heap d).alloc_record.size + (nodeAt s.node_heap nx).alloc_record.size ∧
    (nodeAt (del_fwd_merge s d).node_heap d).prev = (nodeAt s.node_heap d).prev ∧
    (nodeAt (del_fwd_merge s d).node_heap d).next = (nodeAt s.node_heap nx).next ∧
    nodeAt (del_fwd_merge s d).node_heap nx = freshNode ∧
    (∀ nn, (nodeAt s.node_heap nx).next = some nn →
      nodeAt (del_fwd_merge s d).node_heap nn = { nodeAt s.node_heap nn with prev := some d }) ∧
    (∀ i, i ≠ d → i ≠ nx → (∀ nn, (nodeAt s.node_heap nx).next = some nn → i ≠ nn) →
      nodeAt (del_fwd_merge s d).node_heap i = nodeAt s.node_heap i) ∧
    (del_fwd_merge s d).total_nodes = s.total_nodes ∧
    (del_fwd_merge s d).used_nodes = s.used_nodes - 1 ∧
    (del_fwd_merge s d).pool.total_size = s.pool.total_size ∧
    (del_fwd_merge s d).pool.alloc_size = s.pool.alloc_size ∧
    (del_fwd_merge s d).pool.num_allocs = s.pool.num_allocs ∧
    (del_fwd_merge s d).pool.num_gaps = s.pool.num_gaps - 1 ∧
    ∃ g, g ∈ s.gap_ix ∧ g.node = some nx ∧
      List.Perm s.gap_ix (g :: (del_fwd_merge s d).gap_ix) := by
  unfold del_fwd_merge
  rw [hnext]
  dsimp only
  rw [if_pos hfree]
  set t₁ : PoolMgr := updNode s nx (fun nd => { nd with used := 1 }) with ht₁
  obtain ⟨hrh, hrt, hru, _, _, hrts, hras, hrna, hrng, g, hgmem, hgnode, hgperm⟩ :=
    mem_remove_from_gap_ix_spec t₁ ((nodeAt t₁.node_heap nx).alloc_record.size) (some nx)
      (by exact hgap)
  set t₂ : PoolMgr := (mem_remove_from_gap_ix t₁ ((nodeAt t₁.node_heap nx).alloc_record.size) (some nx)).1 with ht₂
  set t₃ : PoolMgr := updNode t₂ d (fun nd => { nd with alloc_record := { nd.alloc_record with size := nd.alloc_record.size + (nodeAt t₂.node_heap nx).alloc_record.size } }) with ht₃
  set t₄ : PoolMgr := updNode t₃ nx (fun nd => { nd with used := 0, alloc_record := { mem := none, size := 0 } }) with ht₄
  set t₅ : PoolMgr := { t₄ with used_nodes := t₄.used_nodes - 1 } with ht₅
  have h₁ne : ∀ i, i ≠ nx → nodeAt t₁.node_heap i = nodeAt s.node_heap i := by
    intro i hi
    rw [ht₁, updNode_heap]
    exact nodeAt_set_ne (fun h => hi h.symm)
  have h₁nx : nodeAt t₁.node_heap nx = { nodeAt s.node_heap nx with used := 1 } := by
    rw [ht₁, updNode_heap]
    exact nodeAt_set_self hnxlt
  have hlen₁ : t₁.node_heap.length = s.node_heap.length := by
    rw [ht₁, updNode_heap]
    simp
  have h₂heap : t₂.node_heap = t₁.node_heap := hrh
  have hlen₂ : t₂.node_heap.length = s.node_heap.length := by rw [h₂heap, hlen₁]
  have hdlt₂ : d < t₂.node_heap.length := by rw [hlen₂]; exact hdlt
  have hd2 : nodeAt t₂.node_heap d = nodeAt s.node_heap d := by
    rw [h₂heap, h₁ne d hdnx]
  have hX : (nodeAt t₂.node_heap nx).alloc_record.size = (nodeAt s.node_heap nx).alloc_record.size := by
    rw [h₂heap, h₁nx]
  have h₃ne : ∀ i, i ≠ d → nodeAt t₃.node_heap i = nodeAt t₂.node_heap i := by
    intro i hi
    rw [ht₃, updNode_heap]
    exact nodeAt_set_ne (fun h => hi h.symm)
  have h₃d : nodeAt t₃.node_heap d = { nodeAt s.node_heap d with alloc_record := { (nodeAt s.node_heap d).alloc_record with size := (nodeAt s.node_heap d).alloc_record.size + (nodeAt s.node_heap nx).alloc_record.size } } := by
    rw [ht₃, updNode_heap, nodeAt_set_self hdlt₂, hd2, hX]
  have hlen₃ : t₃.node_heap.length = s.node_heap.length := by
    rw [ht₃, updNode_heap]
    simp [hlen₂]
  have hnxlt₃ : nx < t₃.node_heap.length := by rw [hlen₃]; exact hnxlt
  have h₄ne : ∀ i, i ≠ nx → nodeAt t₄.node_heap i = nodeAt t₃.node_heap i := by
    intro i hi
    rw [ht₄, updNode_heap]
    exact nodeAt_set_ne (fun h => hi h.symm)
  have h₄nx : nodeAt t₄.node_heap nx = { nodeAt t₃.node_heap nx with used := 0, alloc_record := { mem := none, size := 0 } } := by
    rw [ht₄, updNode_heap]
    exact nodeAt_set_self hnxlt₃
  have hlen₄ : t₄.node_heap.length = s.node_heap.length := by
    rw [ht₄, updNode_heap]
    simp [hlen₃]
  have h₅heap : t₅.node_heap = t₄.node_heap := by rw [ht₅]
  have hlen₅ : t₅.node_heap.length = s.node_heap.length := by rw [h₅heap, hlen₄]
  have hnx3 : nodeAt t₃.node_heap nx = { nodeAt s.node_heap nx with used := 1 } := by
    rw [h₃ne nx (fun h => hdnx h.symm), h₂heap, h₁nx]
  have hscr : (nodeAt t₅.node_heap nx).next = (nodeAt s.node_heap nx).next := by
    rw [h₅heap, h₄nx, hnx3]
  rw [hscr]
  cases hnxnext : (nodeAt s.node_heap nx).next with
  | none =>
      dsimp only
      set t₆ : PoolMgr := updNode t₅ d (fun nd => { nd with next := none }) with ht₆
      set t₇ : PoolMgr := updNode t₆ nx (fun nd => { nd with next := none, prev := none }) with ht₇
      have h₆ne : ∀ i, i ≠ d → nodeAt t₆.node_heap i = nodeAt t₅.node_heap i := by
        intro i hi
        rw [ht₆, updNode_heap]
        exact nodeAt_set_ne (fun h => hi h.symm)
      have h₆d : nodeAt t₆.node_heap d = { nodeAt t₅.node_heap d with next := none } := by
        rw [ht₆, updNode_heap]
        refine nodeAt_set_self ?_
        rw [hlen₅]
        exact hdlt
      have hlen₆ : t₆.node_heap.length = s.node_heap.length := by
        rw [ht₆, updNode_heap]
        simp [hlen₅]
      have h₇ne : ∀ i, i ≠ nx → nodeAt t₇.node_heap i = nodeAt t₆.node_heap i := by
        intro i hi
        rw [ht₇, updNode_heap]
        exact nodeAt_set_ne (fun h => hi h.symm)
      have h₇nx : nodeAt t₇.node_heap nx = { nodeAt t₆.node_heap nx with next := none, prev := none } := by
        rw [ht₇, updNode_heap]
        refine nodeAt_set_self ?_
        rw [hlen₆]
        exact hnxlt
      have hlen₇ : t₇.node_heap.length = s.node_heap.length := by
        rw [ht₇, updNode_heap]
        simp [hlen₆]
      have hd7 : nodeAt t₇.node_heap d = { { nodeAt s.node_heap d with alloc_record := { (nodeAt s.node_heap d).alloc_record with size := (nodeAt s.node_heap d).alloc_record.size + (nodeAt s.node_heap nx).alloc_record.size } } with next := none } := by
        rw [h₇ne d hdnx, h₆d, h₅heap, h₄ne d hdnx, h₃d]
      have hnx7 : nodeAt t₇.node_heap nx = freshNode := by
        rw [h₇nx, h₆ne nx (fun h => hdnx h.symm), h₅heap, h₄nx, hnx3]
        simp [freshNode, hfree]
      refine ⟨hlen₇, ?_, ?_, ?_, ?_, ?_, ?_, hnx7, ?_, ?_, hrt, ?_, hrts, hras, hrna, ?_, g, hgmem, hgnode, hgperm⟩
      · rw [hd7]
      · rw [hd7]
      · rw [hd7]
      · rw [hd7]
      · rw [hd7]
      · rw [hd7]
      · intro nn h
        exact absurd h (by simp)
      · intro i hid hinx _
        rw [h₇ne i hinx, h₆ne i hid, h₅heap, h₄ne i hinx, h₃ne i hid, h₂heap, h₁ne i hinx]
      · show t₂.used_nodes - 1 = s.used_nodes - 1
        rw [hru]
        exact rfl
      · show t₂.pool.num_gaps = s.pool.num_gaps - 1
        rw [hrng]
        exact rfl
  | some nn =>
      obtain ⟨hnnd, hnnnx, hnnlt⟩ := hnn nn hnxnext
      dsimp only
      set t₆ : PoolMgr := updNode t₅ nn (fun nd => { nd with prev := some d }) with ht₆
      set t₇ : PoolMgr := updNode t₆ d (fun nd => { nd with next := some nn }) with ht₇
      set t₈ : PoolMgr := updNode t₇ nx (fun nd => { nd with next := none, prev := none }) with ht₈
      have h₆ne : ∀ i, i ≠ nn → nodeAt t₆.node_heap i = nodeAt t₅.node_heap i := by
        intro i hi
        rw [ht₆, updNode_heap]
        exact nodeAt_set_ne (fun h => hi h.symm)
      have h₆nn : nodeAt t₆.node_heap nn = { nodeAt t₅.node_heap nn with prev := some d } := by
        rw [ht₆, updNode_heap]
        refine nodeAt_set_self ?_
        rw [hlen₅]
        exact hnnlt
      have hlen₆ : t₆.node_heap.length = s.node_heap.length := by
        rw [ht₆, updNode_heap]
        simp [hlen₅]
      have h₇ne : ∀ i, i ≠ d → nodeAt t₇.node_heap i = nodeAt t₆.node_heap i := by
        intro i hi
        rw [ht₇, updNode_heap]
        exact nodeAt_set_ne (fun h => hi h.symm)
      have h₇d : nodeAt t₇.node_heap d = { nodeAt t₆.node_heap d with next := some nn } := by
        rw [ht₇, updNode_heap]
        refine nodeAt_set_self ?_
        rw [hlen₆]
        exact hdlt
      have hlen₇ : t₇.node_heap.length = s.node_heap.length := by
        rw [ht₇, updNode_heap]
        simp [hlen₆]
      have h₈ne : ∀ i, i ≠ nx → nodeAt t₈.node_heap i = nodeAt t₇.node_heap i := by
        intro i hi
        rw [ht₈, updNode_heap]
        exact nodeAt_set_ne (fun h => hi h.symm)
      have h₈nx : nodeAt t₈.node_heap nx = { nodeAt t₇.node_heap nx with next := none, prev := none } := by
        rw [ht₈, updNode_heap]
        refine nodeAt_set_self ?_
        rw [hlen₇]
        exact hnxlt
      have hlen₈ : t₈.node_heap.length = s.node_heap.length := by
        rw [ht₈, updNode_heap]
        simp [hlen₇]
      have hd8 : nodeAt t₈.node_heap d = { { nodeAt s.node_heap d with alloc_record := { (nodeAt s.node_heap d).alloc_record with size := (nodeAt s.node_heap d).alloc_record.size + (nodeAt s.node_heap nx).alloc_record.size } } with next := some nn } := by
        rw [h₈ne d hdnx, h₇d, h₆ne d (fun h => hnnd h.symm), h₅heap, h₄ne d hdnx, h₃d]
      have hnx8 : nodeAt t₈.node_heap nx = freshNode := by
        rw [h₈nx, h₇ne nx (fun h => hdnx h.symm), h₆ne nx (fun h => hnnnx h.symm), h₅heap, h₄nx, hnx3]
        simp [freshNode, hfree]
      have hnn8 : nodeAt t₈.node_heap nn = { nodeAt s.node_heap nn with prev := some d } := by
        rw [h₈ne nn hnnnx, h₇ne nn hnnd, h₆nn, h₅heap, h₄ne nn hnnnx, h₃ne nn hnnd, h₂heap, h₁ne nn hnnnx]
      refine ⟨hlen₈, ?_, ?_, ?_, ?_, ?_, ?_, hnx8, ?_, ?_, hrt, ?_, hrts, hras, hrna, ?_, g, hgmem, hgnode, hgperm⟩
      · rw [hd8]
      · rw [hd8]
      · rw [hd8]
      · rw [hd8]
      · rw [hd8]
      · rw [hd8]
      · intro nn' h'
        have heq : nn = nn' := Option.some.inj h'
        subst heq
        exact hnn8
      · intro i hid hinx him
        have hinn : i ≠ nn := him nn rfl
        rw [h₈ne i hinx, h₇ne i hid, h₆ne i hinn, h₅heap, h₄ne i hinx, h₃ne i hid, h₂heap, h₁ne i hinx]
      · show t₂.used_nodes - 1 = s.used_nodes - 1
        rw [hru]
        exact rfl
      · show t₂.pool.num_gaps = s.pool.num_gaps - 1
        rw [hrng]
        exact rfl


theorem del_bwd_merge_none {s : PoolMgr} {d : Nat}
    (h : (nodeAt s.node_heap d).prev = none) : del_bwd_merge s d = s := by
  unfold del_bwd_merge
  rw [h]

theorem del_bwd_merge_alloc {s : PoolMgr} {d p : Nat}
    (h : (nodeAt s.node_heap d).prev = some p)
    (h2 : ¬ (nodeAt s.node_heap p).allocated = 0) : del_bwd_merge s d = s := by
  unfold del_bwd_merge
  rw [h]
  dsimp only
  rw [if_neg h2]

/-- Effect of the backward merge of mem_del_alloc when the predecessor is free:
    the dead node's extent is absorbed into the predecessor, the dead slot is
    retired, both gap entries are removed and one enlarged entry is added. -/
theorem del_bwd_merge_spec {s : PoolMgr} {d p : Nat}
    (hprev : (nodeAt s.node_heap d).prev = some p)
    (hpfree : (nodeAt s.node_heap p).allocated = 0)
    (hdfree : (nodeAt s.node_heap d).allocated = 0)
    (hpd : p ≠ d)
    (hdlt : d < s.node_heap.length) (hplt : p < s.node_heap.length)
    (hgap_p : ∃ g ∈ s.gap_ix, g.node = some p)
    (hgap_d : ∃ g ∈ s.gap_ix, g.node = some d)
    (hng : s.pool.num_gaps = s.gap_ix.length)
    (hnn : ∀ nn, (nodeAt s.node_heap d).next = some nn →
      nn ≠ d ∧ nn ≠ p ∧ nn < s.node_heap.length) :
    (del_bwd_merge s d).node_heap.length = s.node_heap.length ∧
    (nodeAt (del_bwd_merge s d).node_heap p).used = 1 ∧
    (nodeAt (del_bwd_merge s d).node_heap p).allocated = (nodeAt s.node_heap p).allocated ∧
    (nodeAt (del_bwd_merge s d).node_heap p).alloc_record.mem = (nodeAt s.node_heap p).alloc_record.mem ∧
    (nodeAt (del_bwd_merge s d).node_heap p).alloc_record.size =
      (nodeAt s.node_heap d).alloc_record.size + (nodeAt s.node_heap p).alloc_record.size ∧
    (nodeAt (del_bwd_merge s d).node_heap p).prev = (nodeAt s.node_heap p).prev ∧
    (nodeAt (del_bwd_merge s d).node_heap p).next = (nodeAt s.node_heap d).next ∧
    nodeAt (del_bwd_merge s d).node_heap d = freshNode ∧
    (∀ nn, (nodeAt s.node_heap d).next = some nn →
      nodeAt (del_bwd_merge s d).node_heap nn = { nodeAt s.node_heap nn with prev := some p }) ∧
    (∀ i, i ≠ d → i ≠ p → (∀ nn, (nodeAt s.node_heap d).next = some nn → i ≠ nn) →
      nodeAt (del_bwd_merge s d).node_heap i = nodeAt s.node_heap i) ∧
    (del_bwd_merge s d).total_nodes = s.total_nodes ∧
    (del_bwd_merge s d).used_nodes = s.used_nodes - 1 ∧
    (del_bwd_merge s d).pool.total_size = s.pool.total_size ∧
    (del_bwd_merge s d).pool.alloc_size = s.pool.alloc_size ∧
    (del_bwd_merge s d).pool.num_allocs = s.pool.num_allocs ∧
    (del_bwd_merge s d).pool.num_gaps = s.pool.num_gaps - 1 ∧
    ∃ gp gd G₂, gp ∈ s.gap_ix ∧ gp.node = some p ∧ gd.node = some d ∧
      List.Perm s.gap_ix (gp :: gd :: G₂) ∧
      List.Perm (del_bwd_merge s d).gap_ix
        ({ size := (nodeAt s.node_heap d).alloc_record.size + (nodeAt s.node_heap p).alloc_record.size, node := some p } :: G₂) := by
  have hdp : d ≠ p := fun h => hpd h.symm
  unfold del_bwd_merge
  rw [hprev]
  dsimp only
  rw [if_pos hpfree]
  set t₁ : PoolMgr := updNode s p (fun nd => { nd with used := 1 }) with ht₁
  obtain ⟨hrh₁, hrt₁, hru₁, _, _, hrts₁, hras₁, hrna₁, hrng₁, gp, hgmem₁, hgnode₁, hgperm₁⟩ :=
    mem_remove_from_gap_ix_spec t₁ ((nodeAt t₁.node_heap p).alloc_record.size) (some p)
      (by exact hgap_p)
  set t₂ : PoolMgr := (mem_remove_from_gap_ix t₁ ((nodeAt t₁.node_heap p).alloc_record.size) (some p)).1 with ht₂
  have hentry₂ : ∃ g ∈ t₂.gap_ix, g.node = some d := by
    obtain ⟨gd₀, hgd₀, hgd₀n⟩ := hgap_d
    have hmem₁ : gd₀ ∈ t₁.gap_ix := hgd₀
    have : gd₀ ∈ gp :: t₂.gap_ix := hgperm₁.mem_iff.mp hmem₁
    rcases List.mem_cons.mp this with h | h
    · exact absurd (h ▸ hgd₀n) (by
        rw [hgnode₁]
        simp
        exact fun hc => hpd hc)
    · exact ⟨gd₀, h, hgd₀n⟩
  obtain ⟨hrh₂, hrt₂, hru₂, _, _, hrts₂, hras₂, hrna₂, hrng₂, gd, hgmem₂, hgnode₂, hgperm₂⟩ :=
    mem_remove_from_gap_ix_spec t₂ ((nodeAt t₂.node_heap d).alloc_record.size) (some d) hentry₂
  set t₃ : PoolMgr := (mem_remove_from_gap_ix t₂ ((nodeAt t₂.node_heap d).alloc_record.size) (some d)).1 with ht₃
  set t₄ : PoolMgr := updNode t₃ p (fun nd => { nd with alloc_record := { nd.alloc_record with size := (nodeAt t₃.node_heap d).alloc_record.size + nd.alloc_record.size } }) with ht₄
  set t₅ : PoolMgr := updNode t₄ d (fun nd => { nd with used := 0, alloc_record := { mem := none, size := 0 } }) with ht₅
  set t₆ : PoolMgr := { t₅ with used_nodes := t₅.used_nodes - 1 } with ht₆
  have h₁ne : ∀ i, i ≠ p → nodeAt t₁.node_heap i = nodeAt s.node_heap i := by
    intro i hi
    rw [ht₁, updNode_heap]
    exact nodeAt_set_ne (fun h => hi h.symm)
  have h₁p : nodeAt t₁.node_heap p = { nodeAt s.node_heap p with used := 1 } := by
    rw [ht₁, updNode_heap]
    exact nodeAt_set_self hplt
  have hlen₁ : t₁.node_heap.length = s.node_heap.length := by
    rw [ht₁, updNode_heap]
    simp
  have h₂heap : t₂.node_heap = t₁.node_heap := hrh₁
  have h₃heap : t₃.node_heap = t₂.node_heap := hrh₂
  have hlen₃ : t₃.node_heap.length = s.node_heap.length := by rw [h₃heap, h₂heap, hlen₁]
  have hplt₃ : p < t₃.node_heap.length := by rw [hlen₃]; exact hplt
  have hd3 : nodeAt t₃.node_heap d = nodeAt s.node_heap d := by
    rw [h₃heap, h₂heap, h₁ne d hdp]
  have hp3 : nodeAt t₃.node_heap p = { nodeAt s.node_heap p with used := 1 } := by
    rw [h₃heap, h₂heap, h₁p]
  have h₄ne : ∀ i, i ≠ p → nodeAt t₄.node_heap i = nodeAt t₃.node_heap i := by
    intro i hi
    rw [ht₄, updNode_heap]
    exact nodeAt_set_ne (fun h => hi h.symm)
  have h₄p : nodeAt t₄.node_heap p = { nodeAt s.node_heap p with used := 1, alloc_record := { (nodeAt s.node_heap p).alloc_record with size := (nodeAt s.node_heap d).alloc_record.size + (nodeAt s.node_heap p).alloc_record.size } } := by
    rw [ht₄, updNode_heap, nodeAt_set_self hplt₃, hp3, hd3]
  have hlen₄ : t₄.node_heap.length = s.node_heap.length := by
    rw [ht₄, updNode_heap]
    simp [hlen₃]
  have hdlt₄ : d < t₄.node_heap.length := by rw [hlen₄]; exact hdlt
  have h₅ne : ∀ i, i ≠ d → nodeAt t₅.node_heap i = nodeAt t₄.node_heap i := by
    intro i hi
    rw [ht₅, updNode_heap]
    exact nodeAt_set_ne (fun h => hi h.symm)
  have h₅d : nodeAt t₅.node_heap d = { nodeAt t₄.node_heap d with used := 0, alloc_record := { mem := none, size := 0 } } := by
    rw [ht₅, updNode_heap]
    exact nodeAt_set_self hdlt₄
  have hlen₅ : t₅.node_heap.length = s.node_heap.length := by
    rw [ht₅, updNode_heap]
    simp [hlen₄]
  have h₆heap : t₆.node_heap = t₅.node_heap := by rw [ht₆]
  have hlen₆ : t₆.node_heap.length = s.node_heap.length := by rw [h₆heap, hlen₅]
  have hd4 : nodeAt t₄.node_heap d = nodeAt s.node_heap d := by
    rw [h₄ne d hdp, hd3]
  have hscr : (nodeAt t₆.node_heap d).next = (nodeAt s.node_heap d).next := by
    rw [h₆heap, h₅d, hd4]
  rw [hscr]
  -- length bookkeeping for the two removals
  have hlg₁ : s.gap_ix.length = t₂.gap_ix.length + 1 := by
    have h' : t₁.gap_ix.length = t₂.gap_ix.length + 1 := by
      have := hgperm₁.length_eq
      simpa using this
    exact h'
  have hlg₂ : t₂.gap_ix.length = t₃.gap_ix.length + 1 := by
    have := hgperm₂.length_eq
    simpa using this
  have hsperm : List.Perm s.gap_ix (gp :: gd :: t₃.gap_ix) := by
    have hA : List.Perm s.gap_ix (gp :: t₂.gap_ix) := hgperm₁
    exact hA.trans (hgperm₂.cons gp)
  cases hdnext : (nodeAt s.node_heap d).next with
  | none =>
      dsimp only
      set t₇ : PoolMgr := updNode t₆ p (fun nd => { nd with next := none }) with ht₇
      set t₈ : PoolMgr := updNode t₇ d (fun nd => { nd with next := none, prev := none }) with ht₈
      have h₇ne : ∀ i, i ≠ p → nodeAt t₇.node_heap i = nodeAt t₆.node_heap i := by
        intro i hi
        rw [ht₇, updNode_heap]
        exact nodeAt_set_ne (fun h => hi h.symm)
      have h₇p : nodeAt t₇.node_heap p = { nodeAt t₆.node_heap p with next := none } := by
        rw [ht₇, updNode_heap]
        refine nodeAt_set_self ?_
        rw [hlen₆]
        exact hplt
      have hlen₇ : t₇.node_heap.length = s.node_heap.length := by
        rw [ht₇, updNode_heap]
        simp [hlen₆]
      have h₈ne : ∀ i, i ≠ d → nodeAt t₈.node_heap i = nodeAt t₇.node_heap i := by
        intro i hi
        rw [ht₈, updNode_heap]
        exact nodeAt_set_ne (fun h => hi h.symm)
      have h₈d : nodeAt t₈.node_heap d = { nodeAt t₇.node_heap d with next := none, prev := none } := by
        rw [ht₈, updNode_heap]
        refine nodeAt_set_self ?_
        rw [hlen₇]
        exact hdlt
      have hlen₈ : t₈.node_heap.length = s.node_heap.length := by
        rw [ht₈, updNode_heap]
        simp [hlen₇]
      have hp8 : nodeAt t₈.node_heap p = { { nodeAt s.node_heap p with used := 1, alloc_record := { (nodeAt s.node_heap p).alloc_record with size := (nodeAt s.node_heap d).alloc_record.size + (nodeAt s.node_heap p).alloc_record.size } } with next := none } := by
        rw [h₈ne p hpd, h₇p, h₆heap, h₅ne p hpd, h₄p]
      have hd8 : nodeAt t₈.node_heap d = freshNode := by
        rw [h₈d, h₇ne d hdp, h₆heap, h₅d, hd4]
        simp [freshNode, hdfree]
      have hng₈ : t₈.pool.num_gaps = t₈.gap_ix.length := by
        have e1 : t₈.pool.num_gaps = t₃.pool.num_gaps := rfl
        have e2 : t₈.gap_ix = t₃.gap_ix := rfl
        have e3 : t₁.pool.num_gaps = s.pool.num_gaps := rfl
        rw [e1, e2, hrng₂, hrng₁, e3, hng]
        omega
      obtain ⟨hah, hat, hau, _, _, hats, haas, hana, hang, haperm⟩ :=
        mem_add_to_gap_ix_spec t₈ ((nodeAt t₈.node_heap p).alloc_record.size) (some p) hng₈
      have hp8size : (nodeAt t₈.node_heap p).alloc_record.size =
          (nodeAt s.node_heap d).alloc_record.size + (nodeAt s.node_heap p).alloc_record.size := by
        rw [hp8]
      refine ⟨?_, ?_, ?_, ?_, ?_, ?_, ?_, ?_, ?_, ?_, ?_, ?_, ?_, ?_, ?_, ?_, gp, gd, t₃.gap_ix, hgmem₁, hgnode₁, hgnode₂, hsperm, ?_⟩
      · rw [hah, hlen₈]
      · rw [hah, hp8]
      · rw [hah, hp8]
      · rw [hah, hp8]
      · rw [hah, hp8]
      · rw [hah, hp8]
      · rw [hah, hp8]
      · rw [hah, hd8]
      · intro nn h
        exact absurd h (by simp)
      · intro i hid hip _
        rw [hah, h₈ne i hid, h₇ne i hip, h₆heap, h₅ne i hid, h₄ne i hip, h₃heap, h₂heap, h₁ne i hip]
      · rw [hat]
        exact hrt₂
      · rw [hau]
        show t₅.used_nodes - 1 = s.used_nodes - 1
        have e : t₅.used_nodes = t₃.used_nodes := rfl
        rw [e, hru₂, hru₁]
        exact rfl
      · rw [hats]
        exact hrts₂
      · rw [haas]
        exact hras₂
      · rw [hana]
        exact hrna₂
      · rw [hang]
        have e1 : t₈.pool.num_gaps = t₃.pool.num_gaps := rfl
        have e3 : t₁.pool.num_gaps = s.pool.num_gaps := rfl
        rw [e1, hrng₂, hrng₁, e3]
        have h2g : 2 ≤ s.pool.num_gaps := by
          rw [hng, hlg₁, hlg₂]
          omega
        omega
      · rw [← hp8size]
        exact haperm
  | some nn =>
      obtain ⟨hnnd, hnnp, hnnlt⟩ := hnn nn hdnext
      dsimp only
      set t₇ : PoolMgr := updNode t₆ p (fun nd => { nd with next := some nn }) with ht₇
      set t₈ : PoolMgr := updNode t₇ nn (fun nd => { nd with prev := some p }) with ht₈
      set t₉ : PoolMgr := updNode t₈ d (fun nd => { nd with next := none, prev := none }) with ht₉
      have h₇ne : ∀ i, i ≠ p → nodeAt t₇.node_heap i = nodeAt t₆.node_heap i := by
        intro i hi
        rw [ht₇, updNode_heap]
        exact nodeAt_set_ne (fun h => hi h.symm)
      have h₇p : nodeAt t₇.node_heap p = { nodeAt t₆.node_heap p with next := some nn } := by
        rw [ht₇, updNode_heap]
        refine nodeAt_set_self ?_
        rw [hlen₆]
        exact hplt
      have hlen₇ : t₇.node_heap.length = s.node_heap.length := by
        rw [ht₇, updNode_heap]
        simp [hlen₆]
      have h₈ne : ∀ i, i ≠ nn → nodeAt t₈.node_heap i = nodeAt t₇.node_heap i := by
        intro i hi
        rw [ht₈, updNode_heap]
        exact nodeAt_set_ne (fun h => hi h.symm)
      have h₈nn : nodeAt t₈.node_heap nn = { nodeAt t₇.node_heap nn with prev := some p } := by
        rw [ht₈, updNode_heap]
        refine nodeAt_set_self ?_
        rw [hlen₇]
        exact hnnlt
      have hlen₈ : t₈.node_heap.length = s.node_heap.length := by
        rw [ht₈, updNode_heap]
        simp [hlen₇]
      have h₉ne : ∀ i, i ≠ d → nodeAt t₉.node_heap i = nodeAt t₈.node_heap i := by
        intro i hi
        rw [ht₉, updNode_heap]
        exact nodeAt_set_ne (fun h => hi h.symm)
      have h₉d : nodeAt t₉.node_heap d = { nodeAt t₈.node_heap d with next := none, prev := none } := by
        rw [ht₉, updNode_heap]
        refine nodeAt_set_self ?_
        rw [hlen₈]
        exact hdlt
      have hlen₉ : t₉.node_heap.length = s.node_heap.length := by
        rw [ht₉, updNode_heap]
        simp [hlen₈]
      have hp9 : nodeAt t₉.node_heap p = { { nodeAt s.node_heap p with used := 1, alloc_record := { (nodeAt s.node_heap p).alloc_record with size := (nodeAt s.node_heap d).alloc_record.size + (nodeAt s.node_heap p).alloc_record.size } } with next := some nn } := by
        rw [h₉ne p hpd, h₈ne p (fun h => hnnp h.symm), h₇p, h₆heap, h₅ne p hpd, h₄p]
      have hd9 : nodeAt t₉.node_heap d = freshNode := by
        rw [h₉d, h₈ne d (fun h => hnnd h.symm), h₇ne d hdp, h₆heap, h₅d, hd4]
        simp [freshNode, hdfree]
      have hnn9 : nodeAt t₉.node_heap nn = { nodeAt s.node_heap nn with prev := some p } := by
        rw [h₉ne nn hnnd, h₈nn, h₇ne nn hnnp, h₆heap, h₅ne nn hnnd, h₄ne nn hnnp, h₃heap, h₂heap, h₁ne nn hnnp]
      have hng₉ : t₉.pool.num_gaps = t₉.gap_ix.length := by
        have e1 : t₉.pool.num_gaps = t₃.pool.num_gaps := rfl
        have e2 : t₉.gap_ix = t₃.gap_ix := rfl
        have e3 : t₁.pool.num_gaps = s.pool.num_gaps := rfl
        rw [e1, e2, hrng₂, hrng₁, e3, hng]
        omega
      obtain ⟨hah, hat, hau, _, _, hats, haas, hana, hang, haperm⟩ :=
        mem_add_to_gap_ix_spec t₉ ((nodeAt t₉.node_heap p).alloc_record.size) (some p) hng₉
      have hp9size : (nodeAt t₉.node_heap p).alloc_record.size =
          (nodeAt s.node_heap d).alloc_record.size + (nodeAt s.node_heap p).alloc_record.size := by
        rw [hp9]
      refine ⟨?_, ?_, ?_, ?_, ?_, ?_, ?_, ?_, ?_, ?_, ?_, ?_, ?_, ?_, ?_, ?_, gp, gd, t₃.gap_ix, hgmem₁, hgnode₁, hgnode₂, hsperm, ?_⟩
      · rw [hah, hlen₉]
      · rw [hah, hp9]
      · rw [hah, hp9]
      · rw [hah, hp9]
      · rw [hah, hp9]
      · rw [hah, hp9]
      · rw [hah, hp9]
      · rw [hah, hd9]
      · intro nn' h'
        have heq : nn = nn' := Option.some.inj h'
        subst heq
        rw [hah]
        exact hnn9
      · intro i hid hip him
        have hinn : i ≠ nn := him nn rfl
        rw [hah, h₉ne i hid, h₈ne i hinn, h₇ne i hip, h₆heap, h₅ne i hid, h₄ne i hip, h₃heap, h₂heap, h₁ne i hip]
      · rw [hat]
        exact hrt₂
      · rw [hau]
        show t₅.used_nodes - 1 = s.used_nodes - 1
        have e : t₅.used_nodes = t₃.used_nodes := rfl
        rw [e, hru₂, hru₁]
        exact rfl
      · rw [hats]
        exact hrts₂
      · rw [haas]
        exact hras₂
      · rw [hana]
        exact hrna₂
      · rw [hang]
        have e1 : t₉.pool.num_gaps = t₃.pool.num_gaps := rfl
        have e3 : t₁.pool.num_gaps = s.pool.num_gaps := rfl
        rw [e1, hrng₂, hrng₁, e3]
        have h2g : 2 ≤ s.pool.num_gaps := by
          rw [hng, hlg₁, hlg₂]
          omega
        omega
      · rw [← hp9size]
        exact haperm


/-- Well-formedness of the state after a completed free: the surviving free
    descriptor `c` has absorbed the consecutive dead run `D` (the freed node
    and any merged free neighbors), the dead slots are fresh again, the
    counters moved by one allocation and the gap index traded the entries of
    the merged free blocks (`E`) for one entry covering the whole region. -/
theorem wf_del_common {s sF : PoolMgr} {ch L D M : List Nat} {c k : Nat} {E G₀ : List Gap}
    (hwf : WF s ch)
    (hch : ch = L ++ c :: (D ++ M))
    (hkCD : k ∈ c :: D)
    (hallocCD : ∀ i ∈ c :: D, ((nodeAt s.node_heap i).allocated = 1 ↔ i = k))
    (hMhead_alloc : ∀ m ∈ M.head?, (nodeAt s.node_heap m).allocated = 1)
    (hLlast_alloc : ∀ x ∈ L.getLast?, (nodeAt s.node_heap x).allocated = 1)
    (hFlen : sF.node_heap.length = s.node_heap.length)
    (hFc : (nodeAt sF.node_heap c).used = (nodeAt s.node_heap c).used ∧
           (nodeAt sF.node_heap c).allocated = 0 ∧
           (nodeAt sF.node_heap c).alloc_record.mem = (nodeAt s.node_heap c).alloc_record.mem ∧
           (nodeAt sF.node_heap c).alloc_record.size =
             ((c :: D).map (fun i => (nodeAt s.node_heap i).alloc_record.size)).sum ∧
           (nodeAt sF.node_heap c).prev = (nodeAt s.node_heap c).prev ∧
           (nodeAt sF.node_heap c).next = M.head?)
    (hFD : ∀ i ∈ D, nodeAt sF.node_heap i = freshNode)
    (hFhead : ∀ m ∈ M.head?, (nodeAt sF.node_heap m).used = (nodeAt s.node_heap m).used ∧
           (nodeAt sF.node_heap m).alloc_record = (nodeAt s.node_heap m).alloc_record ∧
           (nodeAt sF.node_heap m).allocated = (nodeAt s.node_heap m).allocated ∧
           (nodeAt sF.node_heap m).next = (nodeAt s.node_heap m).next ∧
           (nodeAt sF.node_heap m).prev = some c)
    (hFother : ∀ i, i ≠ c → i ∉ D → (∀ m ∈ M.head?, i ≠ m) →
           nodeAt sF.node_heap i = nodeAt s.node_heap i)
    (hFt : sF.total_nodes = s.total_nodes)
    (hFun : sF.used_nodes = s.used_nodes - D.length)
    (hFts : sF.pool.total_size = s.pool.total_size)
    (hFas : sF.pool.alloc_size = s.pool.alloc_size - (nodeAt s.node_heap k).alloc_record.size)
    (hFna : sF.pool.num_allocs = s.pool.num_allocs - 1)
    (hFng : sF.pool.num_gaps = s.pool.num_gaps + 1 - E.length)
    (hEperm : List.Perm s.gap_ix (E ++ G₀))
    (hEmap : List.Perm (E.map (fun g => g.node))
      (((c :: D).filter (fun i => (nodeAt s.node_heap i).allocated == 0)).map some))
    (hFperm : List.Perm sF.gap_ix
      ({ size := ((c :: D).map (fun i => (nodeAt s.node_heap i).alloc_record.size)).sum, node := some c } :: G₀)) :
    WF sF (L ++ c :: M) := by
  obtain ⟨hcnotL, hcnotDM, hnodLDM⟩ := nodup_append_cons (hch ▸ hwf.nodup)
  have hcnotD : c ∉ D := fun h => hcnotDM (by simp [h])
  have hcnotM : c ∉ M := fun h => hcnotDM (by simp [h])
  have hdisjLDM : L.Disjoint (D ++ M) := List.disjoint_of_nodup_append hnodLDM
  have hnodDM : (D ++ M).Nodup := hnodLDM.of_append_right
  have hnodL : L.Nodup := hnodLDM.of_append_left
  have hdisjDM : D.Disjoint M := List.disjoint_of_nodup_append hnodDM
  have hnodD : D.Nodup := hnodDM.of_append_left
  have hnodM : M.Nodup := hnodDM.of_append_right
  have hnodCD : (c :: D).Nodup := List.nodup_cons.mpr ⟨hcnotD, hnodD⟩
  have hcch : c ∈ ch := by simp [hch]
  have hclt : c < s.node_heap.length := (chainOK_mem hwf.chain c hcch).1
  have hkch : k ∈ ch := by
    rcases List.mem_cons.mp hkCD with h | h
    · simp [hch, h]
    · simp [hch, h]
  have hkal : (nodeAt s.node_heap k).allocated = 1 := (hallocCD k hkCD).mpr rfl
  have hSk1 : 1 ≤ (nodeAt s.node_heap k).alloc_record.size := hwf.szalloc k hkch hkal
  have hsubL : ∀ i ∈ L, i ∈ ch := fun i hi => by simp [hch, hi]
  have hsubM : ∀ i ∈ M, i ∈ ch := fun i hi => by simp [hch, hi]
  have hsubD : ∀ i ∈ D, i ∈ ch := fun i hi => by simp [hch, hi]
  have hne_L : ∀ i ∈ L, i ≠ c ∧ i ∉ D := fun i hi =>
    ⟨fun h => hcnotL (h ▸ hi), fun h => hdisjLDM hi (by simp [h])⟩
  have hne_M : ∀ i ∈ M, i ≠ c ∧ i ∉ D := fun i hi =>
    ⟨fun h => hcnotM (h ▸ hi), fun h => hdisjDM h hi⟩
  have hsame : ∀ i, i ≠ c → i ∉ D →
      (nodeAt sF.node_heap i).allocated = (nodeAt s.node_heap i).allocated ∧
      (nodeAt sF.node_heap i).alloc_record = (nodeAt s.node_heap i).alloc_record ∧
      (nodeAt sF.node_heap i).used = (nodeAt s.node_heap i).used := by
    intro i hic hiD
    by_cases him : ∀ m ∈ M.head?, i ≠ m
    · rw [hFother i hic hiD him]
      exact ⟨rfl, rfl, rfl⟩
    · push_neg at him
      obtain ⟨m, hm, heq⟩ := him
      subst heq
      obtain ⟨e1, e2, e3, e4, e5⟩ := hFhead _ hm
      exact ⟨e3, e2, e1⟩
  -- the Z value and its positivity
  have hZk : (nodeAt s.node_heap k).alloc_record.size ≤
      ((c :: D).map (fun i => (nodeAt s.node_heap i).alloc_record.size)).sum := by
    obtain ⟨A, B, hAB⟩ := List.append_of_mem hkCD
    rw [hAB, List.map_append, List.map_cons, List.sum_append, List.sum_cons]
    omega
  -- old filter decompositions
  have hchassoc : ch = L ++ ((c :: D) ++ M) := by
    rw [hch]
    simp
  have hallocCD_beq : ∀ i ∈ c :: D, ((nodeAt s.node_heap i).allocated == 1) = true ↔ i = k := by
    intro i hi
    rw [beq_iff_eq]
    exact hallocCD i hi
  have hCD_alloc : (c :: D).filter (fun i => (nodeAt s.node_heap i).allocated == 1) = [k] :=
    filter_eq_singleton hnodCD hkCD hallocCD_beq
  have halloc_dec : ch.filter (fun i => (nodeAt s.node_heap i).allocated == 1) =
      L.filter (fun i => (nodeAt s.node_heap i).allocated == 1) ++
      k :: M.filter (fun i => (nodeAt s.node_heap i).allocated == 1) := by
    rw [hchassoc, List.filter_append, List.filter_append, hCD_alloc]
    simp
  have hfree_dec : ch.filter (fun i => (nodeAt s.node_heap i).allocated == 0) =
      L.filter (fun i => (nodeAt s.node_heap i).allocated == 0) ++
      ((c :: D).filter (fun i => (nodeAt s.node_heap i).allocated == 0) ++
       M.filter (fun i => (nodeAt s.node_heap i).allocated == 0)) := by
    rw [hchassoc, List.filter_append, List.filter_append]
  -- new filter congruences
  have hcf_L0 : L.filter (fun i => (nodeAt sF.node_heap i).allocated == 0) =
      L.filter (fun i => (nodeAt s.node_heap i).allocated == 0) :=
    List.filter_congr (fun i hi => by rw [(hsame i (hne_L i hi).1 (hne_L i hi).2).1])
  have hcf_M0 : M.filter (fun i => (nodeAt sF.node_heap i).allocated == 0) =
      M.filter (fun i => (nodeAt s.node_heap i).allocated == 0) :=
    List.filter_congr (fun i hi => by rw [(hsame i (hne_M i hi).1 (hne_M i hi).2).1])
  have hcf_L1 : L.filter (fun i => (nodeAt sF.node_heap i).allocated == 1) =
      L.filter (fun i => (nodeAt s.node_heap i).allocated == 1) :=
    List.filter_congr (fun i hi => by rw [(hsame i (hne_L i hi).1 (hne_L i hi).2).1])
  have hcf_M1 : M.filter (fun i => (nodeAt sF.node_heap i).allocated == 1) =
      M.filter (fun i => (nodeAt s.node_heap i).allocated == 1) :=
    List.filter_congr (fun i hi => by rw [(hsame i (hne_M i hi).1 (hne_M i hi).2).1])
  have hnew_free : (L ++ c :: M).filter (fun i => (nodeAt sF.node_heap i).allocated == 0) =
      L.filter (fun i => (nodeAt s.node_heap i).allocated == 0) ++
      c :: M.filter (fun i => (nodeAt s.node_heap i).allocated == 0) := by
    rw [List.filter_append, List.filter_cons, hcf_L0, hcf_M0]
    simp [hFc.2.1]
  have hnew_alloc : (L ++ c :: M).filter (fun i => (nodeAt sF.node_heap i).allocated == 1) =
      L.filter (fun i => (nodeAt s.node_heap i).allocated == 1) ++
      M.filter (fun i => (nodeAt s.node_heap i).allocated == 1) := by
    rw [List.filter_append, List.filter_cons, hcf_L1, hcf_M1]
    simp [hFc.2.1]
  refine ⟨?_, ?_, ?_, ?_, ?_, ?_, ?_, ?_, ?_, ?_, ?_, ?_, ?_, ?_, ?_⟩
  · rw [hFlen, hwf.hlen, hFt]
  · -- chain
    refine chainOK_absorb (c := c) (D := D) hFlen.symm
      ⟨hFc.1, hFc.2.2.1, ?_, hFc.2.2.2.2.1⟩
      hFc.2.2.2.2.2 ?_ ?_ ?_ (hch ▸ hwf.chain)
    · rw [hFc.2.2.2.1, List.map_cons, List.sum_cons]
    · intro i hi
      obtain ⟨hic, hiD⟩ := hne_L i hi
      have him : ∀ m ∈ M.head?, i ≠ m := fun m hm heq =>
        hdisjLDM hi (by simp [heq ▸ List.mem_of_mem_head? hm])
      exact linkEq_of_eq (hFother i hic hiD him)
    · intro m hm
      obtain ⟨e1, e2, e3, e4, e5⟩ := hFhead m hm
      exact ⟨e1, e2, e4, e5⟩
    · intro i hi
      have hiM : i ∈ M := List.mem_of_mem_tail hi
      obtain ⟨hic, hiD⟩ := hne_M i hiM
      have him : ∀ m ∈ M.head?, i ≠ m := by
        intro m hm heq
        subst heq
        cases M with
        | nil => simp at hm
        | cons b t =>
            simp at hm
            subst hm
            rw [List.nodup_cons] at hnodM
            exact hnodM.1 (by simpa using hi)
      exact linkEq_of_eq (hFother i hic hiD him)
  · -- cover
    intro i hi hnotin
    by_cases hiD : i ∈ D
    · exact hFD i hiD
    · have hic : i ≠ c := fun h => hnotin (by simp [h])
      have hiL : i ∉ L := fun h => hnotin (by simp [h])
      have hiM : i ∉ M := fun h => hnotin (by simp [h])
      have him : ∀ m ∈ M.head?, i ≠ m := fun m hm heq =>
        hiM (heq ▸ List.mem_of_mem_head? hm)
      rw [hFother i hic hiD him]
      exact hwf.cover i (by rw [← hFlen]; exact hi) (by
        rw [hch]
        intro hcontra
        rcases List.mem_append.mp hcontra with h | h
        · exact hiL h
        · rcases List.mem_cons.mp h with h | h
          · exact hic h
          · rcases List.mem_append.mp h with h | h
            · exact hiD h
            · exact hiM h)
  · -- nodup
    have hsub : (L ++ c :: M).Sublist (L ++ c :: (D ++ M)) :=
      List.Sublist.append_left ((List.sublist_append_right D M).cons₂ c) L
    exact (hch ▸ hwf.nodup).sublist hsub
  · -- bits
    intro i hi
    simp only [List.mem_append, List.mem_cons] at hi
    rcases hi with hi | hi | hi
    · rw [(hsame i (hne_L i hi).1 (hne_L i hi).2).1]
      exact hwf.bits i (hsubL i hi)
    · subst hi; left; exact hFc.2.1
    · rw [(hsame i (hne_M i hi).1 (hne_M i hi).2).1]
      exact hwf.bits i (hsubM i hi)
  · -- sizes
    intro i hi
    simp only [List.mem_append, List.mem_cons] at hi
    rcases hi with hi | hi | hi
    · rw [(hsame i (hne_L i hi).1 (hne_L i hi).2).2.1, hFts]
      exact hwf.sizes i (hsubL i hi)
    · subst hi
      left
      rw [hFc.2.2.2.1]
      omega
    · rw [(hsame i (hne_M i hi).1 (hne_M i hi).2).2.1, hFts]
      exact hwf.sizes i (hsubM i hi)
  · -- szalloc
    intro i hi
    simp only [List.mem_append, List.mem_cons] at hi
    rcases hi with hi | hi | hi
    · rw [(hsame i (hne_L i hi).1 (hne_L i hi).2).1, (hsame i (hne_L i hi).1 (hne_L i hi).2).2.1]
      exact hwf.szalloc i (hsubL i hi)
    · subst hi
      intro hcontra
      rw [hFc.2.1] at hcontra
      simp at hcontra
    · rw [(hsame i (hne_M i hi).1 (hne_M i hi).2).1, (hsame i (hne_M i hi).1 (hne_M i hi).2).2.1]
      exact hwf.szalloc i (hsubM i hi)
  · -- total
    have hm_L : L.map (fun i => (nodeAt sF.node_heap i).alloc_record.size) =
        L.map (fun i => (nodeAt s.node_heap i).alloc_record.size) :=
      List.map_congr_left (fun i hi => by rw [(hsame i (hne_L i hi).1 (hne_L i hi).2).2.1])
    have hm_M : M.map (fun i => (nodeAt sF.node_heap i).alloc_record.size) =
        M.map (fun i => (nodeAt s.node_heap i).alloc_record.size) :=
      List.map_congr_left (fun i hi => by rw [(hsame i (hne_M i hi).1 (hne_M i hi).2).2.1])
    have hold := hwf.total
    rw [hchassoc] at hold
    rw [List.map_append, List.map_append, List.sum_append, List.sum_append] at hold
    rw [List.map_append, List.map_cons, List.sum_append, List.sum_cons,
      hm_L, hm_M, hFc.2.2.2.1, hFts]
    omega
  · -- noAdj
    have hold : noAdj s.node_heap ((L ++ (c :: D)) ++ M) := by
      have h0 := hch ▸ hwf.hadj
      have h2 : (L ++ (c :: D)) ++ M = L ++ c :: (D ++ M) := by simp
      rw [h2]
      exact h0
    have hMold : noAdj s.node_heap M := noAdj_append_right hold
    have hLold : noAdj s.node_heap L := by
      have h3 : L ++ c :: (D ++ M) = L ++ (c :: (D ++ M)) := rfl
      exact noAdj_append_left (hch ▸ hwf.hadj)
    have hLnew : noAdj sF.node_heap L := by
      refine noAdj_mono ?_ hLold
      intro a ha hal
      rw [(hsame a (hne_L a ha).1 (hne_L a ha).2).1]
      exact hal
    have hMnew : noAdj sF.node_heap M := by
      refine noAdj_mono ?_ hMold
      intro a ha hal
      rw [(hsame a (hne_M a ha).1 (hne_M a ha).2).1]
      exact hal
    have hcM : noAdj sF.node_heap (c :: M) := by
      refine noAdj_cons_of hMnew ?_
      intro m hm
      right
      have hmal := hMhead_alloc m hm
      have hmM : m ∈ M := List.mem_of_mem_head? hm
      rw [(hsame m (hne_M m hmM).1 (hne_M m hmM).2).1]
      exact hmal
    refine noAdj_append_build hLnew hcM ?_
    intro x hx y hy
    left
    have hxal := hLlast_alloc x hx
    have hxL : x ∈ L := List.mem_of_mem_getLast? hx
    rw [(hsame x (hne_L x hxL).1 (hne_L x hxL).2).1]
    exact hxal
  · -- gaps
    intro g' hg'
    have hmem : g' ∈ ({ size := ((c :: D).map (fun i => (nodeAt s.node_heap i).alloc_record.size)).sum, node := some c } : Gap) :: G₀ := hFperm.mem_iff.mp hg'
    rcases List.mem_cons.mp hmem with hg0 | hg0
    · subst hg0
      refine ⟨c, rfl, by simp, hFc.2.1, ?_⟩
      show ((c :: D).map (fun i => (nodeAt s.node_heap i).alloc_record.size)).sum = _
      rw [hFc.2.2.2.1]
    · have hg'old : g' ∈ s.gap_ix := hEperm.mem_iff.mpr (by simp [hg0])
      obtain ⟨i, hin, hich, hifree, hisz⟩ := hwf.gaps g' hg'old
      have hnotCD : i ∉ c :: D := by
        intro hiCD
        have hfreebeq : ((nodeAt s.node_heap i).allocated == 0) = true := by simp [hifree]
        have hsomemem : some i ∈ ((c :: D).filter (fun j => (nodeAt s.node_heap j).allocated == 0)).map some :=
          List.mem_map_of_mem _ (List.mem_filter.mpr ⟨hiCD, hfreebeq⟩)
        have hinE : some i ∈ E.map (fun g => g.node) := hEmap.mem_iff.mpr hsomemem
        have hndold := wf_gap_nodes_nodup hwf
        have hndEG : ((E ++ G₀).map (fun g => g.node)).Nodup :=
          (hEperm.map (fun g => g.node)).nodup_iff.mp hndold
        rw [List.map_append] at hndEG
        have hdisj := List.disjoint_of_nodup_append hndEG
        exact hdisj hinE (by
          rw [← hin]
          exact List.mem_map_of_mem _ hg0)
      have hic : i ≠ c := fun h => hnotCD (by simp [h])
      have hiD : i ∉ D := fun h => hnotCD (by simp [h])
      refine ⟨i, hin, ?_, ?_, ?_⟩
      · rw [hch] at hich
        rcases List.mem_append.mp hich with h | h
        · simp [h]
        · rcases List.mem_cons.mp h with h | h
          · exact absurd h hic
          · rcases List.mem_append.mp h with h | h
            · exact absurd h hiD
            · simp [h]
      · rw [(hsame i hic hiD).1]
        exact hifree
      · rw [(hsame i hic hiD).2.1]
        exact hisz
  · -- gperm
    have hmapold : List.Perm (s.gap_ix.map (fun g => g.node))
        (E.map (fun g => g.node) ++ G₀.map (fun g => g.node)) := by
      have h' := hEperm.map (fun g => g.node)
      rw [List.map_append] at h'
      exact h'
    have hEfCD : List.Perm
        (E.map (fun g => g.node) ++ G₀.map (fun g => g.node))
        ((((c :: D).filter (fun i => (nodeAt s.node_heap i).allocated == 0)).map some) ++
          G₀.map (fun g => g.node)) := hEmap.append_right _
    have holdmix : List.Perm
        ((((c :: D).filter (fun i => (nodeAt s.node_heap i).allocated == 0)).map some) ++
          G₀.map (fun g => g.node))
        ((L.filter (fun i => (nodeAt s.node_heap i).allocated == 0)).map some ++
         (((c :: D).filter (fun i => (nodeAt s.node_heap i).allocated == 0)).map some ++
          (M.filter (fun i => (nodeAt s.node_heap i).allocated == 0)).map some)) := by
      refine (hEfCD.symm.trans hmapold.symm).trans ?_
      have h1 := hwf.gperm
      rw [hfree_dec, List.map_append, List.map_append] at h1
      exact h1
    have hcancel : List.Perm (G₀.map (fun g => g.node))
        ((L.filter (fun i => (nodeAt s.node_heap i).allocated == 0)).map some ++
         (M.filter (fun i => (nodeAt s.node_heap i).allocated == 0)).map some) := by
      refine perm_append_cancel_left
        (((c :: D).filter (fun i => (nodeAt s.node_heap i).allocated == 0)).map some) _ _ ?_
      refine holdmix.trans ?_
      have h2 : ∀ (a b e : List (Option Nat)), List.Perm (a ++ (b ++ e)) (b ++ (a ++ e)) := by
        intro a b e
        have h3 : a ++ (b ++ e) = (a ++ b) ++ e := by simp
        have h4 : b ++ (a ++ e) = (b ++ a) ++ e := by simp
        rw [h3, h4]
        exact (List.perm_append_comm).append_right e
      exact h2 _ _ _
    have hFmap : List.Perm (sF.gap_ix.map (fun g => g.node))
        (some c :: G₀.map (fun g => g.node)) := by
      have h' := hFperm.map (fun g => g.node)
      rw [List.map_cons] at h'
      exact h'
    rw [hnew_free, List.map_append, List.map_cons]
    refine (hFmap.trans (hcancel.cons (some c))).trans ?_
    exact List.perm_middle.symm
  · -- ngaps
    have hlE : s.gap_ix.length = E.length + G₀.length := by
      have := hEperm.length_eq
      simpa using this
    have hlF : sF.gap_ix.length = G₀.length + 1 := by
      have := hFperm.length_eq
      simpa using this
    rw [hFng, hwf.ngaps, hlE, hlF]
    omega
  · -- nallocs
    rw [hFna, hwf.nallocs, halloc_dec, hnew_alloc]
    simp [List.length_append]
  · -- asize
    rw [hFas, hwf.asize, halloc_dec, hnew_alloc]
    have hmf_L : (L.filter (fun i => (nodeAt s.node_heap i).allocated == 1)).map
        (fun i => (nodeAt sF.node_heap i).alloc_record.size) =
        (L.filter (fun i => (nodeAt s.node_heap i).allocated == 1)).map
        (fun i => (nodeAt s.node_heap i).alloc_record.size) := by
      apply List.map_congr_left
      intro i hi
      have hi' := (List.mem_filter.mp hi).1
      rw [(hsame i (hne_L i hi').1 (hne_L i hi').2).2.1]
    have hmf_M : (M.filter (fun i => (nodeAt s.node_heap i).allocated == 1)).map
        (fun i => (nodeAt sF.node_heap i).alloc_record.size) =
        (M.filter (fun i => (nodeAt s.node_heap i).allocated == 1)).map
        (fun i => (nodeAt s.node_heap i).alloc_record.size) := by
      apply List.map_congr_left
      intro i hi
      have hi' := (List.mem_filter.mp hi).1
      rw [(hsame i (hne_M i hi').1 (hne_M i hi').2).2.1]
    rw [List.map_append, List.map_append, List.map_cons]
    rw [List.sum_append, List.sum_append, List.sum_cons]
    rw [hmf_L, hmf_M]
    omega
  · -- unodes
    rw [hFun, hwf.unodes, hch]
    simp only [List.length_append, List.length_cons]
    omega


/-- A gap entry never points at an allocated descriptor. -/
theorem wf_gap_no_alloc_entry {s : PoolMgr} {ch : List Nat} (hwf : WF s ch) {k : Nat}
    (hk : (nodeAt s.node_heap k).allocated = 1) :
    some k ∉ s.gap_ix.map (fun g => g.node) := by
  intro hmem
  have h1 := hwf.gperm.mem_iff.mp hmem
  rw [List.mem_map] at h1
  obtain ⟨i, hi, hie⟩ := h1
  have hik : i = k := Option.some.inj hie
  subst hik
  have h2 := (List.mem_filter.mp hi).2
  rw [hk] at h2
  simp at h2

/-- In a permutation that removes a uniquely-tagged entry, the removed entry
    is the tagged one and the rest cancels. -/
theorem perm_extract_unique {k : Nat} {X gp gd : Gap} {A G₂ : List Gap}
    (hP : List.Perm (X :: A) (gp :: gd :: G₂))
    (hgd : gd.node = some k)
    (hA : some k ∉ A.map (fun g => g.node)) :
    gd = X ∧ List.Perm A (gp :: G₂) := by
  have hgdmem : gd ∈ X :: A := hP.mem_iff.mpr (by simp)
  have hgdX : gd = X := by
    rcases List.mem_cons.mp hgdmem with h | h
    · exact h
    · exact absurd (by
        rw [← hgd]
        exact List.mem_map_of_mem _ h) hA
  subst hgdX
  refine ⟨rfl, ?_⟩
  exact (hP.trans (List.Perm.swap gd gp G₂)).cons_inv

/-- Preservation of well-formedness by a valid free: deleting the block whose
    descriptor is the allocated chain slot k always reports ALLOC_OK and leaves
    a well-formed pool. -/
theorem wf_del_alloc {s : PoolMgr} {ch : List Nat} {k : Nat} (hwf : WF s ch)
    (hkch : k ∈ ch) (hkal : (nodeAt s.node_heap k).allocated = 1) :
    (mem_del_alloc s (handleRec s k)).2 = AllocStatus.ALLOC_OK ∧
    (mem_del_alloc s (handleRec s k)).1.pool.total_size = s.pool.total_size ∧
    ∃ ch', WF (mem_del_alloc s (handleRec s k)).1 ch' := by
  have hSk1 : 1 ≤ (nodeAt s.node_heap k).alloc_record.size := hwf.szalloc k hkch hkal
  have htotpos : s.pool.total_size ≠ 0 := by
    obtain ⟨A, B, hAB⟩ := List.append_of_mem hkch
    have := hwf.total
    rw [hAB, List.map_append, List.map_cons, List.sum_append, List.sum_cons] at this
    omega
  have hsz : ∀ m ∈ ch, 1 ≤ (nodeAt s.node_heap m).alloc_record.size := fun m hm =>
    (hwf.sizes m hm).resolve_right htotpos
  have hfind := del_find hwf hkch hsz
  have heq : mem_del_alloc s (handleRec s k) = mem_del_alloc_commit s k := by
    unfold mem_del_alloc
    rw [hfind]
  rw [heq]
  refine ⟨mem_del_alloc_commit_snd s k, ?_⟩
  -- context around k in the partition
  obtain ⟨l₁, l₂, hch⟩ := List.append_of_mem hkch
  obtain ⟨hknl₁, hknl₂, hnod12⟩ := nodup_append_cons (hch ▸ hwf.nodup)
  have hchain' : chainOK s.node_heap (l₁ ++ k :: l₂) 0 none := hch ▸ hwf.chain
  have hklinks := chainOK_links hchain'
  have hklt : k < s.node_heap.length := (chainOK_mem hwf.chain k hkch).1
  have hkused : (nodeAt s.node_heap k).used = 1 := (chainOK_mem hwf.chain k hkch).2
  have hndmap := wf_gap_nodes_nodup hwf
  have hnokmap := wf_gap_no_alloc_entry hwf hkal
  have hheadprev : ∀ m ∈ l₂.head?, (nodeAt s.node_heap m).prev = some k := by
    intro m hm
    cases hl2c : l₂ with
    | nil =>
        rw [hl2c] at hm
        simp at hm
    | cons m₀ rest =>
        rw [hl2c] at hm
        simp at hm
        subst hm
        have hres : chainOK s.node_heap ((l₁ ++ [k]) ++ m₀ :: rest) 0 none := by
          have h0 := hchain'
          rw [hl2c] at h0
          have hassoc : (l₁ ++ [k]) ++ m₀ :: rest = l₁ ++ k :: (m₀ :: rest) := by simp
          rw [hassoc]
          exact h0
        have h1 := (chainOK_links hres).2
        rw [List.getLast?_concat] at h1
        simpa using h1
  -- the state after the counter update
  unfold mem_del_alloc_commit
  dsimp only
  set sA : PoolMgr := updNode s k (fun nd => { nd with allocated := 0 }) with hsA
  set sB : PoolMgr := { sA with pool := { sA.pool with num_allocs := sA.pool.num_allocs - 1, alloc_size := sA.pool.alloc_size - (nodeAt sA.node_heap k).alloc_record.size } } with hsB
  have hAne : ∀ i, i ≠ k → nodeAt sA.node_heap i = nodeAt s.node_heap i := by
    intro i hi
    rw [hsA, updNode_heap]
    exact nodeAt_set_ne (fun h => hi h.symm)
  have hAk : nodeAt sA.node_heap k = { nodeAt s.node_heap k with allocated := 0 } := by
    rw [hsA, updNode_heap]
    exact nodeAt_set_self hklt
  have hBheap : sB.node_heap = sA.node_heap := by rw [hsB]
  have hlenB : sB.node_heap.length = s.node_heap.length := by
    rw [hBheap, hsA, updNode_heap]
    simp
  have hBne : ∀ i, i ≠ k → nodeAt sB.node_heap i = nodeAt s.node_heap i := by
    intro i hi
    rw [hBheap]
    exact hAne i hi
  have hBk : nodeAt sB.node_heap k = { nodeAt s.node_heap k with allocated := 0 } := by
    rw [hBheap]
    exact hAk
  have hBknext : (nodeAt sB.node_heap k).next = l₂.head? := by
    rw [hBk]
    exact hklinks.1
  have hBkprev : (nodeAt sB.node_heap k).prev = (l₁.getLast?).elim none some := by
    rw [hBk]
    exact hklinks.2
  have hBna : sB.pool.num_allocs = s.pool.num_allocs - 1 := rfl
  have hBng : sB.pool.num_gaps = s.pool.num_gaps := rfl
  have hBts : sB.pool.total_size = s.pool.total_size := rfl
  have hBtn : sB.total_nodes = s.total_nodes := rfl
  have hBun : sB.used_nodes = s.used_nodes := rfl
  have hBgap : sB.gap_ix = s.gap_ix := rfl
  have hBas : sB.pool.alloc_size = s.pool.alloc_size - (nodeAt s.node_heap k).alloc_record.size := by
    show s.pool.alloc_size - (nodeAt sA.node_heap k).alloc_record.size = _
    rw [hAk]
  by_cases hfwdmerge : ∃ nx l₂'', l₂ = nx :: l₂'' ∧ (nodeAt s.node_heap nx).allocated = 0
  · -- forward merge happens
    obtain ⟨nx, l₂', hl₂, hnxal⟩ := hfwdmerge
    have hnxl₂ : nx ∈ l₂ := by rw [hl₂]; simp
    have hnxch : nx ∈ ch := by rw [hch]; simp [hnxl₂]
    have hnxlt : nx < s.node_heap.length := (chainOK_mem hwf.chain nx hnxch).1
    have hnxk : nx ≠ k := fun h => hknl₂ (h ▸ hnxl₂)
    have hl₂nd : l₂.Nodup := hnod12.of_append_right
    have hnxnotl₂' : nx ∉ l₂' := by
      rw [hl₂] at hl₂nd
      exact (List.nodup_cons.mp hl₂nd).1
    have hdisj12 : l₁.Disjoint l₂ := List.disjoint_of_nodup_append hnod12
    have hnxnext : (nodeAt s.node_heap nx).next = l₂'.head? := by
      have hres : chainOK s.node_heap ((l₁ ++ [k]) ++ nx :: l₂') 0 none := by
        have h0 := hchain'
        rw [hl₂] at h0
        have hassoc : (l₁ ++ [k]) ++ nx :: l₂' = l₁ ++ k :: (nx :: l₂') := by simp
        rw [hassoc]
        exact h0
      exact (chainOK_links hres).1
    have hnextB : (nodeAt sB.node_heap k).next = some nx := by
      rw [hBknext, hl₂]
      rfl
    have hfreeB : (nodeAt sB.node_heap nx).allocated = 0 := by
      rw [hBne nx hnxk]
      exact hnxal
    have hkltB : k < sB.node_heap.length := by rw [hlenB]; exact hklt
    have hnxltB : nx < sB.node_heap.length := by rw [hlenB]; exact hnxlt
    have hgapB : ∃ g ∈ sB.gap_ix, g.node = some nx := by
      obtain ⟨g0, hg0, hg0n⟩ := wf_gap_entry_exists hwf hnxch hnxal
      exact ⟨g0, hg0, hg0n⟩
    have hnnB : ∀ nn, (nodeAt sB.node_heap nx).next = some nn →
        nn ≠ k ∧ nn ≠ nx ∧ nn < sB.node_heap.length := by
      intro nn h
      rw [hBne nx hnxk, hnxnext] at h
      have hnnl₂' : nn ∈ l₂' := List.mem_of_mem_head? h
      have hnnl₂ : nn ∈ l₂ := by rw [hl₂]; simp [hnnl₂']
      have hnnch : nn ∈ ch := by rw [hch]; simp [hnnl₂]
      exact ⟨fun hc => hknl₂ (hc ▸ hnnl₂), fun hc => hnxnotl₂' (hc ▸ hnnl₂'),
        by rw [hlenB]; exact (chainOK_mem hwf.chain nn hnnch).1⟩
    obtain ⟨hFl, hFdu, hFda, hFdm, hFds, hFdp, hFdn, hFnxf, hFnncl, hFoth,
      hFtn, hFun2, hFts2, hFas2, hFna2, hFng2, gnx, hgnxmem, hgnxnode, hFgperm⟩ :=
      del_fwd_merge_spec hnextB hfreeB (fun h => hnxk h.symm) hkltB hnxltB hgapB hnnB
    set sC : PoolMgr := del_fwd_merge sB k with hsC
    have hClen : sC.node_heap.length = s.node_heap.length := by rw [hFl, hlenB]
    have hCku : (nodeAt sC.node_heap k).used = (nodeAt s.node_heap k).used := by
      rw [hFdu, hBk]
    have hCka : (nodeAt sC.node_heap k).allocated = 0 := by
      rw [hFda, hBk]
    have hCkm : (nodeAt sC.node_heap k).alloc_record.mem = (nodeAt s.node_heap k).alloc_record.mem := by
      rw [hFdm, hBk]
    have hCks : (nodeAt sC.node_heap k).alloc_record.size =
        (nodeAt s.node_heap k).alloc_record.size + (nodeAt s.node_heap nx).alloc_record.size := by
      rw [hFds, hBk, hBne nx hnxk]
    have hCkp : (nodeAt sC.node_heap k).prev = (nodeAt s.node_heap k).prev := by
      rw [hFdp, hBk]
    have hCkn : (nodeAt sC.node_heap k).next = l₂'.head? := by
      rw [hFdn, hBne nx hnxk, hnxnext]
    have hCnn : ∀ m ∈ l₂'.head?, nodeAt sC.node_heap m = { nodeAt s.node_heap m with prev := some k } := by
      intro m hm
      have hmk : m ≠ k := (hnnB m (by rw [hBne nx hnxk, hnxnext]; exact hm)).1
      have hr := hFnncl m (by rw [hBne nx hnxk, hnxnext]; exact hm)
      rw [hr, hBne m hmk]
    have hCoth : ∀ i, i ≠ k → i ≠ nx → (∀ m ∈ l₂'.head?, i ≠ m) →
        nodeAt sC.node_heap i = nodeAt s.node_heap i := by
      intro i hik hinx him
      have hr := hFoth i hik hinx (fun nn hnn => him nn (by
        rw [hBne nx hnxk, hnxnext] at hnn
        exact hnn))
      rw [hr, hBne i hik]
    have hCun : sC.used_nodes = s.used_nodes - 1 := by
      rw [hFun2]
      exact rfl
    have hCng : sC.pool.num_gaps = s.pool.num_gaps - 1 := by
      rw [hFng2]
      exact rfl
    have hCgap : List.Perm s.gap_ix (gnx :: sC.gap_ix) := hFgperm
    have hlC : s.gap_ix.length = sC.gap_ix.length + 1 := by
      have := hCgap.length_eq
      simpa using this
    have h1ng : 1 ≤ s.pool.num_gaps := by
      rw [hwf.ngaps, hlC]
      omega
    have hngC : sC.pool.num_gaps = sC.gap_ix.length := by
      rw [hCng, hwf.ngaps, hlC]
      omega
    obtain ⟨hah, hat, hau, _, _, hats, haas, hana, hang, haperm⟩ :=
      mem_add_to_gap_ix_spec sC ((nodeAt sC.node_heap k).alloc_record.size) (some k) hngC
    set sD : PoolMgr := (mem_add_to_gap_ix sC ((nodeAt sC.node_heap k).alloc_record.size) (some k)).1 with hsD
    have hlenD : sD.node_heap.length = s.node_heap.length := by rw [hah, hClen]
    have hDkal : (nodeAt sD.node_heap k).allocated = 0 := by rw [hah]; exact hCka
    have hDkprev : (nodeAt sD.node_heap k).prev = (l₁.getLast?).elim none some := by
      rw [hah, hCkp]
      exact hklinks.2
    have hDknext : (nodeAt sD.node_heap k).next = l₂'.head? := by
      rw [hah]
      exact hCkn
    have hlD : sD.gap_ix.length = sC.gap_ix.length + 1 := by
      have := haperm.length_eq
      simpa using this
    have hMal' : ∀ m ∈ l₂'.head?, (nodeAt s.node_heap m).allocated = 1 := by
      intro m hm
      cases hl2c : l₂' with
      | nil =>
          rw [hl2c] at hm
          simp at hm
      | cons m₀ rest =>
          rw [hl2c] at hm
          simp at hm
          subst hm
          have hadjr : noAdj s.node_heap (nx :: m₀ :: rest) := by
            have h0 := hch ▸ hwf.hadj
            rw [hl₂, hl2c] at h0
            have h1 := noAdj_append_right (L := l₁) h0
            exact noAdj_of_cons h1
          rcases hadjr.1 with h | h
          · rw [hnxal] at h
            simp at h
          · exact h
    by_cases hbwdmerge : ∃ p, l₁.getLast? = some p ∧ (nodeAt s.node_heap p).allocated = 0
    · -- LEAF D: both merges
      obtain ⟨p, hlast, hpal⟩ := hbwdmerge
      have hl₁ne : l₁ ≠ [] := by
        intro h
        rw [h] at hlast
        simp at hlast
      obtain ⟨L, hl₁⟩ : ∃ L, l₁ = L ++ [p] := by
        refine ⟨l₁.dropLast, ?_⟩
        have h1 := List.dropLast_append_getLast hl₁ne
        have h2 : l₁.getLast hl₁ne = p := by
          have h3 := List.getLast?_eq_getLast l₁ hl₁ne
          rw [h3] at hlast
          exact Option.some.inj hlast
        rw [← h2]
        exact h1.symm
      have hpl₁ : p ∈ l₁ := by rw [hl₁]; simp
      have hpk : p ≠ k := fun h => hknl₁ (h ▸ hpl₁)
      have hpnx : p ≠ nx := fun h => hdisj12 hpl₁ (h ▸ hnxl₂)
      have hpch : p ∈ ch := by rw [hch]; simp [hpl₁]
      have hplt : p < s.node_heap.length := (chainOK_mem hwf.chain p hpch).1
      have hpused : (nodeAt s.node_heap p).used = 1 := (chainOK_mem hwf.chain p hpch).2
      have hpnothead : ∀ m ∈ l₂'.head?, p ≠ m := by
        intro m hm heq
        have hml₂ : m ∈ l₂ := by rw [hl₂]; simp [List.mem_of_mem_head? hm]
        exact hdisj12 hpl₁ (heq ▸ hml₂)
      have hprevD : (nodeAt sD.node_heap k).prev = some p := by
        rw [hDkprev, hlast]
        rfl
      have hpfreeD : (nodeAt sD.node_heap p).allocated = 0 := by
        rw [hah, hCoth p hpk hpnx hpnothead]
        exact hpal
      have hdltD : k < sD.node_heap.length := by rw [hlenD]; exact hklt
      have hpltD : p < sD.node_heap.length := by rw [hlenD]; exact hplt
      have hgap_pD : ∃ g ∈ sD.gap_ix, g.node = some p := by
        obtain ⟨gp₀, hgp₀, hgp₀n⟩ := wf_gap_entry_exists hwf hpch hpal
        have hgp₀nx : gp₀ ≠ gnx := by
          intro h
          rw [h, hgnxnode] at hgp₀n
          exact hpnx (Option.some.inj hgp₀n).symm
        have hgp₀C : gp₀ ∈ sC.gap_ix := by
          have := hCgap.mem_iff.mp hgp₀
          rcases List.mem_cons.mp this with h | h
          · exact absurd h hgp₀nx
          · exact h
        exact ⟨gp₀, haperm.mem_iff.mpr (List.mem_cons.mpr (Or.inr hgp₀C)), hgp₀n⟩
      have hgap_dD : ∃ g ∈ sD.gap_ix, g.node = some k :=
        ⟨{ size := (nodeAt sC.node_heap k).alloc_record.size, node := some k },
          haperm.mem_iff.mpr (by simp), rfl⟩
      have hngD : sD.pool.num_gaps = sD.gap_ix.length := by
        rw [hang, hCng, hwf.ngaps, hlC, hlD]
        omega
      have hnnD : ∀ nn, (nodeAt sD.node_heap k).next = some nn →
          nn ≠ k ∧ nn ≠ p ∧ nn < sD.node_heap.length := by
        intro nn h
        rw [hDknext] at h
        have hnnl₂' : nn ∈ l₂' := List.mem_of_mem_head? h
        have hnnl₂ : nn ∈ l₂ := by rw [hl₂]; simp [hnnl₂']
        have hnnch : nn ∈ ch := by rw [hch]; simp [hnnl₂]
        exact ⟨fun hc => hknl₂ (hc ▸ hnnl₂), fun hc => hdisj12 hpl₁ (hc ▸ hnnl₂),
          by rw [hlenD]; exact (chainOK_mem hwf.chain nn hnnch).1⟩
      obtain ⟨hWlen, hWpu, hWpa, hWpm, hWps, hWpp, hWpn, hWdf, hWnn, hWoth,
        hWtn, hWun, hWts, hWas, hWna, hWng, gp, gd, G₂, hgpmem, hgpnode, hgdnode, hWsperm, hWfperm⟩ :=
        del_bwd_merge_spec hprevD hpfreeD hDkal hpk hdltD hpltD hgap_pD hgap_dD hngD hnnD
      have hAnok : some k ∉ sC.gap_ix.map (fun g => g.node) := by
        intro hc
        have hmem2 : some k ∈ s.gap_ix.map (fun g => g.node) := by
          have hmp := hCgap.map (fun g => g.node)
          rw [List.map_cons] at hmp
          exact hmp.mem_iff.mpr (by simp [hc])
        exact hnokmap hmem2
      have hP : List.Perm ({ size := (nodeAt sC.node_heap k).alloc_record.size, node := some k } :: sC.gap_ix)
          (gp :: gd :: G₂) := haperm.symm.trans hWsperm
      obtain ⟨hgdX, hcancel⟩ := perm_extract_unique hP hgdnode hAnok
      have hchD : ch = L ++ p :: ((k :: [nx]) ++ l₂') := by
        rw [hch, hl₁, hl₂]
        simp
      have hallocD2 : ∀ i ∈ p :: (k :: [nx]), ((nodeAt s.node_heap i).allocated = 1 ↔ i = k) := by
        intro i hi
        simp only [List.mem_cons, List.mem_singleton] at hi
        rcases hi with hi | hi | hi
        · subst hi
          constructor
          · intro h1
            rw [hpal] at h1
            simp at h1
          · intro h1
            exact absurd h1 hpk
        · subst hi
          exact ⟨fun _ => rfl, fun _ => hkal⟩
        · simp at hi
          subst hi
          constructor
          · intro h1
            rw [hnxal] at h1
            simp at h1
          · intro h1
            exact absurd h1 hnxk
      have hLalD : ∀ x ∈ L.getLast?, (nodeAt s.node_heap x).allocated = 1 := by
        intro x hx
        have hadj2 : noAdj s.node_heap (L ++ p :: k :: l₂) := by
          have h0 := hch ▸ hwf.hadj
          rw [hl₁] at h0
          have hassoc : (L ++ [p]) ++ k :: l₂ = L ++ p :: k :: l₂ := by simp
          rw [hassoc] at h0
          exact h0
        have hpr := noAdj_pair hadj2 x hx p rfl
        rcases hpr with h | h
        · exact h
        · rw [hpal] at h
          simp at h
      have h1sz : (nodeAt sD.node_heap k).alloc_record.size =
          (nodeAt s.node_heap k).alloc_record.size + (nodeAt s.node_heap nx).alloc_record.size := by
        rw [hah]
        exact hCks
      have h2sz : (nodeAt sD.node_heap p).alloc_record.size = (nodeAt s.node_heap p).alloc_record.size := by
        rw [hah, hCoth p hpk hpnx hpnothead]
      have hsum : ((p :: (k :: [nx])).map (fun i => (nodeAt s.node_heap i).alloc_record.size)).sum =
          (nodeAt sD.node_heap k).alloc_record.size + (nodeAt sD.node_heap p).alloc_record.size := by
        rw [h1sz, h2sz]
        simp only [List.map_cons, List.map_nil, List.sum_cons, List.sum_nil]
        omega
      have hEpermD : List.Perm s.gap_ix ([gp, gnx] ++ G₂) := by
        refine hCgap.trans ?_
        exact (hcancel.cons gnx).trans (List.Perm.swap gp gnx G₂)
      refine ⟨?_, L ++ p :: l₂', ?_⟩
      · rw [hWts, hats, hFts2]
        exact hBts
      refine wf_del_common hwf hchD (by simp) hallocD2 hMal' hLalD ?_ ?_ ?_ ?_ ?_ ?_ ?_ ?_ ?_ ?_ ?_ hEpermD ?_ ?_
      · rw [hWlen, hlenD]
      · refine ⟨?_, ?_, ?_, ?_, ?_, ?_⟩
        · rw [hWpu, hpused]
        · rw [hWpa, hah, hCoth p hpk hpnx hpnothead]
          exact hpal
        · rw [hWpm, hah, hCoth p hpk hpnx hpnothead]
        · rw [hWps]
          exact hsum.symm
        · rw [hWpp, hah, hCoth p hpk hpnx hpnothead]
        · rw [hWpn, hDknext]
      · intro i hi
        simp only [List.mem_cons, List.mem_singleton] at hi
        rcases hi with hi | hi
        · subst hi
          exact hWdf
        · simp at hi
          rw [hi]
          have hnxnp : nx ≠ p := fun h => hpnx h.symm
          have hnxnothead : ∀ m ∈ l₂'.head?, nx ≠ m := by
            intro m hm heq
            exact hnxnotl₂' (heq ▸ List.mem_of_mem_head? hm)
          have hr := hWoth nx hnxk hnxnp (fun nn hnn => hnxnothead nn (by
            rw [hDknext] at hnn
            exact hnn))
          rw [hr, hah]
          exact hFnxf
      · intro m hm
        have hmk : m ≠ k := (hnnB m (by rw [hBne nx hnxk, hnxnext]; exact hm)).1
        have hr := hWnn m (by rw [hDknext]; exact hm)
        rw [hr, hah, hCnn m hm]
        exact ⟨rfl, rfl, rfl, rfl, rfl⟩
      · intro i hip hiD him
        have hik : i ≠ k := by
          intro h
          exact hiD (by simp [h])
        have hinx : i ≠ nx := by
          intro h
          exact hiD (by simp [h])
        have hr := hWoth i hik hip (fun nn hnn => him nn (by
          rw [hDknext] at hnn
          exact hnn))
        rw [hr, hah, hCoth i hik hinx (fun m hm heq => him m hm heq)]
      · rw [hWtn, hat, hFtn]
        exact hBtn
      · rw [hWun, hau, hCun]
        simp only [List.length_cons, List.length_nil]
        omega
      · rw [hWts, hats, hFts2]
        exact hBts
      · rw [hWas, haas, hFas2]
        exact hBas
      · rw [hWna, hana, hFna2]
        exact hBna
      · rw [hWng, hang, hCng]
        simp only [List.length_cons, List.length_nil]
        omega
      · simp only [List.map_cons, List.map_nil]
        rw [hgpnode, hgnxnode]
        have hfilt : (p :: (k :: [nx])).filter (fun i => (nodeAt s.node_heap i).allocated == 0) = [p, nx] := by
          simp [List.filter_cons, hpal, hkal, hnxal]
        rw [hfilt]
        simp
      · rw [hsum]
        exact hWfperm
    · -- LEAF B: forward merge only
      push_neg at hbwdmerge
      have hbwdeq : del_bwd_merge sD k = sD := by
        cases hlast : l₁.getLast? with
        | none =>
            refine del_bwd_merge_none ?_
            rw [hDkprev, hlast]
            rfl
        | some p =>
            refine del_bwd_merge_alloc (p := p) ?_ ?_
            · rw [hDkprev, hlast]
              rfl
            · have hpl₁ : p ∈ l₁ := List.mem_of_mem_getLast? hlast
              have hpk : p ≠ k := fun h => hknl₁ (h ▸ hpl₁)
              have hpnx : p ≠ nx := fun h => hdisj12 hpl₁ (h ▸ hnxl₂)
              have hpnothead : ∀ m ∈ l₂'.head?, p ≠ m := by
                intro m hm heq
                have hml₂ : m ∈ l₂ := by rw [hl₂]; simp [List.mem_of_mem_head? hm]
                exact hdisj12 hpl₁ (heq ▸ hml₂)
              rw [hah, hCoth p hpk hpnx hpnothead]
              exact hbwdmerge p hlast
      have hLal : ∀ x ∈ l₁.getLast?, (nodeAt s.node_heap x).allocated = 1 := by
        intro x hx
        have hxl₁ : x ∈ l₁ := List.mem_of_mem_getLast? hx
        have hxch : x ∈ ch := by rw [hch]; simp [hxl₁]
        rcases hwf.bits x hxch with h | h
        · exact absurd h (hbwdmerge x hx)
        · exact h
      rw [hbwdeq]
      have hchB : ch = l₁ ++ k :: ([nx] ++ l₂') := by
        rw [hch, hl₂]
        rfl
      have hallocB : ∀ i ∈ k :: [nx], ((nodeAt s.node_heap i).allocated = 1 ↔ i = k) := by
        intro i hi
        simp only [List.mem_cons, List.mem_singleton] at hi
        rcases hi with hi | hi
        · subst hi
          exact ⟨fun _ => rfl, fun _ => hkal⟩
        · simp at hi
          subst hi
          constructor
          · intro h1
            rw [hnxal] at h1
            simp at h1
          · intro h1
            exact absurd h1 hnxk
      have hsumB : ((k :: [nx]).map (fun i => (nodeAt s.node_heap i).alloc_record.size)).sum =
          (nodeAt sC.node_heap k).alloc_record.size := by
        rw [hCks]
        simp only [List.map_cons, List.map_nil, List.sum_cons, List.sum_nil]
        omega
      have hEpermB : List.Perm s.gap_ix ([gnx] ++ sC.gap_ix) := hCgap
      refine ⟨?_, l₁ ++ k :: l₂', ?_⟩
      · rw [hats, hFts2]
        exact hBts
      refine wf_del_common hwf hchB (by simp) hallocB hMal' hLal hlenD ?_ ?_ ?_ ?_ ?_ ?_ ?_ ?_ ?_ ?_ hEpermB ?_ ?_
      · refine ⟨?_, ?_, ?_, ?_, ?_, ?_⟩
        · rw [hah]
          exact hCku
        · exact hDkal
        · rw [hah]
          exact hCkm
        · rw [hah, hCks]
          simp only [List.map_cons, List.map_nil, List.sum_cons, List.sum_nil]
          omega
        · rw [hah]
          exact hCkp
        · exact hDknext
      · intro i hi
        simp at hi
        subst hi
        rw [hah]
        exact hFnxf
      · intro m hm
        rw [hah, hCnn m hm]
        exact ⟨rfl, rfl, rfl, rfl, rfl⟩
      · intro i hik hiD him
        have hinx : i ≠ nx := by
          intro h
          exact hiD (by simp [h])
        rw [hah]
        exact hCoth i hik hinx him
      · rw [hat, hFtn]
        exact hBtn
      · rw [hau, hCun]
        simp
      · rw [hats, hFts2]
        exact hBts
      · rw [haas, hFas2]
        exact hBas
      · rw [hana, hFna2]
        exact hBna
      · rw [hang, hCng]
        simp only [List.length_cons, List.length_nil]
        omega
      · simp only [List.map_cons, List.map_nil]
        rw [hgnxnode]
        have hfilt : (k :: [nx]).filter (fun i => (nodeAt s.node_heap i).allocated == 0) = [nx] := by
          simp [List.filter_cons, hkal, hnxal]
        rw [hfilt]
        simp
      · rw [hsumB]
        exact haperm
  · -- no forward merge
    push_neg at hfwdmerge
    have hfwdeq : del_fwd_merge sB k = sB := by
      cases hl2c : l₂ with
      | nil =>
          refine del_fwd_merge_none ?_
          rw [hBknext, hl2c]
          rfl
      | cons nx l₂'' =>
          refine @del_fwd_merge_alloc sB k nx ?_ ?_
          · rw [hBknext, hl2c]
            rfl
          · have hnxk : nx ≠ k := by
              intro h
              exact hknl₂ (by rw [hl2c, ← h]; simp)
            rw [hBne nx hnxk]
            exact hfwdmerge nx l₂'' hl2c
    have hMal : ∀ m ∈ l₂.head?, (nodeAt s.node_heap m).allocated = 1 := by
      intro m hm
      cases hl2c : l₂ with
      | nil =>
          rw [hl2c] at hm
          simp at hm
      | cons m₀ rest =>
          rw [hl2c] at hm
          simp at hm
          subst hm
          have hm₀ch : m₀ ∈ ch := by
            rw [hch, hl2c]
            simp
          rcases hwf.bits m₀ hm₀ch with h | h
          · exact absurd h (hfwdmerge m₀ rest hl2c)
          · exact h
    rw [hfwdeq]
    have hngB : sB.pool.num_gaps = sB.gap_ix.length := by
      rw [hBng, hBgap]
      exact hwf.ngaps
    obtain ⟨hah, hat, hau, _, _, hats, haas, hana, hang, haperm⟩ :=
      mem_add_to_gap_ix_spec sB ((nodeAt sB.node_heap k).alloc_record.size) (some k) hngB
    set sD : PoolMgr := (mem_add_to_gap_ix sB ((nodeAt sB.node_heap k).alloc_record.size) (some k)).1 with hsD
    have hDk : nodeAt sD.node_heap k = { nodeAt s.node_heap k with allocated := 0 } := by
      rw [hah]
      exact hBk
    have hDne : ∀ i, i ≠ k → nodeAt sD.node_heap i = nodeAt s.node_heap i := by
      intro i hi
      rw [hah]
      exact hBne i hi
    have hlenD : sD.node_heap.length = s.node_heap.length := by rw [hah, hlenB]
    have hDkprev : (nodeAt sD.node_heap k).prev = (l₁.getLast?).elim none some := by
      rw [hDk]
      exact hklinks.2
    have hDknext : (nodeAt sD.node_heap k).next = l₂.head? := by
      rw [hDk]
      exact hklinks.1
    have hDkal : (nodeAt sD.node_heap k).allocated = 0 := by rw [hDk]
    have hlD : sD.gap_ix.length = s.gap_ix.length + 1 := by
      have := haperm.length_eq
      simpa using this
    by_cases hbwdmerge : ∃ p, l₁.getLast? = some p ∧ (nodeAt s.node_heap p).allocated = 0
    · -- LEAF C: backward merge only
      obtain ⟨p, hlast, hpal⟩ := hbwdmerge
      have hl₁ne : l₁ ≠ [] := by
        intro h
        rw [h] at hlast
        simp at hlast
      obtain ⟨L, hl₁⟩ : ∃ L, l₁ = L ++ [p] := by
        refine ⟨l₁.dropLast, ?_⟩
        have h1 := List.dropLast_append_getLast hl₁ne
        have h2 : l₁.getLast hl₁ne = p := by
          have h3 := List.getLast?_eq_getLast l₁ hl₁ne
          rw [h3] at hlast
          exact Option.some.inj hlast
        rw [← h2]
        exact h1.symm
      have hpl₁ : p ∈ l₁ := by rw [hl₁]; simp
      have hpk : p ≠ k := fun h => hknl₁ (h ▸ hpl₁)
      have hpch : p ∈ ch := by rw [hch]; simp [hpl₁]
      have hplt : p < s.node_heap.length := (chainOK_mem hwf.chain p hpch).1
      have hpused : (nodeAt s.node_heap p).used = 1 := (chainOK_mem hwf.chain p hpch).2
      have hdisj12 : l₁.Disjoint l₂ := List.disjoint_of_nodup_append hnod12
      have hprevD : (nodeAt sD.node_heap k).prev = some p := by
        rw [hDkprev, hlast]
        rfl
      have hpfreeD : (nodeAt sD.node_heap p).allocated = 0 := by
        rw [hDne p hpk]
        exact hpal
      have hdltD : k < sD.node_heap.length := by rw [hlenD]; exact hklt
      have hpltD : p < sD.node_heap.length := by rw [hlenD]; exact hplt
      have hgap_pD : ∃ g ∈ sD.gap_ix, g.node = some p := by
        obtain ⟨gp₀, hgp₀, hgp₀n⟩ := wf_gap_entry_exists hwf hpch hpal
        exact ⟨gp₀, haperm.mem_iff.mpr (List.mem_cons.mpr (Or.inr hgp₀)), hgp₀n⟩
      have hgap_dD : ∃ g ∈ sD.gap_ix, g.node = some k :=
        ⟨{ size := (nodeAt sB.node_heap k).alloc_record.size, node := some k },
          haperm.mem_iff.mpr (by simp), rfl⟩
      have hngD : sD.pool.num_gaps = sD.gap_ix.length := by
        rw [hang, hBng, hwf.ngaps, hlD]
      have hnnD : ∀ nn, (nodeAt sD.node_heap k).next = some nn →
          nn ≠ k ∧ nn ≠ p ∧ nn < sD.node_heap.length := by
        intro nn h
        rw [hDknext] at h
        have hnnl₂ : nn ∈ l₂ := List.mem_of_mem_head? h
        have hnnch : nn ∈ ch := by rw [hch]; simp [hnnl₂]
        exact ⟨fun hc => hknl₂ (hc ▸ hnnl₂), fun hc => hdisj12 hpl₁ (hc ▸ hnnl₂),
          by rw [hlenD]; exact (chainOK_mem hwf.chain nn hnnch).1⟩
      obtain ⟨hWlen, hWpu, hWpa, hWpm, hWps, hWpp, hWpn, hWdf, hWnn, hWoth,
        hWtn, hWun, hWts, hWas, hWna, hWng, gp, gd, G₂, hgpmem, hgpnode, hgdnode, hWsperm, hWfperm⟩ :=
        del_bwd_merge_spec hprevD hpfreeD hDkal hpk hdltD hpltD hgap_pD hgap_dD hngD hnnD
      have hP : List.Perm ({ size := (nodeAt sB.node_heap k).alloc_record.size, node := some k } :: s.gap_ix)
          (gp :: gd :: G₂) := haperm.symm.trans hWsperm
      obtain ⟨hgdX, hcancel⟩ := perm_extract_unique hP hgdnode hnokmap
      have h1sz : (nodeAt sD.node_heap k).alloc_record.size = (nodeAt s.node_heap k).alloc_record.size := by
        rw [hDk]
      have h2sz : (nodeAt sD.node_heap p).alloc_record.size = (nodeAt s.node_heap p).alloc_record.size := by
        rw [hDne p hpk]
      have hsum : ((p :: [k]).map (fun i => (nodeAt s.node_heap i).alloc_record.size)).sum =
          (nodeAt sD.node_heap k).alloc_record.size + (nodeAt sD.node_heap p).alloc_record.size := by
        rw [h1sz, h2sz]
        simp only [List.map_cons, List.map_nil, List.sum_cons, List.sum_nil]
        omega
      have hchC : ch = L ++ p :: ([k] ++ l₂) := by
        rw [hch, hl₁]
        simp
      have hallocC : ∀ i ∈ p :: [k], ((nodeAt s.node_heap i).allocated = 1 ↔ i = k) := by
        intro i hi
        simp only [List.mem_cons, List.mem_singleton] at hi
        rcases hi with hi | hi
        · subst hi
          constructor
          · intro h1
            rw [hpal] at h1
            simp at h1
          · intro h1
            exact absurd h1 hpk
        · simp at hi
          subst hi
          exact ⟨fun _ => rfl, fun _ => hkal⟩
      have hLalC : ∀ x ∈ L.getLast?, (nodeAt s.node_heap x).allocated = 1 := by
        intro x hx
        have hadj2 : noAdj s.node_heap (L ++ p :: k :: l₂) := by
          have h0 := hch ▸ hwf.hadj
          rw [hl₁] at h0
          have hassoc : (L ++ [p]) ++ k :: l₂ = L ++ p :: k :: l₂ := by simp
          rw [hassoc] at h0
          exact h0
        have hpr := noAdj_pair hadj2 x hx p rfl
        rcases hpr with h | h
        · exact h
        · rw [hpal] at h
          simp at h
      have hEpermC : List.Perm s.gap_ix ([gp] ++ G₂) := hcancel
      refine ⟨?_, L ++ p :: l₂, ?_⟩
      · rw [hWts, hats]
        exact hBts
      refine wf_del_common hwf hchC (by simp) hallocC hMal hLalC ?_ ?_ ?_ ?_ ?_ ?_ ?_ ?_ ?_ ?_ ?_ hEpermC ?_ ?_
      · rw [hWlen, hlenD]
      · refine ⟨?_, ?_, ?_, ?_, ?_, ?_⟩
        · rw [hWpu, hpused]
        · rw [hWpa, hDne p hpk]
          exact hpal
        · rw [hWpm, hDne p hpk]
        · rw [hWps]
          exact hsum.symm
        · rw [hWpp, hDne p hpk]
        · rw [hWpn, hDknext]
      · intro i hi
        simp at hi
        subst hi
        exact hWdf
      · intro m hm
        have hmM : m ∈ l₂ := List.mem_of_mem_head? hm
        have hmk : m ≠ k := fun h => hknl₂ (h ▸ hmM)
        have hr := hWnn m (by rw [hDknext]; exact hm)
        rw [hr, hDne m hmk]
        exact ⟨rfl, rfl, rfl, rfl, rfl⟩
      · intro i hip hiD him
        have hik : i ≠ k := by
          intro h
          exact hiD (by simp [h])
        have hr := hWoth i hik hip (fun nn hnn => him nn (by
          rw [hDknext] at hnn
          exact hnn))
        rw [hr, hDne i hik]
      · rw [hWtn, hat]
        exact hBtn
      · rw [hWun, hau]
        exact rfl
      · rw [hWts, hats]
        exact hBts
      · rw [hWas, haas]
        exact hBas
      · rw [hWna, hana]
        exact hBna
      · rw [hWng, hang, hBng]
        simp
      · simp only [List.map_cons, List.map_nil]
        rw [hgpnode]
        have hfilt : (p :: [k]).filter (fun i => (nodeAt s.node_heap i).allocated == 0) = [p] := by
          simp [List.filter_cons, hpal, hkal]
        rw [hfilt]
        simp
      · rw [hsum]
        exact hWfperm
    · -- LEAF A: no merge at all
      push_neg at hbwdmerge
      have hbwdeq : del_bwd_merge sD k = sD := by
        cases hlast : l₁.getLast? with
        | none =>
            refine del_bwd_merge_none ?_
            rw [hDkprev, hlast]
            rfl
        | some p =>
            refine del_bwd_merge_alloc (p := p) ?_ ?_
            · rw [hDkprev, hlast]
              rfl
            · have hpl₁ : p ∈ l₁ := List.mem_of_mem_getLast? hlast
              have hpk : p ≠ k := fun h => hknl₁ (h ▸ hpl₁)
              rw [hDne p hpk]
              exact hbwdmerge p hlast
      have hLal : ∀ x ∈ l₁.getLast?, (nodeAt s.node_heap x).allocated = 1 := by
        intro x hx
        have hxl₁ : x ∈ l₁ := List.mem_of_mem_getLast? hx
        have hxch : x ∈ ch := by rw [hch]; simp [hxl₁]
        rcases hwf.bits x hxch with h | h
        · exact absurd h (hbwdmerge x hx)
        · exact h
      rw [hbwdeq]
      have hch0 : ch = l₁ ++ k :: (([] : List Nat) ++ l₂) := by rw [hch, List.nil_append]
      have hallocA : ∀ i ∈ k :: ([] : List Nat), ((nodeAt s.node_heap i).allocated = 1 ↔ i = k) := by
        intro i hi
        simp at hi
        subst hi
        exact ⟨fun _ => rfl, fun _ => hkal⟩
      have hEperm0 : List.Perm s.gap_ix (([] : List Gap) ++ s.gap_ix) := by simp
      have hEmap0 : List.Perm (([] : List Gap).map (fun g => g.node))
          (((k :: ([] : List Nat)).filter (fun i => (nodeAt s.node_heap i).allocated == 0)).map some) := by
        simp [hkal]
      have hFperm0 : List.Perm sD.gap_ix
          ({ size := ((k :: ([] : List Nat)).map (fun i => (nodeAt s.node_heap i).alloc_record.size)).sum, node := some k } :: s.gap_ix) := by
        have h2 : ((k :: ([] : List Nat)).map (fun i => (nodeAt s.node_heap i).alloc_record.size)).sum =
            (nodeAt sB.node_heap k).alloc_record.size := by
          rw [hBk]
          simp
        rw [h2]
        exact haperm
      refine ⟨?_, l₁ ++ k :: l₂, ?_⟩
      · rw [hats]
        exact hBts
      refine wf_del_common hwf hch0 (by simp) hallocA hMal hLal hlenD ?_ ?_ ?_ ?_ ?_ ?_ ?_ ?_ ?_ ?_ hEperm0 hEmap0 hFperm0
      · refine ⟨?_, ?_, ?_, ?_, ?_, ?_⟩
        · rw [hDk]
        · rw [hDk]
        · rw [hDk]
        · rw [hDk]
          simp
        · rw [hDk]
        · rw [hDk]
          exact hklinks.1
      · intro i hi
        simp at hi
      · intro m hm
        have hmM : m ∈ l₂ := List.mem_of_mem_head? hm
        have hmk : m ≠ k := fun h => hknl₂ (h ▸ hmM)
        rw [hDne m hmk]
        exact ⟨rfl, rfl, rfl, rfl, hheadprev m hm⟩
      · intro i hik _ _
        exact hDne i hik
      · rw [hat]
        exact hBtn
      · rw [hau]
        exact hBun
      · rw [hats]
        exact hBts
      · rw [haas]
        exact hBas
      · rw [hana]
        exact hBna
      · rw [hang, hBng]
        simp

end MemPool
namespace MemPool

/-- A live client handle: its descriptor slot is in range, active and
    allocated (what a well-behaved client holds between allocate and free). -/
def ValidHandle (s : PoolMgr) (k : Nat) : Prop :=
  k < s.node_heap.length ∧ (nodeAt s.node_heap k).used = 1 ∧
  (nodeAt s.node_heap k).allocated = 1

instance (s : PoolMgr) (k : Nat) : Decidable (ValidHandle s k) := by
  unfold ValidHandle
  infer_instance

/-- Pool states a client can produce: open the pool, then any sequence of
    allocations (of positive size) and frees of live handles, successful or
    not. -/
inductive Reachable (N : Nat) (pol : AllocPolicy) : PoolMgr → Prop
  | start : Reachable N pol (mem_pool_open N pol)
  | alloc {s : PoolMgr} (R : Nat) (hR : 1 ≤ R) (hs : Reachable N pol s) :
      Reachable N pol (mem_new_alloc s R).1
  | free {s : PoolMgr} (k : Nat) (hs : Reachable N pol s) (hk : ValidHandle s k) :
      Reachable N pol (mem_del_alloc s (handleRec s k)).1

/-- Every reachable pool state is well formed. -/
theorem reachable_wf {N : Nat} {pol : AllocPolicy} {s : PoolMgr}
    (h : Reachable N pol s) : ∃ ch, WF s ch := by
  induction h with
  | start => exact ⟨[0], wf_open N pol⟩
  | alloc R hR hs ih =>
      obtain ⟨ch, hwf⟩ := ih
      exact (wf_new_alloc R hwf hR).1
  | free k hs hk ih =>
      obtain ⟨ch, hwf⟩ := ih
      obtain ⟨hk1, hk2, hk3⟩ := hk
      have hkch : k ∈ ch := by
        by_contra hno
        have h0 := hwf.cover k hk1 hno
        rw [h0] at hk2
        exact absurd hk2 (by simp [freshNode])
      exact (wf_del_alloc hwf hkch hk3).2.2

/-- With positive block sizes, a block starting exactly where another ends is
    its chain successor. -/
theorem chainOK_next_of_addr {H : List Node} :
    ∀ {ch : List Nat} {off : Nat} {pr : Option Nat}, chainOK H ch off pr →
      (∀ m ∈ ch, 1 ≤ (nodeAt H m).alloc_record.size) →
      ∀ i ∈ ch, ∀ j ∈ ch, ∀ o,
        (nodeAt H i).alloc_record.mem = some o →
        (nodeAt H j).alloc_record.mem = some (o + (nodeAt H i).alloc_record.size) →
        (nodeAt H i).next = some j
  | [], _, _, hc => hc.elim
  | [a], off, pr, hc => by
      intro hsz i hi j hj o hoi hoj
      simp at hi hj
      exfalso
      rw [hi] at hoi
      rw [hj, hi] at hoj
      rw [hoi] at hoj
      have h2 := Option.some.inj hoj
      have hsa := hsz a (by simp)
      omega
  | a :: b :: rest, off, pr, hc => by
      intro hsz i hi j hj o hoi hoj
      obtain ⟨h1, h2, h3, h4, h5, h6⟩ := hc
      have hsa : 1 ≤ (nodeAt H a).alloc_record.size := hsz a (by simp)
      have hge := chainOK_mem_ge h6
      rcases List.mem_cons.mp hi with hia | hirest
      · subst hia
        have hoa : o = off := by
          rw [h3] at hoi
          exact (Option.some.inj hoi).symm
        rcases List.mem_cons.mp hj with hja | hjrest
        · subst hja
          rw [h3] at hoj
          have h7 := Option.some.inj hoj
          exfalso
          omega
        · have hbmem : (nodeAt H b).alloc_record.mem =
              some (off + (nodeAt H i).alloc_record.size) := by
            cases rest with
            | nil => exact h6.2.2.1
            | cons c cs => exact h6.2.2.1
          have hinj := chainOK_mem_inj h6 (fun m hm => hsz m (by simp [hm]))
          have hjb : j = b := by
            apply hinj j hjrest b (by simp)
            rw [hoj, hbmem, hoa]
          subst hjb
          exact h5
      · rcases List.mem_cons.mp hj with hja | hjrest
        · subst hja
          obtain ⟨oi, hoi', hgei⟩ := hge i hirest
          rw [hoi'] at hoi
          have h7 := Option.some.inj hoi
          rw [h3] at hoj
          have h8 := Option.some.inj hoj
          have hsi := hsz i (by simp [hirest])
          exfalso
          omega
        · exact chainOK_next_of_addr h6 (fun m hm => hsz m (by simp [hm]))
            i hirest j hjrest o hoi hoj

/-- C1: on every reachable pool state, freeing a live handle succeeds
    (ALLOC_OK) and afterwards the active descriptors again form the linked
    partition of the buffer, in which no two address-adjacent active blocks
    are both free: whenever an active block starts exactly where another
    active block ends, at least one of the two is allocated — the freed block
    has been coalesced with any free neighbor rather than left beside it. -/
theorem del_alloc_coalesces {N : Nat} {pol : AllocPolicy} {s : PoolMgr} {k : Nat}
    (hreach : Reachable N pol s) (hk : ValidHandle s k) :
    (mem_del_alloc s (handleRec s k)).2 = AllocStatus.ALLOC_OK ∧
    ∃ ch', chainOK (mem_del_alloc s (handleRec s k)).1.node_heap ch' 0 none ∧
      (∀ i ∈ ch', (nodeAt (mem_del_alloc s (handleRec s k)).1.node_heap i).used = 1) ∧
      (∀ i ∈ ch', ∀ j ∈ ch', ∀ o,
        (nodeAt (mem_del_alloc s (handleRec s k)).1.node_heap i).alloc_record.mem = some o →
        (nodeAt (mem_del_alloc s (handleRec s k)).1.node_heap j).alloc_record.mem =
          some (o + (nodeAt (mem_del_alloc s (handleRec s k)).1.node_heap i).alloc_record.size) →
        (nodeAt (mem_del_alloc s (handleRec s k)).1.node_heap i).allocated = 1 ∨
        (nodeAt (mem_del_alloc s (handleRec s k)).1.node_heap j).allocated = 1) := by
  obtain ⟨ch, hwf⟩ := reachable_wf hreach
  obtain ⟨hk1, hk2, hk3⟩ := hk
  have hkch : k ∈ ch := by
    by_contra hno
    have h0 := hwf.cover k hk1 hno
    rw [h0] at hk2
    exact absurd hk2 (by simp [freshNode])
  obtain ⟨hok, htot, ch', hwf'⟩ := wf_del_alloc hwf hkch hk3
  refine ⟨hok, ch', hwf'.chain, fun i hi => (chainOK_mem hwf'.chain i hi).2, ?_⟩
  have hSk1 : 1 ≤ (nodeAt s.node_heap k).alloc_record.size := hwf.szalloc k hkch hk3
  have htot0 : s.pool.total_size ≠ 0 := by
    obtain ⟨A, B, hAB⟩ := List.append_of_mem hkch
    have h0 := hwf.total
    rw [hAB, List.map_append, List.map_cons, List.sum_append, List.sum_cons] at h0
    omega
  have htot0' : (mem_del_alloc s (handleRec s k)).1.pool.total_size ≠ 0 := by
    rw [htot]
    exact htot0
  have hsz' : ∀ m ∈ ch',
      1 ≤ (nodeAt (mem_del_alloc s (handleRec s k)).1.node_heap m).alloc_record.size :=
    fun m hm => (hwf'.sizes m hm).resolve_right htot0'
  intro i hi j hj o hoi hoj
  have hsucc := chainOK_next_of_addr hwf'.chain hsz' i hi j hj o hoi hoj
  obtain ⟨A, B, hAB⟩ := List.append_of_mem hi
  have hnext := (chainOK_links (hAB ▸ hwf'.chain)).1
  rw [hsucc] at hnext
  cases hB : B with
  | nil =>
      rw [hB] at hnext
      exact absurd hnext (by simp)
  | cons b B' =>
      rw [hB] at hnext
      have hbj : b = j := (Option.some.inj hnext).symm
      subst hbj
      have hadj : noAdj (mem_del_alloc s (handleRec s k)).1.node_heap (i :: b :: B') := by
        have h0 := hwf'.hadj
        rw [hAB, hB] at h0
        exact noAdj_append_right h0
      exact hadj.1

/-- C1 witness: open a 100-byte FIRST_FIT pool, allocate 30 bytes (slot 0),
    then free that handle. -/
theorem del_alloc_coalesces_witness :
    ValidHandle (mem_new_alloc (mem_pool_open 100 AllocPolicy.FIRST_FIT) 30).1 0 ∧
    (mem_del_alloc (mem_new_alloc (mem_pool_open 100 AllocPolicy.FIRST_FIT) 30).1
      (handleRec (mem_new_alloc (mem_pool_open 100 AllocPolicy.FIRST_FIT) 30).1 0)).2 =
      AllocStatus.ALLOC_OK :=
  ⟨by decide,
   (del_alloc_coalesces (Reachable.alloc 30 (by decide) Reachable.start) (by decide)).1⟩

/-- C2 counterexample: the accounting invariant does not survive arbitrary
    within-capacity call sequences. In doubleFreeState — reached by
    open(200); A = alloc(10); alloc(20); free(A), where the invariant still
    holds (180 free + 20 allocated = 200) — repeating free(A) with the stale
    handle is accepted with ALLOC_OK (the lookup matches A's address against
    the now-free descriptor), decrements alloc_size by 10 a second time and
    adds a duplicate gap entry, after which the active free blocks sum to 180
    while alloc_size is 10: 190 ≠ 200. -/
theorem double_free_breaks_accounting :
    freeSizeSum doubleFreeState + doubleFreeState.pool.alloc_size =
      doubleFreeState.pool.total_size ∧
    (mem_del_alloc doubleFreeState (handleRec doubleFreeState 0)).2 =
      AllocStatus.ALLOC_OK ∧
    freeSizeSum (mem_del_alloc doubleFreeState (handleRec doubleFreeState 0)).1 +
        (mem_del_alloc doubleFreeState (handleRec doubleFreeState 0)).1.pool.alloc_size ≠
      (mem_del_alloc doubleFreeState (handleRec doubleFreeState 0)).1.pool.total_size := by
  decide

/-- C2 (amended): across any client-reachable state — any sequence of
    positive-size allocates and frees of live allocations on one pool — the
    total size of the active free blocks plus the pool's alloc_size equals its
    total_size. The restriction to frees of live allocations is necessary:
    a stale free of an already-freed handle is accepted by the code and
    breaks the equation. -/
theorem free_size_accounting {N : Nat} {pol : AllocPolicy} {s : PoolMgr}
    (hreach : Reachable N pol s) :
    freeSizeSum s + s.pool.alloc_size = s.pool.total_size := by
  obtain ⟨ch, hwf⟩ := reachable_wf hreach
  exact wf_freeSizeSum hwf

/-- C2 witness: the invariant evaluated after open(100), allocate(30),
    free of that block. -/
theorem free_size_accounting_witness :
    freeSizeSum (mem_del_alloc (mem_new_alloc (mem_pool_open 100 AllocPolicy.FIRST_FIT) 30).1
        (handleRec (mem_new_alloc (mem_pool_open 100 AllocPolicy.FIRST_FIT) 30).1 0)).1 +
      (mem_del_alloc (mem_new_alloc (mem_pool_open 100 AllocPolicy.FIRST_FIT) 30).1
        (handleRec (mem_new_alloc (mem_pool_open 100 AllocPolicy.FIRST_FIT) 30).1 0)).1.pool.alloc_size =
      (mem_del_alloc (mem_new_alloc (mem_pool_open 100 AllocPolicy.FIRST_FIT) 30).1
        (handleRec (mem_new_alloc (mem_pool_open 100 AllocPolicy.FIRST_FIT) 30).1 0)).1.pool.total_size :=
  free_size_accounting
    (Reachable.free 0 (Reachable.alloc 30 (by decide) Reachable.start) (by decide))

/-- C6: on every reachable pool state, a failed allocate (returning NULL) and
    a failed free (returning NOT_FREED) leave the pool manager — descriptor
    table, linked partition, gap index and all pool counters — exactly as it
    was. -/
theorem failed_call_frame {N : Nat} {pol : AllocPolicy} {s : PoolMgr}
    (hreach : Reachable N pol s) :
    (∀ R, 1 ≤ R → (mem_new_alloc s R).2 = none → (mem_new_alloc s R).1 = s) ∧
    (∀ a, (mem_del_alloc s a).2 = AllocStatus.ALLOC_NOT_FREED → (mem_del_alloc s a).1 = s) := by
  obtain ⟨ch, hwf⟩ := reachable_wf hreach
  exact ⟨fun R hR => (wf_new_alloc R hwf hR).2,
    fun a => mem_del_alloc_not_freed_frame s a⟩

/-- C6 witness: on a fresh 50-byte pool an oversized allocation and a free of
    an unknown address both fail and change nothing. -/
theorem failed_call_frame_witness :
    (mem_new_alloc (mem_pool_open 50 AllocPolicy.FIRST_FIT) 60).1 =
      mem_pool_open 50 AllocPolicy.FIRST_FIT ∧
    (mem_del_alloc (mem_pool_open 50 AllocPolicy.FIRST_FIT) { mem := some 7, size := 5 }).1 =
      mem_pool_open 50 AllocPolicy.FIRST_FIT :=
  ⟨(failed_call_frame Reachable.start).1 60 (by decide) (by decide),
   (failed_call_frame Reachable.start).2 { mem := some 7, size := 5 } (by decide)⟩

end MemPool
